import Mathlib

/-!
# PMAT (Physical Memory Analysis Tool): a shallow embedding of `pmat.c`

Platform conventions of the embedding (Linux, LP64, little-endian):

* `unsigned char`, `unsigned short`, `unsigned int` / `uint32_t`, `unsigned long` / `size_t`
  are 1, 2, 4 and 8 bytes wide; `int` is 32 bits, `off_t` is a signed 64-bit integer.
* Memory is a map from byte index to byte value; a multi-byte object is stored
  little-endian.  A mapping obtained from `mmap(..., MAP_SHARED, fd, off)` is a view on the
  bytes of the file: the byte at `map_base + j` is the byte of the file at offset `off + j`.
  Accesses past the end of a mapping or of a `malloc` block are carried out on the
  neighbouring bytes of the same memory (no fault is modelled).
* Unsigned arithmetic wraps modulo `2 ^ width`.
* Loops that may not end take an allowance of iterations; the calls of the C library and of
  the system (`printf`, `malloc`, `open`, `mmap`, `munmap`, `close`, `exit`) appear as a list
  of events, their results being given by a `World`.
-/

namespace Pmat

/-! ## Enumerations and the global `params` record (pmat.c 27-56) -/

inductive operation_type where
  | NONE | READ | WRITE
  deriving DecidableEq, Repr

inductive write_type where
  | ASSIGN | XOR | OR | AND
  deriving DecidableEq, Repr

inductive data_size_type where
  | BYTE | WORD | DWORD
  deriving DecidableEq, Repr

open operation_type write_type data_size_type

/-- The global `params` structure.  `address`, `length`, `length_in_bytes` and `iterations`
are `off_t` (signed 64-bit), `value` is an `unsigned long`. -/
structure Params where
  operation : operation_type
  write_operation : write_type
  path : List Char
  address : Int
  length : Int
  length_in_bytes : Int
  iterations : Int
  value : Nat
  data_size : data_size_type
  deriving DecidableEq

/-- `BYTE_SIZE`, `WORD_SIZE`, `DWORD_SIZE`: the width in bytes of the C type used for an
element of the given size (`unsigned char`, `unsigned short`, `unsigned int`). -/
def elem_bytes : data_size_type → Nat
  | BYTE => 1
  | WORD => 2
  | DWORD => 4

/-! ## Byte memory -/

/-- A byte-addressed memory.  Only the low 8 bits of a cell are ever observed. -/
abbrev Mem := Nat → Nat

/-- Little-endian load of an `n`-byte unsigned object at byte index `a`. -/
def load (m : Mem) : Nat → Nat → Nat
  | _, 0 => 0
  | a, n + 1 => m a % 256 + 256 * load m (a + 1) n

/-- Little-endian store of the low `8 * n` bits of `v` at byte index `a`. -/
def store (m : Mem) : Nat → Nat → Nat → Mem
  | _, 0, _ => m
  | a, n + 1, v => store (fun j => if j = a then v % 256 else m j) (a + 1) n (v / 256)

/-- The typed load `((T *)base)[i]`, `T` the element type of `ds`. -/
def load_elem (ds : data_size_type) (m : Mem) (base i : Nat) : Nat :=
  load m (base + i * elem_bytes ds) (elem_bytes ds)

/-- One iteration of the copy loops (pmat.c 143-153, 204-214, 270-280):
`((T *)dst)[i] = ((T *)src)[i]`, the `switch` on `params.data_size` choosing `T`. -/
def copy_elem (ds : data_size_type) (src : Mem) (sbase : Nat) (dst : Mem) (dbase i : Nat) :
    Mem :=
  match ds with
  | BYTE => store dst (dbase + i * 1) 1 (load src (sbase + i * 1) 1)
  | WORD => store dst (dbase + i * 2) 2 (load src (sbase + i * 2) 2)
  | DWORD => store dst (dbase + i * 4) 4 (load src (sbase + i * 4) 4)

/-- The loop `for (i = 0; i < n; i++) ((T *)dst)[i] = ((T *)src)[i];` run for `i = 0 .. n-1`
in increasing order; the result is the destination memory. -/
def copy_loop (ds : data_size_type) (src : Mem) (sbase : Nat) (dst : Mem) (dbase : Nat) :
    Nat → Mem
  | 0 => dst
  | n + 1 => copy_elem ds src sbase (copy_loop ds src sbase dst dbase n) dbase n

/-! ## Machine integers -/

/-- Conversion of a signed integer to `unsigned long` / `uintmax_t` (64 bits). -/
def to_u64 (x : Int) : Nat := (x % 2 ^ 64).toNat

/-- Wrap to `unsigned int` (32 bits). -/
def u32 (n : Nat) : Nat := n % 2 ^ 32

/-- Wrap an integer to `off_t` (signed 64 bits, two's complement). -/
def wrap_off (x : Int) : Int := (x + 2 ^ 63) % 2 ^ 64 - 2 ^ 63

/-- Unsigned 32-bit subtraction `a - b` of two `unsigned int` values. -/
def usub32 (a b : Nat) : Nat := (a + 2 ^ 32 - b) % 2 ^ 32

/-- The expression `x & ~(page_size - 1)` for an `off_t` `x`: `page_size` is an `int`, the
complement is taken in `int` (`~y = -y - 1`) and sign-extended to `off_t`; the conjunction
acts on the 64-bit two's complement patterns and the result is read back as an `off_t`. -/
def page_floor (x : Int) (page_size : Int) : Int :=
  wrap_off ((to_u64 x &&& to_u64 (Int.lnot (page_size - 1)) : Nat) : Int)

/-! ## alignment_check (pmat.c 293-311) -/

/-- The value `alignment_check` returns: `params.address & (SIZE - 1)` computed in
`unsigned long`, 0 for BYTE. -/
def alignment_check (p : Params) : Nat :=
  match p.data_size with
  | BYTE => 0
  | WORD => to_u64 p.address &&& (2 - 1)
  | DWORD => to_u64 p.address &&& (4 - 1)

/-! ## write_operation (pmat.c 172-291) -/

/-- The `switch (params.data_size)` of pmat.c 218-267: the operation applied to the first
element of `buf`.  BYTE and WORD use `unsigned char` / `unsigned short`; DWORD uses
`uint32_t` for ASSIGN and AND and `unsigned long` (8 bytes) for XOR and OR. -/
def write_modify (p : Params) (buf : Mem) : Mem :=
  match p.data_size with
  | BYTE =>
    match p.write_operation with
    | ASSIGN => store buf 0 1 (p.value % 2 ^ 8)
    | XOR => store buf 0 1 (load buf 0 1 ^^^ (p.value % 2 ^ 8))
    | OR => store buf 0 1 (load buf 0 1 ||| (p.value % 2 ^ 8))
    | AND => store buf 0 1 (load buf 0 1 &&& (p.value % 2 ^ 8))
  | WORD =>
    match p.write_operation with
    | ASSIGN => store buf 0 2 (p.value % 2 ^ 16)
    | XOR => store buf 0 2 (load buf 0 2 ^^^ (p.value % 2 ^ 16))
    | OR => store buf 0 2 (load buf 0 2 ||| (p.value % 2 ^ 16))
    | AND => store buf 0 2 (load buf 0 2 &&& (p.value % 2 ^ 16))
  | DWORD =>
    match p.write_operation with
    | ASSIGN => store buf 0 4 (p.value % 2 ^ 32)
    | XOR => store buf 0 8 (load buf 0 8 ^^^ (p.value % 2 ^ 64))
    | OR => store buf 0 8 (load buf 0 8 ||| (p.value % 2 ^ 64))
    | AND => store buf 0 4 (load buf 0 4 &&& (p.value % 2 ^ 32))

/-- The file offset designated by the pointer `temp = map_base + (address - aligned_address)`
of pmat.c 181-199, `map_base` being the start of a mapping of the file at `aligned_address`. -/
def write_temp (page_size : Int) (p : Params) : Nat :=
  let aligned_address :=
    if ¬ (p.address = page_floor p.address page_size) then page_floor p.address page_size
    else p.address
  (aligned_address + wrap_off (p.address - aligned_address)).toNat

/-- The local `aligned_address` of `write_operation` (pmat.c 181-185), the offset passed to
`mmap`. -/
def write_aligned_address (page_size : Int) (p : Params) : Int :=
  if ¬ (p.address = page_floor p.address page_size) then page_floor p.address page_size
  else p.address

/-- The offset `params.address - aligned_address` of `temp` within the one-page mapping of
`write_operation` (pmat.c 199). -/
def write_offset (page_size : Int) (p : Params) : Int :=
  wrap_off (p.address - write_aligned_address page_size p)

/-- The body of `write_operation` once `open` and `mmap` have succeeded (pmat.c 199-281),
on the bytes of the file (`region`) and the bytes of the heap block `buf`:
shadow copy unless ASSIGN, the operation on `buf`, then the copy back.
Returns the file and the buffer after the call. -/
def write_operation (page_size : Int) (p : Params) (region buf : Mem) : Mem × Mem :=
  let temp := write_temp page_size p
  let buf1 :=
    if p.write_operation ≠ ASSIGN then
      copy_loop p.data_size region temp buf 0 p.length.toNat
    else buf
  let buf2 := write_modify p buf1
  let region1 := copy_loop p.data_size buf2 0 region temp p.length.toNat
  (region1, buf2)

/-! ## hexdump (pmat.c 314-386) -/

/-- The conversions `%.Nx` / `%.Njx` of `printf`: lowercase hexadecimal, padded with zeros on
the left to at least `prec` digits. -/
def printf_x (prec v : Nat) : List Char :=
  List.replicate (prec - (Nat.toDigits 16 v).length) '0' ++ Nat.toDigits 16 v

/-- The output of `for (v = lo; v < hi; v++) body(v)`. -/
def for_range (lo hi : Nat) (body : Nat → List Char) : List Char :=
  (List.range' lo (hi - lo)).flatMap body

/-- The local `mod` of `hexdump`: elements per row. -/
def hexdump_mod : data_size_type → Nat
  | BYTE => 16
  | WORD => 8
  | DWORD => 4

/-- The local `bytes` of `hexdump`: bytes per element. -/
def hexdump_bytes : data_size_type → Nat
  | BYTE => 1
  | WORD => 2
  | DWORD => 4

/-- One iteration of `while (i < len)` (pmat.c 343-384) entered with index `i`: the new value
of `i` and the characters printed.  `i`, `n`, `m`, `x`, `mod`, `bytes` are `unsigned int`. -/
def hexdump_step (data : Mem) (len : Nat) (address : Int) (ds : data_size_type)
    (pfx : List Char) (i : Nat) : Nat × List Char :=
  let mod := hexdump_mod ds
  let bytes := hexdump_bytes ds
  let out1 :=
    if i % mod = 0 then
      pfx ++ printf_x 8 (to_u64 (wrap_off ((u32 (i * bytes) : Nat) + address))) ++ [':', ' ']
    else []
  let out2 :=
    match ds with
    | BYTE => printf_x 2 (load data (i * 1) 1) ++ [' ']
    | WORD => printf_x 4 (load data (i * 2) 2) ++ [' ']
    | DWORD => printf_x 8 (load data (i * 4) 4) ++ [' ']
  let i := u32 (i + 1)
  let out3 := if i % (mod / 2) = 0 then [' '] else []
  let out4 :=
    if i % mod = 0 ∨ i = len then
      let pad :=
        if i % mod ≠ 0 then
          (if i % mod < mod / 2 then [' '] else []) ++
          for_range (i % mod) mod
            (fun _ => for_range 0 (u32 (bytes * 2) + 1) (fun _ => [' '])) ++
          [' ']
        else []
      let n :=
        if i % mod ≠ 0 then u32 (usub32 i (i % mod) * bytes) else u32 (usub32 i mod * bytes)
      let m := if i % mod ≠ 0 then u32 (u32 (i % mod * bytes) + n) else u32 (16 + n)
      pad ++ ['|'] ++
      for_range n m (fun n =>
        let c := data n % 256
        [if c < 32 ∨ c > 126 then '.' else Char.ofNat c]) ++
      (if i % mod ≠ 0 then
        for_range (u32 (i % mod * bytes)) (u32 (mod * bytes)) (fun _ => [' '])
       else []) ++
      ['|', '\n']
    else []
  (i, out1 ++ out2 ++ out3 ++ out4)

/-- The loop `while (i < len)` of `hexdump` started at index `i`, run for at most `fuel`
iterations: `none` when the loop is still running after `fuel` iterations, otherwise
everything printed. -/
def hexdump_loop (data : Mem) (len : Nat) (address : Int) (ds : data_size_type)
    (pfx : List Char) : Nat → Nat → Option (List Char)
  | 0, i => if i < len then none else some []
  | fuel + 1, i =>
    if i < len then
      (hexdump_loop data len address ds pfx fuel (hexdump_step data len address ds pfx i).1).map
        (fun rest => (hexdump_step data len address ds pfx i).2 ++ rest)
    else some []

/-- The function `hexdump(p, len, address, data_size, prefix)`: nothing is printed for a null
`p`; otherwise the loop starts at `i = 0`.  `len` is a `size_t`; the result is `none` when the
loop does not finish within `fuel` iterations. -/
def hexdump (fuel : Nat) (p : Option Mem) (len : Nat) (address : Int) (ds : data_size_type)
    (pfx : List Char) : Option (List Char) :=
  match p with
  | none => some []
  | some data => hexdump_loop data len address ds pfx fuel 0

/-- The characters printed by the first `n` iterations of the loop `while (i < len)` of
`hexdump` started at index `i` (by all its iterations when the loop ends earlier). -/
def hexdump_trace (data : Mem) (len : Nat) (address : Int) (ds : data_size_type)
    (pfx : List Char) : Nat → Nat → List Char
  | 0, _ => []
  | n + 1, i =>
    if i < len then
      (hexdump_step data len address ds pfx i).2 ++
        hexdump_trace data len address ds pfx n (hexdump_step data len address ds pfx i).1
    else []

/-- The reads of the buffer in one iteration of `while (i < len)` (pmat.c 343-384) entered
with index `i`: the index of the element read at pmat.c 349-355 (an index into the buffer as
an array of elements) and the byte indices `n .. m - 1` read by the panel loop of
pmat.c 374-378, `n` and `m` computed in `unsigned int` as in `hexdump_step`. -/
def hexdump_step_reads (len : Nat) (ds : data_size_type) (i : Nat) : List Nat × List Nat :=
  let mod := hexdump_mod ds
  let bytes := hexdump_bytes ds
  let elem := i
  let i := u32 (i + 1)
  let panel :=
    if i % mod = 0 ∨ i = len then
      let n :=
        if i % mod ≠ 0 then u32 (usub32 i (i % mod) * bytes) else u32 (usub32 i mod * bytes)
      let m := if i % mod ≠ 0 then u32 (u32 (i % mod * bytes) + n) else u32 (16 + n)
      List.range' n (m - n)
    else []
  ([elem], panel)

/-- The reads of the buffer in the first `n` iterations of the loop of `hexdump` started at
index `i`: element indices and panel byte indices, in the order of the reads. -/
def hexdump_reads (len : Nat) (ds : data_size_type) : Nat → Nat → List Nat × List Nat
  | 0, _ => ([], [])
  | n + 1, i =>
    if i < len then
      ((hexdump_step_reads len ds i).1 ++ (hexdump_reads len ds n (u32 (i + 1))).1,
       (hexdump_step_reads len ds i).2 ++ (hexdump_reads len ds n (u32 (i + 1))).2)
    else ([], [])

/-! ## read_operation (pmat.c 109-170) -/

/-- The local `aligned_address` of `read_operation` (pmat.c 117), the offset passed to
`mmap`. -/
def read_aligned_address (page_size : Int) (p : Params) : Int :=
  page_floor p.address page_size

/-- The local `aligned_length` of `read_operation` after pmat.c 118-119, the length passed to
`mmap`. -/
def read_aligned_length (page_size : Int) (p : Params) : Int :=
  let aligned_length :=
    wrap_off (p.length_in_bytes + wrap_off (p.address - read_aligned_address page_size p))
  page_floor (wrap_off (aligned_length + (page_size - 1))) page_size

/-- The file offset designated by the pointer `temp = map_base + (address - aligned_address)`
of pmat.c 137, `map_base` being the start of a mapping of the file at `aligned_address`. -/
def read_temp (page_size : Int) (p : Params) : Nat :=
  (read_aligned_address page_size p +
    wrap_off (p.address - read_aligned_address page_size p)).toNat

/-- One pass of the `while (run)` loop of `read_operation` (pmat.c 141-155): the copy loop
into `buf`, then `hexdump(buf, params.length, params.address, params.data_size, "")`.
Returns the buffer after the copy and the dump. -/
def read_pass (fuel : Nat) (page_size : Int) (p : Params) (region buf : Mem) :
    Mem × Option (List Char) :=
  let temp := read_temp page_size p
  let buf1 := copy_loop p.data_size region temp buf 0 p.length.toNat
  (buf1, hexdump fuel (some buf1) (to_u64 p.length) p.address p.data_size [])


/-! ## C strings and the library functions used by parse_params -/

/-- The NUL character. -/
def NUL : Char := Char.ofNat 0

/-- The C string that starts at offset `i` of a buffer: the characters up to the first NUL.
A buffer holds the characters of one argument, its final NUL left out. -/
def cstr (buf : List Char) (i : Nat) : List Char :=
  (buf.drop i).takeWhile (fun c => c ≠ NUL)

/-- The function `strstr`: the offset of the first occurrence of `needle` in the string, or
`none` for a null result. -/
def strstr : List Char → List Char → Option Nat
  | [], needle => if needle = [] then some 0 else none
  | c :: cs, needle =>
    if needle.isPrefixOf (c :: cs) then some 0 else (strstr cs needle).map (fun i => i + 1)

/-- What a call of `strtok` leaves behind: the offset of the token it returns (`none` for a
null pointer), the buffer (a NUL written over the delimiter that ends the token) and the
position saved for the next call with a null first argument. -/
structure Strtok where
  token : Option Nat
  buf : List Char
  save : Nat

/-- The function `strtok` started at offset `start` of the buffer: skip delimiters, return
null if the string ends there, otherwise scan the token and end it with a NUL. -/
def strtok (buf : List Char) (start : Nat) (delim : List Char) : Strtok :=
  let p := start + ((cstr buf start).takeWhile (fun c => c ∈ delim)).length
  if cstr buf p = [] then ⟨none, buf, p⟩
  else
    let q := p + ((cstr buf p).takeWhile (fun c => c ∉ delim)).length
    if cstr buf q = [] then ⟨some p, buf, q⟩
    else ⟨some p, buf.set q NUL, q + 1⟩

/-- The value of a digit in base 16, upper or lower case. -/
def hexval (c : Char) : Option Nat :=
  if '0' ≤ c ∧ c ≤ '9' then some (c.toNat - '0'.toNat)
  else if 'a' ≤ c ∧ c ≤ 'f' then some (c.toNat - 'a'.toNat + 10)
  else if 'A' ≤ c ∧ c ≤ 'F' then some (c.toNat - 'A'.toNat + 10)
  else none

/-- The function `isspace` in the C locale. -/
def isspace (c : Char) : Bool :=
  c = ' ' ∨ (9 ≤ c.toNat ∧ c.toNat ≤ 13)

/-- What a call `strtoul(nptr, &endptr, 16)` yields: the value, the offset stored in `endptr`,
and whether `errno` was set to `ERANGE`. -/
structure Strtoul where
  value : Nat
  endptr : Nat
  erange : Bool

/-- The function `strtoul` in base 16 on the C string at offset `nptr`: white space, an
optional sign, an optional `0x`, then digits; without digits the value is 0 and `endptr` is
`nptr` (or points at the `x` of a lone `0x`); a value that does not fit 64 bits gives
`ULONG_MAX` and `ERANGE`; a minus sign negates modulo `2 ^ 64`. -/
def strtoul16 (buf : List Char) (nptr : Nat) : Strtoul :=
  let s := cstr buf nptr
  let ws := (s.takeWhile isspace).length
  let s1 := s.drop ws
  let neg := s1.head? = some '-'
  let sg := if s1.head? = some '-' ∨ s1.head? = some '+' then 1 else 0
  let s2 := s1.drop sg
  let px :=
    match s2 with
    | '0' :: x :: _ => if x = 'x' ∨ x = 'X' then 2 else 0
    | _ => 0
  let digits := (s2.drop px).takeWhile (fun c => (hexval c).isSome)
  if digits = [] then
    if px = 2 then ⟨0, nptr + ws + sg + 1, false⟩ else ⟨0, nptr, false⟩
  else
    let v := digits.foldl (fun acc c => 16 * acc + (hexval c).getD 0) 0
    if 2 ^ 64 ≤ v then ⟨2 ^ 64 - 1, nptr + ws + sg + px + digits.length, true⟩
    else ⟨if neg then (2 ^ 64 - v) % 2 ^ 64 else v, nptr + ws + sg + px + digits.length, false⟩

/-- The function `atoll`: white space, an optional sign, decimal digits; the result is kept
within the range of `long long`. -/
def atoll (s : List Char) : Int :=
  let s1 := s.dropWhile isspace
  let neg := s1.head? = some '-'
  let sg := if s1.head? = some '-' ∨ s1.head? = some '+' then 1 else 0
  let digits := (s1.drop sg).takeWhile (fun c => '0' ≤ c ∧ c ≤ '9')
  let v : Int := digits.foldl (fun acc c => 10 * acc + (c.toNat - '0'.toNat : Nat)) (0 : Int)
  if neg then max (-(2 ^ 63)) (-v) else min (2 ^ 63 - 1) v

/-! ## parse_params (pmat.c 435-540) -/

/-- The global `params` at program start: all fields zero. -/
def params_zero : Params :=
  ⟨NONE, ASSIGN, [], 0, 0, 0, 0, 0, BYTE⟩

/-- The end of `parse_params` (pmat.c 503-539): the data size from the first character of
`data_size_st`, the path, and `length_in_bytes = length * SIZE` computed in `unsigned long`
and stored in an `off_t`.  Returns the return value and `params`. -/
def parse_params_finish (env_dev : Option (List Char)) (p : Params)
    (data_size_st : Option (List Char)) : Nat × Params :=
  let size : Option data_size_type :=
    match data_size_st with
    | none => some BYTE
    | some st =>
      match st.head? with
      | some 'b' => some BYTE
      | some 'B' => some BYTE
      | some 'd' => some DWORD
      | some 'D' => some DWORD
      | some 'w' => some WORD
      | some 'W' => some WORD
      | _ => none
  match size with
  | none => (1, p)
  | some ds =>
    let path := match env_dev with
      | some d => d
      | none => "/dev/mem".toList
    (0, { p with
      data_size := ds
      path := path
      length_in_bytes := wrap_off (((to_u64 p.length * elem_bytes ds) % 2 ^ 64 : Nat) : Int) })

/-- The defaults set at the start of `parse_params` (pmat.c 438-450); `env_iterations` is the
value of `PMAT_ITERATIONS` in the environment. -/
def parse_params_defaults (env_iterations : Option (List Char)) : Params :=
  { params_zero with
    address := -1
    length := 0x10
    value := 0x0
    operation := NONE
    iterations := match env_iterations with
      | some s => atoll s
      | none => 1 }

/-- The search for the operator in `argv[1]` (pmat.c 458-481): `params` with the operation
set, the call of `strtok` that yields `s` (for a read, `s = argv[1]` and nothing is cut),
and the offset of `value_st` (`none` for a null pointer). -/
def parse_operator (p0 : Params) (arg1 : List Char) : Params × Strtok × Option Nat :=
  match strstr arg1 "^=".toList with
  | some t => ({ p0 with operation := WRITE, write_operation := XOR },
      strtok arg1 0 "^=".toList, some (t + 2))
  | none =>
    match strstr arg1 "|=".toList with
    | some t => ({ p0 with operation := WRITE, write_operation := OR },
        strtok arg1 0 "|=".toList, some (t + 2))
    | none =>
      match strstr arg1 "&=".toList with
      | some t => ({ p0 with operation := WRITE, write_operation := AND },
          strtok arg1 0 "&=".toList, some (t + 2))
      | none =>
        match strstr arg1 "=".toList with
        | some t => ({ p0 with operation := WRITE, write_operation := ASSIGN },
            strtok arg1 0 "=".toList, some (t + 1))
        | none => ({ p0 with operation := READ }, ⟨some 0, arg1, 0⟩, none)

/-- The branch `argc == 2` of `parse_params` (pmat.c 457-490) followed by pmat.c 503-539.
`none` when a null pointer is handed to `strtoul` (undefined behaviour). -/
def parse_params_two (env_dev : Option (List Char)) (p0 : Params) (arg1 : List Char) :
    Option (Nat × Params) :=
  let found := parse_operator p0 arg1
  let s := found.2.1.token
  -- strtok(s, "."): with a null `s` the scan resumes at the saved position
  let tok := strtok found.2.1.buf (s.getD found.2.1.save) ".".toList
  match tok.token with
  | none => none
  | some a =>
    let r := strtoul16 tok.buf a
    let p2 := { found.1 with address := wrap_off (r.value : Int) }
    if r.erange ∨ some r.endptr = s then some (1, p2)
    else
      let rest := strtok tok.buf tok.save []
      let data_size_st := rest.token.map (cstr rest.buf)
      match found.2.2 with
      | some v =>
        let rv := strtoul16 rest.buf v
        let p3 := { p2 with value := rv.value }
        if rv.erange ∨ some rv.endptr = s then some (1, p3)
        else some (parse_params_finish env_dev p3 data_size_st)
      | none => some (parse_params_finish env_dev p2 data_size_st)

/-- The branch `argc >= 3` of `parse_params` (pmat.c 491-501) followed by pmat.c 503-539.
`none` when a null pointer is handed to `strtoul` (undefined behaviour). -/
def parse_params_three (env_dev : Option (List Char)) (p0 : Params) (arg1 arg2 : List Char) :
    Option (Nat × Params) :=
  let p1 := { p0 with operation := READ }
  let r := strtoul16 arg1 0
  let p2 := { p1 with address := wrap_off (r.value : Int) }
  if r.erange then some (1, p2)
  else
    let tok := strtok arg2 0 ".".toList
    match tok.token with
    | none => none
    | some a =>
      let rl := strtoul16 tok.buf a
      let p3 := { p2 with length := wrap_off (rl.value : Int) }
      if rl.erange ∨ rl.endptr = a then some (1, p3)
      else
        let rest := strtok tok.buf tok.save []
        some (parse_params_finish env_dev p3 (rest.token.map (cstr rest.buf)))

/-- The function `parse_params(argc, argv)` with `argc = argv.length`; `env_iterations` and
`env_dev` are the values of `PMAT_ITERATIONS` and `PMAT_DEV` in the environment.  The result is
the return value and the global `params`, or `none` when a null pointer is handed to `strtoul`
(undefined behaviour). -/
def parse_params (env_iterations env_dev : Option (List Char)) (argv : List (List Char)) :
    Option (Nat × Params) :=
  match argv with
  | [] => some (1, parse_params_defaults env_iterations)
  | [_] => some (1, parse_params_defaults env_iterations)
  | [_, arg1] => parse_params_two env_dev (parse_params_defaults env_iterations) arg1
  | _ :: arg1 :: arg2 :: _ =>
    parse_params_three env_dev (parse_params_defaults env_iterations) arg1 arg2

/-! ## The pass loop of read_operation (pmat.c 140-159) -/

/-- The variables of the loop `while (run)` of `read_operation`: the flag `run`, the global
`params.iterations`, the bytes of `buf`, and the dumps printed so far, one for each call of
`hexdump` that has returned. -/
structure ReadLoop where
  run : Bool
  iterations : Int
  buf : Mem
  dumps : List (List Char)

/-- One pass of the loop (pmat.c 141-158) on the bytes `region` of the file: the copy loop and
the call of `hexdump` (`read_pass`), then `if (params.iterations) run = (--params.iterations > 0)`.
`none` when the call of `hexdump` does not return within `hfuel` iterations of its loop. -/
def read_loop_body (hfuel : Nat) (page_size : Int) (p : Params) (region : Mem)
    (s : ReadLoop) : Option ReadLoop :=
  match (read_pass hfuel page_size p region s.buf).2 with
  | none => none
  | some dump =>
    if s.iterations ≠ 0 then
      some ⟨decide (wrap_off (s.iterations - 1) > 0), wrap_off (s.iterations - 1),
        (read_pass hfuel page_size p region s.buf).1, s.dumps ++ [dump]⟩
    else
      some ⟨s.run, s.iterations, (read_pass hfuel page_size p region s.buf).1, s.dumps ++ [dump]⟩

/-- The loop `while (run)` after at most `fuel` passes (after all its passes when the loop has
ended by then, which shows as `run = false`); pass number `j` sees the bytes `region j` of the
file.  `none` when a call of `hexdump` does not return. -/
def read_loop (hfuel : Nat) (page_size : Int) (p : Params) (region : Nat → Mem) :
    Nat → ReadLoop → Option ReadLoop
  | 0, s => some s
  | fuel + 1, s =>
    if s.run then
      (read_loop_body hfuel page_size p (region s.dumps.length) s).bind
        (read_loop hfuel page_size p region fuel)
    else some s

/-! ## The calls of the program: output, memory and file operations -/

/-- What the program does to the outside world. -/
inductive Event where
  | stdout (text : List Char)
  | stderr (text : List Char)
  | malloc (size : Nat)
  | free
  | open_ (path : List Char) (writable : Bool)
  | mmap (length : Nat) (writable : Bool) (offset : Int)
  | munmap (length : Nat)
  | close
  deriving DecidableEq

/-- How a function ends: by `return`, by `exit`, or not within the iterations allowed to its
loops. -/
inductive Outcome where
  | returned (value : Int)
  | exited (status : Int)
  | running
  deriving DecidableEq

/-- The events of a call, in order, and how it ends.  With `Outcome.running` the events are
those known to have happened before the allowance ran out. -/
structure Run where
  events : List Event
  outcome : Outcome
  deriving DecidableEq

/-- The answers of the system: the page size, whether `malloc`, `open`, `mmap`, `munmap`
succeed, the address `mmap` returns, the message `perror` appends for the failing call, the
bytes of the block `malloc` returns, and the bytes of the file during pass `j` of the read
loop. -/
structure World where
  page_size : Int
  malloc_ok : Bool
  open_ok : Bool
  mmap_ok : Bool
  munmap_ok : Bool
  map_base : Nat
  strerror : List Char
  heap : Mem
  file : Nat → Mem

/-- The conversion `%p` of `printf`. -/
def printf_p (ptr : Nat) : List Char :=
  if ptr = 0 then "(nil)".toList else ['0', 'x'] ++ printf_x 1 ptr

/-- The conversion `%16s`: padded with spaces on the left to 16 characters. -/
def printf_16s (s : List Char) : List Char :=
  List.replicate (16 - s.length) ' ' ++ s

/-- The conversion `%-16s`: padded with spaces on the right to 16 characters. -/
def printf_left_16s (s : List Char) : List Char :=
  s ++ List.replicate (16 - s.length) ' '

/-- The function `read_operation` (pmat.c 109-170) as a sequence of events; the loop is given
`fuel` passes and each call of `hexdump` `hfuel` iterations. -/
def read_operation (fuel hfuel : Nat) (w : World) (p : Params) : Run :=
  let aligned_address := read_aligned_address w.page_size p
  let aligned_length := read_aligned_length w.page_size p
  if ¬ w.open_ok then
    ⟨[Event.open_ p.path false,
      Event.stdout (p.path ++ " could not be opened.\n".toList)], Outcome.exited 1⟩
  else if ¬ w.mmap_ok then
    ⟨[Event.open_ p.path false, Event.mmap (to_u64 aligned_length) false aligned_address,
      Event.stderr ("Memory map failed: ".toList ++ w.strerror ++ ['\n'])], Outcome.returned 1⟩
  else
    let notice :=
      if p.iterations = 0 then
        [Event.stderr "*** NOTICE - INFINITE LOOP REQUESTED ***\n".toList]
      else []
    let temp := (w.map_base + to_u64 (wrap_off (p.address - aligned_address))) % 2 ^ 64
    let head :=
      [Event.open_ p.path false, Event.mmap (to_u64 aligned_length) false aligned_address] ++
      notice ++ [Event.stdout (printf_p w.map_base ++ [' '] ++ printf_p temp ++ ['\n'])]
    match read_loop hfuel w.page_size p w.file fuel ⟨true, p.iterations, w.heap, []⟩ with
    | none => ⟨head, Outcome.running⟩
    | some s =>
      if s.run then ⟨head ++ s.dumps.map Event.stdout, Outcome.running⟩
      else if ¬ w.munmap_ok then
        ⟨head ++ s.dumps.map Event.stdout ++
          [Event.free, Event.close, Event.munmap (to_u64 aligned_length),
            Event.stdout "Memory unmap failed.\n".toList], Outcome.returned 1⟩
      else
        ⟨head ++ s.dumps.map Event.stdout ++
          [Event.free, Event.close, Event.munmap (to_u64 aligned_length)], Outcome.returned 0⟩

/-- The function `write_operation` (pmat.c 172-291) as a sequence of events; what it does to
the bytes of the file between `mmap` and `munmap` is `write_operation`. -/
def write_operation_calls (w : World) (p : Params) : Run :=
  let aligned_address := write_aligned_address w.page_size p
  if ¬ w.open_ok then
    ⟨[Event.open_ p.path true,
      Event.stdout (p.path ++ " could not be opened.\n".toList)], Outcome.exited 1⟩
  else if ¬ w.mmap_ok then
    ⟨[Event.open_ p.path true, Event.mmap (to_u64 w.page_size) true aligned_address,
      Event.stderr ("Memory map failed: ".toList ++ w.strerror ++ ['\n'])], Outcome.returned 1⟩
  else if ¬ w.munmap_ok then
    ⟨[Event.open_ p.path true, Event.mmap (to_u64 w.page_size) true aligned_address,
      Event.munmap (to_u64 w.page_size),
      Event.stdout "Memory unmap failed.\n".toList], Outcome.returned 1⟩
  else
    ⟨[Event.open_ p.path true, Event.mmap (to_u64 w.page_size) true aligned_address,
      Event.munmap (to_u64 w.page_size), Event.close], Outcome.returned 0⟩

/-- What `alignment_check` prints (pmat.c 307-308). -/
def alignment_check_output (p : Params) : List Event :=
  if alignment_check p ≠ 0 then
    [Event.stdout
      "ERROR: requested memory access is not aligned to data access size.\n".toList]
  else []

/-- What `display_params` prints (pmat.c 388-433). -/
def display_params (p : Params) : List Char :=
  "/------------- params --------------\\\n".toList ++
  "| ".toList ++ printf_left_16s "path".toList ++ [' '] ++ printf_16s p.path ++ " |\n".toList ++
  "| ".toList ++ printf_left_16s "operation".toList ++ [' '] ++
  (match p.operation with
    | NONE => printf_16s "none".toList ++ " |\n".toList
    | READ => printf_16s "read".toList ++ " |\n".toList
    | WRITE =>
      match p.write_operation with
      | ASSIGN => printf_16s "write".toList ++ " |\n".toList
      | XOR => printf_16s "write (xor)".toList ++ " |\n".toList
      | OR => printf_16s "write (or)".toList ++ " |\n".toList
      | AND => printf_16s "write (and)".toList ++ " |\n".toList) ++
  "| ".toList ++ printf_left_16s "address".toList ++ [' '] ++
    printf_16s (printf_x 1 (to_u64 p.address)) ++ " |\n".toList ++
  "| ".toList ++ printf_left_16s "length".toList ++ [' '] ++
    printf_16s (printf_x 1 (to_u64 p.length)) ++ " |\n".toList ++
  "| ".toList ++ printf_left_16s "iterations".toList ++ [' '] ++
    printf_16s (printf_x 1 (to_u64 p.iterations)) ++ " |\n".toList ++
  "| ".toList ++ printf_left_16s "data size".toList ++ [' '] ++
  (match p.data_size with
    | BYTE => printf_16s "byte".toList ++ " |\n".toList
    | WORD => printf_16s "word".toList ++ " |\n".toList
    | DWORD => printf_16s "dword".toList ++ " |\n".toList) ++
  "| ".toList ++ printf_left_16s "data value".toList ++ [' '] ++
    printf_16s (printf_x 1 (p.value % 2 ^ 64)) ++ " |\n".toList ++
  "\\-----------------------------------/\n".toList

/-- The function `basename` of `libgen.h`: the last component of a path, `.` for the empty
path, `/` for a path of slashes only. -/
def basename (path : List Char) : List Char :=
  if path = [] then ['.']
  else
    let stripped := (path.reverse.dropWhile (fun c => c = '/')).reverse
    if stripped = [] then ['/']
    else (stripped.reverse.takeWhile (fun c => c ≠ '/')).reverse

/-- What `usage` prints (pmat.c 542-581); `version` is the string `PMAT_VERSION` of `pmat.h`. -/
def usage (version progname : List Char) : List Char :=
  "\nPhysical Memory Analysis Tool v".toList ++ version ++
  ("\n-----------------------------------------------\n\n" ++
   "NOTICE: this tool is for development purposes only!\n\n" ++
   "READ MEMORY\n-----------\nUsage:\t\t").toList ++ basename progname ++
  " address[.size]\n      \t\t".toList ++ basename progname ++
  (" address length[.size]\n\ndefault length is 0x10\n\n" ++
   "WRITE MEMORY\n------------\nUsage:\t\t").toList ++ basename progname ++
  (" address[.size](OPERATION)value\n\n" ++
   "size is one of the following:\n\tb\tbyte (default)\n\tw\tword\n\td\tdword\n\n" ++
   "operation is one of the following:\n\t=\tassignment\n\t|=\tor with current value\n" ++
   "\t&=\tand with current value\n\t^=\txor with current value\n\n" ++
   "\t(note that certain shells require escaping the |, &, and ^ characters)\n\n" ++
   "all value must be expressed in hexadecimal\n" ++
   "use PMAT_DEV environment variable to override default use of /dev/mem\n" ++
   "use PMAT_ITERATIONS environment variable to repeat commands (0 = infinite)\n" ++
   "define PMAT_DEBUG environment variable to enable verbose printing\n\n").toList

/-- The function `main` (pmat.c 67-107) as a sequence of events, for the environment
variables `PMAT_DEBUG`, `PMAT_ITERATIONS`, `PMAT_DEV` and the argument vector `argv`.
`none` when `parse_params` passes a null pointer to `strtoul`. -/
def main (fuel hfuel : Nat) (w : World) (version : List Char)
    (env_debug env_iterations env_dev : Option (List Char)) (argv : List (List Char)) :
    Option Run :=
  let verbose := env_debug.isSome
  match parse_params env_iterations env_dev argv with
  | none => none
  | some (ret, p) =>
    if ret ≠ 0 then
      some ⟨[Event.stdout (usage version (argv.headD []))], Outcome.exited 1⟩
    else
      let shown := if verbose then [Event.stdout (display_params p)] else []
      if alignment_check p ≠ 0 then
        some ⟨shown ++ alignment_check_output p, Outcome.exited 1⟩
      else if ¬ w.malloc_ok then
        some ⟨shown ++ alignment_check_output p ++
          [Event.malloc (to_u64 p.length_in_bytes),
            Event.stderr ("Malloc failed: ".toList ++ w.strerror ++ ['\n'])],
          Outcome.returned 1⟩
      else
        match p.operation with
        | READ =>
          some ⟨shown ++ alignment_check_output p ++
            [Event.malloc (to_u64 p.length_in_bytes)] ++ (read_operation fuel hfuel w p).events,
            (read_operation fuel hfuel w p).outcome⟩
        | WRITE =>
          some ⟨shown ++ alignment_check_output p ++
            [Event.malloc (to_u64 p.length_in_bytes)] ++ (write_operation_calls w p).events,
            (write_operation_calls w p).outcome⟩
        | NONE =>
          some ⟨shown ++ alignment_check_output p ++
            [Event.malloc (to_u64 p.length_in_bytes)], Outcome.exited 1⟩

/-! ## Reading a dump: lines, hexadecimal fields, rows

The definitions below are not part of the program.  They say how a dump is read (its lines,
the value of a hexadecimal field) and name the parts of a row, so that the theorems on
`hexdump` can speak about them. -/

/-- The lines of a text: the runs of characters ended by a newline (and a last run without
newline, if the text has one). -/
def text_lines : List Char → List (List Char)
  | [] => []
  | c :: cs =>
    if c = '\n' then [] :: text_lines cs
    else
      match text_lines cs with
      | [] => [[c]]
      | l :: ls => (c :: l) :: ls

/-- The value of a lowercase hexadecimal digit. -/
def hex_digit_value (c : Char) : Nat :=
  if c.toNat < 58 then c.toNat - 48 else c.toNat - 87

/-- The number a string of hexadecimal digits denotes, most significant digit first. -/
def hex_value (cs : List Char) : Nat :=
  cs.foldl (fun acc c => 16 * acc + hex_digit_value c) 0

/-- The lowercase hexadecimal digits. -/
def hex_digits : List Char := "0123456789abcdef".toList

/-- The number of rows of a dump of `len` elements: `len / mod` rounded up. -/
def hexdump_row_count (ds : data_size_type) (len : Nat) : Nat :=
  (len + hexdump_mod ds - 1) / hexdump_mod ds

/-- The number of elements in row `k` of a dump of `len` elements. -/
def hexdump_row_elems (ds : data_size_type) (len k : Nat) : Nat :=
  min (hexdump_mod ds) (len - k * hexdump_mod ds)

/-- The address label of row `k`: the 64-bit pattern of `address + k * mod * bytes` in
hexadecimal, at least 8 digits. -/
def hexdump_label (address : Int) (ds : data_size_type) (k : Nat) : List Char :=
  printf_x 8 (to_u64 (address + ((k * hexdump_mod ds * hexdump_bytes ds : Nat) : Int)))

/-- The text of element `j` in the hexadecimal columns: the element in `2 * bytes` digits, a
space, and a second space when `j + 1` is a multiple of `mod / 2`. -/
def hexdump_cell (data : Mem) (ds : data_size_type) (j : Nat) : List Char :=
  printf_x (2 * hexdump_bytes ds) (load data (j * hexdump_bytes ds) (hexdump_bytes ds)) ++
    [' '] ++ (if (j + 1) % (hexdump_mod ds / 2) = 0 then [' '] else [])

/-- The character shown for a byte in the ASCII panel. -/
def ascii_char (b : Nat) : Char :=
  if b % 256 < 32 ∨ b % 256 > 126 then '.' else Char.ofNat (b % 256)

/-- The blank columns that follow the elements of a row of `r` elements: nothing for a full
row; for a short row one space if the row stops before its midpoint, `2 * bytes + 1` spaces
for each missing element, and one more space. -/
def hexdump_gap (ds : data_size_type) (r : Nat) : List Char :=
  if r < hexdump_mod ds then
    (if r < hexdump_mod ds / 2 then [' '] else []) ++
      List.replicate ((hexdump_mod ds - r) * (2 * hexdump_bytes ds + 1)) ' ' ++ [' ']
  else []

/-- The ASCII panel of a row that starts at element `s` and has `r` elements: one character
for each byte of the row. -/
def hexdump_panel (data : Mem) (ds : data_size_type) (s r : Nat) : List Char :=
  (List.range' (s * hexdump_bytes ds) (r * hexdump_bytes ds)).map (fun n => ascii_char (data n))

/-- The spaces that fill the panel of a short row up to 16 characters. -/
def hexdump_panel_fill (ds : data_size_type) (r : Nat) : List Char :=
  if r < hexdump_mod ds then List.replicate ((hexdump_mod ds - r) * hexdump_bytes ds) ' '
  else []

/-- Row `k` of a dump, without its newline: label, colon and space, the elements of the row
in increasing order, the blank columns, and the panel between two bars. -/
def hexdump_row (data : Mem) (len : Nat) (address : Int) (ds : data_size_type)
    (pfx : List Char) (k : Nat) : List Char :=
  pfx ++ hexdump_label address ds k ++ [':', ' '] ++
    (List.range' (k * hexdump_mod ds) (hexdump_row_elems ds len k)).flatMap
      (hexdump_cell data ds) ++
    hexdump_gap ds (hexdump_row_elems ds len k) ++ ['|'] ++
    hexdump_panel data ds (k * hexdump_mod ds) (hexdump_row_elems ds len k) ++
    hexdump_panel_fill ds (hexdump_row_elems ds len k) ++ ['|']

/-! ## Byte memory: loads, stores and the copy loop -/

theorem store_apply (m : Mem) (a n v j : Nat) :
    store m a n v j = if a ≤ j ∧ j < a + n then v / 256 ^ (j - a) % 256 else m j := by
  induction n generalizing m a v with
  | zero => rw [store, if_neg (by omega)]
  | succ n ih =>
    rw [store, ih]
    by_cases h1 : j = a
    · subst h1
      simp
    · by_cases h2 : a + 1 ≤ j ∧ j < a + 1 + n
      · have h3 : a ≤ j ∧ j < a + (n + 1) := by omega
        rw [if_pos h2, if_pos h3]
        have h4 : j - a = (j - (a + 1)) + 1 := by omega
        rw [h4, Nat.pow_succ', Nat.div_div_eq_div_mul]
      · have h3 : ¬ (a ≤ j ∧ j < a + (n + 1)) := by omega
        rw [if_neg h2, if_neg h3, if_neg h1]

theorem load_eq_of_bytes (m : Mem) (a n v : Nat)
    (h : ∀ b, b < n → m (a + b) % 256 = v / 256 ^ b % 256) : load m a n = v % 256 ^ n := by
  induction n generalizing a v with
  | zero => simp [load, Nat.mod_one]
  | succ n ih =>
    rw [load, ih (a + 1) (v / 256), Nat.pow_succ', Nat.mod_mul]
    · have := h 0 (by omega)
      simp at this
      rw [this]
    · intro b hb
      have := h (b + 1) (by omega)
      rw [Nat.add_assoc, Nat.add_comm 1 b, this, Nat.pow_succ', Nat.div_div_eq_div_mul]

theorem load_lt (m : Mem) (a n : Nat) : load m a n < 256 ^ n := by
  induction n generalizing a with
  | zero => simp [load]
  | succ n ih =>
    rw [load, Nat.pow_succ]
    have := ih (a + 1)
    have h2 := Nat.mod_lt (m a) (show 256 > 0 by decide)
    nlinarith

theorem load_byte (m : Mem) (a n b : Nat) (hb : b < n) :
    load m a n / 256 ^ b % 256 = m (a + b) % 256 := by
  induction n generalizing a b with
  | zero => omega
  | succ n ih =>
    rw [load]
    cases b with
    | zero => simp
    | succ b =>
      rw [Nat.pow_succ', ← Nat.div_div_eq_div_mul]
      have : (m a % 256 + 256 * load m (a + 1) n) / 256 = load m (a + 1) n := by omega
      rw [this, ih (a + 1) b (by omega)]
      congr 2
      omega

theorem load_congr (m m2 : Mem) (a a2 n : Nat)
    (h : ∀ b, b < n → m (a + b) % 256 = m2 (a2 + b) % 256) : load m a n = load m2 a2 n := by
  induction n generalizing a a2 with
  | zero => simp [load]
  | succ n ih =>
    rw [load, load, ih (a + 1) (a2 + 1), (by simpa using h 0 (by omega) : m a % 256 = m2 a2 % 256)]
    intro b hb
    have := h (b + 1) (by omega)
    rwa [Nat.add_assoc, Nat.add_comm 1 b, Nat.add_assoc, Nat.add_comm 1 b]

theorem load_store_low (m : Mem) (a n k v : Nat) (hk : k ≤ n) :
    load (store m a n v) a k = v % 256 ^ k := by
  apply load_eq_of_bytes
  intro b hb
  rw [store_apply, if_pos (by omega)]
  simp

theorem load_mod_low (m : Mem) (a n k : Nat) (hk : k ≤ n) :
    load m a n % 256 ^ k = load m a k := by
  symm
  apply load_eq_of_bytes
  intro b hb
  rw [load_byte m a n b (by omega)]

theorem copy_elem_apply (ds : data_size_type) (src : Mem) (sbase : Nat) (dst : Mem)
    (dbase i j : Nat) :
    copy_elem ds src sbase dst dbase i j =
      if dbase + i * elem_bytes ds ≤ j ∧ j < dbase + (i + 1) * elem_bytes ds then
        src (sbase + (j - dbase)) % 256
      else dst j := by
  cases ds <;>
  · simp only [copy_elem, elem_bytes, store_apply]
    split_ifs with h1 h2 h2
    · rw [load_byte _ _ _ _ (by omega)]
      congr 2
      omega
    · omega
    · omega
    · rfl

theorem copy_loop_apply (ds : data_size_type) (src : Mem) (sbase : Nat) (dst : Mem)
    (dbase n j : Nat) :
    copy_loop ds src sbase dst dbase n j =
      if dbase ≤ j ∧ j < dbase + n * elem_bytes ds then src (sbase + (j - dbase)) % 256
      else dst j := by
  induction n with
  | zero => rw [copy_loop, if_neg (by omega)]
  | succ n ih =>
    rw [copy_loop, copy_elem_apply, ih]
    have hs : 0 < elem_bytes ds := by cases ds <;> simp [elem_bytes]
    have e : (n + 1) * elem_bytes ds = n * elem_bytes ds + elem_bytes ds := by ring
    split_ifs <;> first | rfl | omega

/-- After the copy loop, element `i < n` of the destination is element `i` of the source. -/
theorem copy_loop_elem (ds : data_size_type) (src : Mem) (sbase : Nat) (dst : Mem)
    (dbase n i : Nat) (hi : i < n) :
    load_elem ds (copy_loop ds src sbase dst dbase n) dbase i = load_elem ds src sbase i := by
  unfold load_elem
  apply load_congr
  intro b hb
  have h1 : i * elem_bytes ds + elem_bytes ds ≤ n * elem_bytes ds := by
    have : (i + 1) * elem_bytes ds ≤ n * elem_bytes ds := Nat.mul_le_mul_right _ hi
    linarith
  rw [copy_loop_apply, if_pos (by omega), Nat.mod_mod]
  congr 2
  omega

/-! ## Two's complement arithmetic -/

theorem land_high_mask (x k : Nat) (hx : x < 2 ^ 64) (hk : k ≤ 64) :
    x &&& (2 ^ 64 - 2 ^ k) = x - x % 2 ^ k := by
  have e1 : 2 ^ 64 - 2 ^ k = 2 ^ 64 - ((2 ^ k - 1) + 1) := by
    have := Nat.two_pow_pos k
    omega
  have e2 : x - x % 2 ^ k = 2 ^ k * (x / 2 ^ k) := by
    have := Nat.div_add_mod x (2 ^ k)
    omega
  have hlt : 2 ^ k - 1 < 2 ^ 64 := by
    have : 2 ^ k ≤ 2 ^ 64 := Nat.pow_le_pow_right (by decide) hk
    have := Nat.two_pow_pos k
    omega
  apply Nat.eq_of_testBit_eq
  intro i
  rw [e2, Nat.testBit_and, e1, Nat.testBit_two_pow_sub_succ hlt, Nat.testBit_two_pow_sub_one,
    Nat.testBit_mul_pow_two, ← Nat.shiftRight_eq_div_pow, Nat.testBit_shiftRight]
  by_cases h1 : i < 64
  · by_cases h2 : i < k
    · simp [h1, h2]
    · have h3 : k + (i - k) = i := by omega
      simp [h1, h2, h3]
      omega
  · have h4 : x.testBit i = false := by
      apply Nat.testBit_lt_two_pow
      exact Nat.lt_of_lt_of_le hx (Nat.pow_le_pow_right (by decide) (by omega))
    have hki : k ≤ i := by omega
    rw [show k + (i - k) = i by omega, h4]
    simp

theorem wrap_off_of_range (x : Int) (h1 : -(2 ^ 63) ≤ x) (h2 : x < 2 ^ 63) : wrap_off x = x := by
  unfold wrap_off
  omega

theorem to_u64_of_nonneg (x : Int) (h1 : 0 ≤ x) (h2 : x < 2 ^ 64) : to_u64 x = x.toNat := by
  unfold to_u64
  rw [Int.emod_eq_of_lt h1 h2]

theorem to_u64_lnot_pred (P : Nat) (h0 : 0 < P) (h1 : P ≤ 2 ^ 62) :
    to_u64 (Int.lnot ((P : Int) - 1)) = 2 ^ 64 - P := by
  have e : ((P : Int) - 1) = ((P - 1 : Nat) : Int) := by omega
  rw [e]
  show to_u64 (Int.negSucc (P - 1)) = _
  rw [Int.negSucc_eq]
  unfold to_u64
  omega

/-- For a non-negative `off_t` and a power-of-two page size, `x & ~(page_size - 1)` clears
the offset within the page. -/
theorem page_floor_eq (a : Int) (k : Nat) (ha : 0 ≤ a) (ha2 : a < 2 ^ 63) (hk : k ≤ 62) :
    page_floor a (2 ^ k) = a - a % 2 ^ k := by
  obtain ⟨x, rfl⟩ := Int.eq_ofNat_of_zero_le ha
  have hx : x < 2 ^ 63 := by exact_mod_cast ha2
  have hP : (2:Nat) ^ k ≤ 2 ^ 62 := Nat.pow_le_pow_right (by decide : 0 < 2) hk
  have hpos : 0 < (2:Nat) ^ k := Nat.two_pow_pos k
  have hc : ((2:Int) ^ k) = (((2:Nat) ^ k : Nat) : Int) := by push_cast; rfl
  unfold page_floor
  rw [hc, to_u64_lnot_pred _ hpos hP, to_u64_of_nonneg _ (by omega) (by omega), Int.toNat_ofNat,
    land_high_mask x k (by omega) (by omega)]
  have hle : x % 2 ^ k ≤ x := Nat.mod_le _ _
  rw [wrap_off_of_range]
  · push_cast [Nat.cast_sub hle]
    rfl
  · omega
  · have : ((x - x % 2 ^ k : Nat) : Int) ≤ x := by omega
    omega

theorem xor_mod_two_pow (a b n : Nat) : (a ^^^ b) % 2 ^ n = (a % 2 ^ n) ^^^ (b % 2 ^ n) := by
  apply Nat.eq_of_testBit_eq
  intro i
  simp only [Nat.testBit_mod_two_pow, Nat.testBit_xor]
  cases decide (i < n) <;> simp

theorem or_mod_two_pow (a b n : Nat) : (a ||| b) % 2 ^ n = (a % 2 ^ n) ||| (b % 2 ^ n) := by
  apply Nat.eq_of_testBit_eq
  intro i
  simp only [Nat.testBit_mod_two_pow, Nat.testBit_or]
  cases decide (i < n) <;> simp

theorem and_mod_two_pow (a b n : Nat) : (a &&& b) % 2 ^ n = (a % 2 ^ n) &&& (b % 2 ^ n) := by
  apply Nat.eq_of_testBit_eq
  intro i
  simp only [Nat.testBit_mod_two_pow, Nat.testBit_and]
  cases decide (i < n) <;> cases a.testBit i <;> simp

/-! ## write_operation -/

/-- The pointer `temp` of `write_operation` designates the file offset `params.address`. -/
theorem write_temp_eq (k : Nat) (hk : k ≤ 30) (p : Params) (h0 : 0 ≤ p.address)
    (h1 : p.address < 2 ^ 63) : write_temp (2 ^ k) p = p.address.toNat := by
  unfold write_temp
  rw [page_floor_eq _ k h0 h1 (by omega)]
  have hpos : (0:Int) < 2 ^ k := by positivity
  have hm := Int.emod_nonneg p.address (ne_of_gt hpos)
  have hm2 := Int.emod_lt_of_pos p.address hpos
  have hP : (2:Int) ^ k ≤ 2 ^ 30 := by
    exact_mod_cast Nat.pow_le_pow_right (by decide : 0 < 2) hk
  dsimp only
  split_ifs with h
  · rw [wrap_off_of_range _ (by omega) (by omega)]
    congr 1
    omega
  · rw [wrap_off_of_range _ (by omega) (by omega)]
    congr 1
    omega

/-- The element at `temp` after the copy back is the first element of the buffer. -/
theorem write_operation_elem (page_size : Int) (p : Params) (region buf : Mem)
    (hlen : 1 ≤ p.length) :
    load_elem p.data_size (write_operation page_size p region buf).1 (write_temp page_size p) 0 =
      load_elem p.data_size (write_operation page_size p region buf).2 0 0 := by
  unfold write_operation
  exact copy_loop_elem _ _ _ _ _ _ 0 (by omega)

/-- The first element of the buffer after `write_modify`, in terms of the first element
before it. -/
theorem write_modify_elem (p : Params) (buf : Mem) :
    (p.write_operation = ASSIGN →
      load_elem p.data_size (write_modify p buf) 0 0 =
        p.value % 2 ^ (8 * elem_bytes p.data_size)) ∧
    (p.write_operation = XOR →
      load_elem p.data_size (write_modify p buf) 0 0 =
        load_elem p.data_size buf 0 0 ^^^ (p.value % 2 ^ (8 * elem_bytes p.data_size))) ∧
    (p.write_operation = OR →
      load_elem p.data_size (write_modify p buf) 0 0 =
        load_elem p.data_size buf 0 0 ||| (p.value % 2 ^ (8 * elem_bytes p.data_size))) ∧
    (p.write_operation = AND →
      load_elem p.data_size (write_modify p buf) 0 0 =
        load_elem p.data_size buf 0 0 &&& (p.value % 2 ^ (8 * elem_bytes p.data_size))) := by
  have e1 : (256:Nat) ^ 1 = 2 ^ 8 := by norm_num
  have e2 : (256:Nat) ^ 2 = 2 ^ 16 := by norm_num
  have e4 : (256:Nat) ^ 4 = 2 ^ 32 := by norm_num
  have hl1 : load buf 0 1 < 2 ^ 8 := e1 ▸ load_lt buf 0 1
  have hl2 : load buf 0 2 < 2 ^ 16 := e2 ▸ load_lt buf 0 2
  have hl4 : load buf 0 4 < 2 ^ 32 := e4 ▸ load_lt buf 0 4
  have hv : ∀ n, p.value % 2 ^ n < 2 ^ n := fun n => Nat.mod_lt _ (Nat.two_pow_pos _)
  have hd : (2:Nat) ^ 32 ∣ 2 ^ 64 := Nat.pow_dvd_pow 2 (by norm_num)
  have h48 : (4:Nat) ≤ 8 := by norm_num
  refine ⟨fun hw => ?_, fun hw => ?_, fun hw => ?_, fun hw => ?_⟩ <;>
    cases hds : p.data_size <;>
    simp only [load_elem, write_modify, hds, hw, elem_bytes, Nat.zero_mul, Nat.add_zero,
      Nat.reduceMul] <;>
    first
    | rw [load_store_low _ _ _ _ _ (le_refl _)]
      simp only [e1, e2, e4]
      first
      | exact Nat.mod_mod _ _
      | exact Nat.mod_eq_of_lt (Nat.xor_lt_two_pow (by assumption) (hv _))
      | exact Nat.mod_eq_of_lt (Nat.or_lt_two_pow (by assumption) (hv _))
      | exact Nat.mod_eq_of_lt (Nat.and_lt_two_pow _ (hv _))
    | rw [load_store_low _ _ _ _ _ h48, e4, xor_mod_two_pow, Nat.mod_mod_of_dvd _ hd,
        ← e4, load_mod_low _ _ _ _ h48]
    | rw [load_store_low _ _ _ _ _ h48, e4, or_mod_two_pow, Nat.mod_mod_of_dvd _ hd,
        ← e4, load_mod_low _ _ _ _ h48]

/-- C1: for every element size, every prior value of the element stored at `address` and every
operand, after `write_operation` with write kind XOR, OR or AND the element stored at `address`
is the prior value combined by the named bitwise operator with the operand truncated to the
element width.  (Any element count of at least one, as every WRITE request has.) -/
theorem write_operation_bitwise (k : Nat) (p : Params) (region buf : Mem)
    (hk : k ≤ 30) (h0 : 0 ≤ p.address) (h1 : p.address < 2 ^ 63) (hlen : 1 ≤ p.length) :
    (p.write_operation = XOR →
      load_elem p.data_size (write_operation (2 ^ k) p region buf).1 p.address.toNat 0 =
        load_elem p.data_size region p.address.toNat 0 ^^^
          (p.value % 2 ^ (8 * elem_bytes p.data_size))) ∧
    (p.write_operation = OR →
      load_elem p.data_size (write_operation (2 ^ k) p region buf).1 p.address.toNat 0 =
        load_elem p.data_size region p.address.toNat 0 |||
          (p.value % 2 ^ (8 * elem_bytes p.data_size))) ∧
    (p.write_operation = AND →
      load_elem p.data_size (write_operation (2 ^ k) p region buf).1 p.address.toNat 0 =
        load_elem p.data_size region p.address.toNat 0 &&&
          (p.value % 2 ^ (8 * elem_bytes p.data_size))) := by
  have ht := write_temp_eq k hk p h0 h1
  have he := write_operation_elem (2 ^ k) p region buf hlen
  rw [ht] at he
  have hb : ∀ (h : p.write_operation ≠ ASSIGN),
      (write_operation (2 ^ k) p region buf).2 =
        write_modify p (copy_loop p.data_size region p.address.toNat buf 0 p.length.toNat) := by
    intro h
    simp only [write_operation, ht, if_pos h]
  have hc : load_elem p.data_size
      (copy_loop p.data_size region p.address.toNat buf 0 p.length.toNat) 0 0 =
      load_elem p.data_size region p.address.toNat 0 :=
    copy_loop_elem _ _ _ _ _ _ 0 (by omega)
  refine ⟨fun h => ?_, fun h => ?_, fun h => ?_⟩ <;>
  · rw [he, hb (by rw [h]; decide)]
    first
    | rw [(write_modify_elem p _).2.1 h, hc]
    | rw [(write_modify_elem p _).2.2.1 h, hc]
    | rw [(write_modify_elem p _).2.2.2 h, hc]

theorem write_operation_bitwise_witness :
    (12 ≤ 30 ∧ (0:Int) ≤ 0x3001 ∧ (0x3001:Int) < 2 ^ 63 ∧ (1:Int) ≤ 0x10) ∧
    load_elem BYTE (write_operation (2 ^ 12)
        ⟨WRITE, OR, [], 0x3001, 0x10, 0x10, 1, 0x1F0, BYTE⟩
        (fun j => if j = 0x3001 then 0x0C else 0) (fun _ => 0)).1 (0x3001 : Int).toNat 0 =
      load_elem BYTE (fun j => if j = 0x3001 then 0x0C else 0) (0x3001 : Int).toNat 0 |||
        (0x1F0 % 2 ^ (8 * elem_bytes BYTE)) :=
  ⟨by decide,
   (write_operation_bitwise 12 ⟨WRITE, OR, [], 0x3001, 0x10, 0x10, 1, 0x1F0, BYTE⟩
    (fun j => if j = 0x3001 then 0x0C else 0) (fun _ => 0)
    (by decide) (by decide) (by decide) (by decide)).2.1 rfl⟩

/-- C2: for every element size, operand, prior content of the mapped region and initial content
of the local buffer, after `write_operation` with write kind ASSIGN the element stored at
`address` is the operand truncated to the element width. -/
theorem write_operation_assign (k : Nat) (p : Params) (region buf : Mem)
    (hk : k ≤ 30) (h0 : 0 ≤ p.address) (h1 : p.address < 2 ^ 63) (hlen : 1 ≤ p.length)
    (hw : p.write_operation = ASSIGN) :
    load_elem p.data_size (write_operation (2 ^ k) p region buf).1 p.address.toNat 0 =
      p.value % 2 ^ (8 * elem_bytes p.data_size) := by
  have ht := write_temp_eq k hk p h0 h1
  have he := write_operation_elem (2 ^ k) p region buf hlen
  rw [ht] at he
  have hb : (write_operation (2 ^ k) p region buf).2 = write_modify p buf := by
    simp only [write_operation, hw, ne_eq, not_true_eq_false, if_false]
  rw [he, hb, (write_modify_elem p buf).1 hw]

theorem write_operation_assign_witness :
    (12 ≤ 30 ∧ (0:Int) ≤ 0x1002 ∧ (0x1002:Int) < 2 ^ 63 ∧ (1:Int) ≤ 0x10) ∧
    load_elem WORD (write_operation (2 ^ 12)
        ⟨WRITE, ASSIGN, [], 0x1002, 0x10, 0x20, 1, 0x12345, WORD⟩
        (fun j => j) (fun j => 7 * j)).1 (0x1002 : Int).toNat 0 =
      0x12345 % 2 ^ (8 * elem_bytes WORD) :=
  ⟨by decide,
   write_operation_assign 12 ⟨WRITE, ASSIGN, [], 0x1002, 0x10, 0x20, 1, 0x12345, WORD⟩
    (fun j => j) (fun j => 7 * j) (by decide) (by decide) (by decide) (by decide) rfl⟩

/-! ## alignment_check -/

/-- C4: for every address and every data size, `alignment_check` accepts (returns 0) if and
only if the address is a multiple of the element size (1 for BYTE, 2 for WORD, 4 for DWORD),
whether the remainder is taken as in C (truncated) or as a non-negative residue; in particular
every address is accepted for BYTE. -/
theorem alignment_check_iff (p : Params) :
    (alignment_check p = 0 ↔ p.address % (elem_bytes p.data_size : Int) = 0) ∧
    (alignment_check p = 0 ↔ Int.tmod p.address (elem_bytes p.data_size : Int) = 0) ∧
    (p.data_size = BYTE → alignment_check p = 0) := by
  have key : alignment_check p = 0 ↔ p.address % (elem_bytes p.data_size : Int) = 0 := by
    unfold alignment_check to_u64
    cases hds : p.data_size
    · simp [elem_bytes]
    · have e : (2 - 1 : Nat) = 2 ^ 1 - 1 := by norm_num
      simp only [elem_bytes, e, Nat.and_pow_two_sub_one_eq_mod]
      omega
    · have e : (4 - 1 : Nat) = 2 ^ 2 - 1 := by norm_num
      simp only [elem_bytes, e, Nat.and_pow_two_sub_one_eq_mod]
      omega
  refine ⟨key, ?_, ?_⟩
  · rw [key]
    constructor
    · intro h
      exact Int.tmod_eq_zero_of_dvd (Int.dvd_of_emod_eq_zero h)
    · intro h
      exact Int.emod_eq_zero_of_dvd (Int.dvd_of_tmod_eq_zero h)
  · intro h
    simp [alignment_check, h]


/-! ## read_operation: the arguments of `mmap` -/

theorem floor_mul_greatest (P x m : Int) (hP : 0 < P) (hm : P ∣ m) (hle : m ≤ x) :
    m ≤ x - x % P := by
  obtain ⟨q, rfl⟩ := hm
  have h1 : x - x % P = P * (x / P) := by
    have := Int.emod_add_ediv x P
    omega
  rw [h1]
  have h2 : q ≤ x / P := by
    rw [Int.le_ediv_iff_mul_le hP]
    linarith [mul_comm P q]
  exact Int.mul_le_mul_of_nonneg_left h2 (le_of_lt hP)

theorem floor_mul_dvd (P x : Int) : P ∣ x - x % P :=
  Int.dvd_sub_of_emod_eq rfl

/-- C5: for a READ request with `address >= 0`, `byte_length > 0` and a power-of-two page size
(no 64-bit overflow), the offset `base` and the length `map_length` that `read_operation`
passes to `mmap` are: the largest multiple of the page size not above `address`, and the
smallest multiple of the page size `L` with `base + L >= address + byte_length`; hence the
window `[address - base, address - base + byte_length)` lies inside `[0, map_length)`. -/
theorem read_operation_mapping (k : Nat) (p : Params) (hk : k ≤ 30) (h0 : 0 ≤ p.address)
    (hb : 0 < p.length_in_bytes) (hov : p.address + p.length_in_bytes + 2 ^ k < 2 ^ 63) :
    ((2:Int) ^ k ∣ read_aligned_address (2 ^ k) p ∧
      read_aligned_address (2 ^ k) p ≤ p.address ∧
      ∀ m : Int, (2:Int) ^ k ∣ m → m ≤ p.address → m ≤ read_aligned_address (2 ^ k) p) ∧
    ((2:Int) ^ k ∣ read_aligned_length (2 ^ k) p ∧
      p.address + p.length_in_bytes ≤
        read_aligned_address (2 ^ k) p + read_aligned_length (2 ^ k) p ∧
      ∀ L : Int, (2:Int) ^ k ∣ L →
        p.address + p.length_in_bytes ≤ read_aligned_address (2 ^ k) p + L →
        read_aligned_length (2 ^ k) p ≤ L) ∧
    (0 ≤ p.address - read_aligned_address (2 ^ k) p ∧
      p.address - read_aligned_address (2 ^ k) p + p.length_in_bytes ≤
        read_aligned_length (2 ^ k) p) := by
  have hpos : (0:Int) < 2 ^ k := by positivity
  have hP : (2:Int) ^ k ≤ 2 ^ 30 := by
    exact_mod_cast Nat.pow_le_pow_right (by decide : 0 < 2) hk
  have hr0 := Int.emod_nonneg p.address (ne_of_gt hpos)
  have hr1 := Int.emod_lt_of_pos p.address hpos
  have hr2 : p.address % 2 ^ k ≤ p.address := by
    have h1 := Int.emod_add_ediv p.address (2 ^ k)
    have h2 : 0 ≤ 2 ^ k * (p.address / 2 ^ k) :=
      Int.mul_nonneg (le_of_lt hpos) (Int.ediv_nonneg h0 (le_of_lt hpos))
    omega
  have hbase : read_aligned_address (2 ^ k) p = p.address - p.address % 2 ^ k := by
    unfold read_aligned_address
    exact page_floor_eq _ k h0 (by omega) (by omega)
  have hx0 := Int.emod_nonneg (p.length_in_bytes + p.address % 2 ^ k + (2 ^ k - 1))
    (ne_of_gt hpos)
  have hx1 := Int.emod_lt_of_pos (p.length_in_bytes + p.address % 2 ^ k + (2 ^ k - 1)) hpos
  have hlen : read_aligned_length (2 ^ k) p =
      (p.length_in_bytes + p.address % 2 ^ k + (2 ^ k - 1)) -
        (p.length_in_bytes + p.address % 2 ^ k + (2 ^ k - 1)) % 2 ^ k := by
    unfold read_aligned_length
    rw [hbase]
    dsimp only
    have e : p.address - (p.address - p.address % 2 ^ k) = p.address % 2 ^ k := by ring
    rw [e, wrap_off_of_range (p.address % 2 ^ k) (by omega) (by omega),
      wrap_off_of_range (p.length_in_bytes + p.address % 2 ^ k) (by omega) (by omega),
      wrap_off_of_range (p.length_in_bytes + p.address % 2 ^ k + (2 ^ k - 1)) (by omega)
        (by omega),
      page_floor_eq _ k (by omega) (by omega) (by omega)]
  refine ⟨⟨?_, ?_, ?_⟩, ⟨?_, ?_, ?_⟩, ?_, ?_⟩
  · rw [hbase]
    exact floor_mul_dvd _ _
  · omega
  · intro m hm hle
    rw [hbase]
    exact floor_mul_greatest _ _ _ hpos hm hle
  · rw [hlen]
    exact floor_mul_dvd _ _
  · omega
  · intro L hL hle
    rw [hbase] at hle
    rw [hlen]
    obtain ⟨q, rfl⟩ := hL
    have h1 := Int.emod_add_ediv (p.length_in_bytes + p.address % 2 ^ k + (2 ^ k - 1)) (2 ^ k)
    have h2 : (p.length_in_bytes + p.address % 2 ^ k + (2 ^ k - 1)) / 2 ^ k ≤ q := by
      by_contra hc
      push_neg at hc
      have h3 : 2 ^ k * (q + 1) ≤
          2 ^ k * ((p.length_in_bytes + p.address % 2 ^ k + (2 ^ k - 1)) / 2 ^ k) :=
        Int.mul_le_mul_of_nonneg_left (by omega) (le_of_lt hpos)
      rw [mul_add, mul_one] at h3
      omega
    have h4 := Int.mul_le_mul_of_nonneg_left h2 (le_of_lt hpos)
    omega
  · omega
  · omega

theorem read_operation_mapping_witness :
    (12 ≤ 30 ∧ (0:Int) ≤ 0x1ff8 ∧ (0:Int) < 0x20 ∧ (0x1ff8:Int) + 0x20 + 2 ^ 12 < 2 ^ 63) ∧
    read_aligned_address (2 ^ 12) ⟨READ, ASSIGN, [], 0x1ff8, 0x10, 0x20, 1, 0, WORD⟩ = 0x1000 ∧
    read_aligned_length (2 ^ 12) ⟨READ, ASSIGN, [], 0x1ff8, 0x10, 0x20, 1, 0, WORD⟩ = 0x2000 ∧
    (0x1ff8:Int) - read_aligned_address (2 ^ 12) ⟨READ, ASSIGN, [], 0x1ff8, 0x10, 0x20, 1, 0, WORD⟩
        + 0x20 ≤
      read_aligned_length (2 ^ 12) ⟨READ, ASSIGN, [], 0x1ff8, 0x10, 0x20, 1, 0, WORD⟩ :=
  ⟨by decide, by decide, by decide,
   (read_operation_mapping 12 ⟨READ, ASSIGN, [], 0x1ff8, 0x10, 0x20, 1, 0, WORD⟩
    (by decide) (by decide) (by decide) (by decide)).2.2.2⟩


/-! ## read_operation: one pass -/

/-- The pointer `temp` of `read_operation` designates the file offset `params.address`. -/
theorem read_temp_eq (k : Nat) (hk : k ≤ 30) (p : Params) (h0 : 0 ≤ p.address)
    (h1 : p.address < 2 ^ 63) : read_temp (2 ^ k) p = p.address.toNat := by
  unfold read_temp read_aligned_address
  rw [page_floor_eq _ k h0 h1 (by omega)]
  have hpos : (0:Int) < 2 ^ k := by positivity
  have hm := Int.emod_nonneg p.address (ne_of_gt hpos)
  have hm2 := Int.emod_lt_of_pos p.address hpos
  have hP : (2:Int) ^ k ≤ 2 ^ 30 := by
    exact_mod_cast Nat.pow_le_pow_right (by decide : 0 < 2) hk
  rw [wrap_off_of_range _ (by omega) (by omega)]
  congr 1
  omega

/-- C6: for a READ request with element count `n` and element size `s`, after one pass of the
copy loop of `read_operation` element `i` of the local buffer is the `s`-byte element stored in
the file at offset `address + i * s`, for every `i < n`, and the dump is `hexdump` applied to
exactly that buffer, with `n` elements, start label `address` and the empty prefix. -/
theorem read_pass_copies (fuel k n : Nat) (p : Params) (region buf : Mem)
    (hk : k ≤ 30) (h0 : 0 ≤ p.address) (h1 : p.address < 2 ^ 63)
    (hn : p.length = (n : Int)) (hn2 : n < 2 ^ 63) :
    (∀ i, i < n →
      load_elem p.data_size (read_pass fuel (2 ^ k) p region buf).1 0 i =
        load (region) (p.address.toNat + i * elem_bytes p.data_size) (elem_bytes p.data_size)) ∧
    (read_pass fuel (2 ^ k) p region buf).2 =
      hexdump fuel (some (read_pass fuel (2 ^ k) p region buf).1) n p.address p.data_size [] := by
  have ht := read_temp_eq k hk p h0 h1
  have hl : p.length.toNat = n := by omega
  have hu : to_u64 p.length = n := by
    rw [to_u64_of_nonneg _ (by omega) (by omega)]
    exact hl
  constructor
  · intro i hi
    simp only [read_pass, ht, hl]
    exact copy_loop_elem _ _ _ _ _ _ i hi
  · simp only [read_pass, hu]

theorem read_pass_copies_witness :
    (12 ≤ 30 ∧ (0:Int) ≤ 0x1000 ∧ (0x1000:Int) < 2 ^ 63 ∧ (4:Int) = ((4:Nat):Int) ∧
      4 < 2 ^ 63) ∧
    (∀ i, i < 4 →
      load_elem WORD (read_pass 4 (2 ^ 12) ⟨READ, ASSIGN, [], 0x1000, 4, 8, 1, 0, WORD⟩
          (fun j => 3 * j + 1) (fun _ => 0)).1 0 i =
        load (fun j => 3 * j + 1) ((0x1000:Int).toNat + i * elem_bytes WORD)
          (elem_bytes WORD)) ∧
    (read_pass 4 (2 ^ 12) ⟨READ, ASSIGN, [], 0x1000, 4, 8, 1, 0, WORD⟩
        (fun j => 3 * j + 1) (fun _ => 0)).2 =
      hexdump 4 (some (read_pass 4 (2 ^ 12) ⟨READ, ASSIGN, [], 0x1000, 4, 8, 1, 0, WORD⟩
        (fun j => 3 * j + 1) (fun _ => 0)).1) 4 0x1000 WORD [] :=
  ⟨by decide,
   read_pass_copies 4 12 4 ⟨READ, ASSIGN, [], 0x1000, 4, 8, 1, 0, WORD⟩
    (fun j => 3 * j + 1) (fun _ => 0) (by decide) (by decide) (by decide) rfl (by decide)⟩

/-! ## hexdump -/

theorem hexdump_loop_mono (data : Mem) (len : Nat) (address : Int) (ds : data_size_type)
    (pfx : List Char) (fuel extra i : Nat) (out : List Char)
    (h : hexdump_loop data len address ds pfx fuel i = some out) :
    hexdump_loop data len address ds pfx (fuel + extra) i = some out := by
  induction fuel generalizing i out with
  | zero =>
    rw [hexdump_loop] at h
    split_ifs at h with hi
    cases extra with
    | zero => rw [Nat.add_zero, hexdump_loop, if_neg hi]; exact h
    | succ e => rw [Nat.zero_add, hexdump_loop, if_neg hi]; exact h
  | succ fuel ih =>
    rw [hexdump_loop] at h
    rw [Nat.add_right_comm, hexdump_loop]
    split_ifs at h ⊢ with hi
    · cases hr : hexdump_loop data len address ds pfx fuel
          (hexdump_step data len address ds pfx i).1 with
      | none => rw [hr] at h; simp at h
      | some rest =>
        rw [ih _ _ hr]
        rw [hr] at h
        exact h
    · exact h

/-- C7: `hexdump` of the 16-byte buffer `00 01 .. 0f` with BYTE size, start address `0x1000`
and empty prefix prints exactly one line, character for character
`00001000: 00 01 02 03 04 05 06 07  08 09 0a 0b 0c 0d 0e 0f  |................|` and a newline
(the loop ends after 16 iterations, whatever the iteration allowance beyond 16). -/
theorem hexdump_bytes_00_0f (extra : Nat) :
    hexdump (16 + extra) (some (fun i => if i < 16 then i else 0)) 16 0x1000 BYTE [] =
      some ("00001000: 00 01 02 03 04 05 06 07  08 09 0a 0b 0c 0d 0e 0f  |................|\n"
        ).toList :=
  hexdump_loop_mono (fun i => if i < 16 then i else 0) 16 0x1000 BYTE [] 16 extra 0
    ("00001000: 00 01 02 03 04 05 06 07  08 09 0a 0b 0c 0d 0e 0f  |................|\n"
        ).toList (by decide)

/-! ## hexdump: the dump row by row -/

theorem flatMap_singleton_eq_map (l : List Nat) (g : Nat → Char) :
    l.flatMap (fun n => [g n]) = l.map g := by
  induction l with
  | nil => rfl
  | cons a l ih => simp [List.flatMap_cons, ih]

theorem for_range_map (lo hi : Nat) (g : Nat → Char) :
    for_range lo hi (fun n => [g n]) = (List.range' lo (hi - lo)).map g :=
  flatMap_singleton_eq_map _ g

theorem flatMap_const_replicate (l : List Nat) (n : Nat) (c : Char) :
    l.flatMap (fun _ => List.replicate n c) = List.replicate (l.length * n) c := by
  induction l with
  | nil => simp
  | cons a l ih =>
    rw [List.flatMap_cons, ih, List.length_cons, Nat.succ_mul, Nat.add_comm,
      List.replicate_add]

theorem for_range_single (lo hi : Nat) (c : Char) :
    for_range lo hi (fun _ => [c]) = List.replicate (hi - lo) c := by
  have := flatMap_const_replicate (List.range' lo (hi - lo)) 1 c
  simpa [for_range] using this

theorem for_range_replicate (lo hi n : Nat) (c : Char) :
    for_range lo hi (fun _ => List.replicate n c) = List.replicate ((hi - lo) * n) c := by
  have := flatMap_const_replicate (List.range' lo (hi - lo)) n c
  simpa [for_range] using this

theorem to_u64_wrap_off (x : Int) : to_u64 (wrap_off x) = to_u64 x := by
  unfold to_u64 wrap_off
  congr 1
  omega

/-- The text printed by the iteration of the loop of `hexdump` entered with index `i`, when
no 32-bit counter wraps. -/
theorem hexdump_step_eq (data : Mem) (len : Nat) (address : Int) (ds : data_size_type)
    (pfx : List Char) (i : Nat) (hi : i < len) (hlen : len * hexdump_bytes ds < 2 ^ 32) :
    hexdump_step data len address ds pfx i =
      (i + 1,
        (if i % hexdump_mod ds = 0 then
          pfx ++ printf_x 8 (to_u64 (address + ((i * hexdump_bytes ds : Nat) : Int))) ++ [':', ' ']
         else []) ++
        hexdump_cell data ds i ++
        (if (i + 1) % hexdump_mod ds = 0 then
          hexdump_gap ds (hexdump_mod ds) ++ ['|'] ++
            hexdump_panel data ds (i + 1 - hexdump_mod ds) (hexdump_mod ds) ++
            hexdump_panel_fill ds (hexdump_mod ds) ++ ['|', '\n']
         else if i + 1 = len then
          hexdump_gap ds ((i + 1) % hexdump_mod ds) ++ ['|'] ++
            hexdump_panel data ds (i + 1 - (i + 1) % hexdump_mod ds) ((i + 1) % hexdump_mod ds) ++
            hexdump_panel_fill ds ((i + 1) % hexdump_mod ds) ++ ['|', '\n']
         else [])) := by
  have hmb : hexdump_mod ds * hexdump_bytes ds = 16 := by cases ds <;> rfl
  have hm4 : 4 ≤ hexdump_mod ds := by cases ds <;> simp [hexdump_mod]
  have hb1 : 1 ≤ hexdump_bytes ds := by cases ds <;> simp [hexdump_bytes]
  have hb4 : hexdump_bytes ds ≤ 4 := by cases ds <;> simp [hexdump_bytes]
  have hib : (i + 1) * hexdump_bytes ds ≤ len * hexdump_bytes ds :=
    Nat.mul_le_mul_right _ hi
  have f1 : u32 (i + 1) = i + 1 := by
    unfold u32
    have : i + 1 ≤ len * hexdump_bytes ds := le_trans (by nlinarith) hib
    omega
  have f2 : u32 (i * hexdump_bytes ds) = i * hexdump_bytes ds := by
    unfold u32
    have : i * hexdump_bytes ds ≤ (i + 1) * hexdump_bytes ds := Nat.mul_le_mul_right _ (by omega)
    omega
  have f3 : u32 (hexdump_bytes ds * 2) = hexdump_bytes ds * 2 := by
    unfold u32
    omega
  have f4 : (i + 1) % hexdump_mod ds ≠ 0 →
      u32 (usub32 (i + 1) ((i + 1) % hexdump_mod ds) * hexdump_bytes ds) =
        (i + 1 - (i + 1) % hexdump_mod ds) * hexdump_bytes ds := by
    intro _
    cases ds <;> simp only [hexdump_mod, hexdump_bytes, u32, usub32] at * <;> omega
  have f5 : (i + 1) % hexdump_mod ds = 0 →
      u32 (usub32 (i + 1) (hexdump_mod ds) * hexdump_bytes ds) =
        (i + 1 - hexdump_mod ds) * hexdump_bytes ds := by
    intro _
    cases ds <;> simp only [hexdump_mod, hexdump_bytes, u32, usub32] at * <;> omega
  have f6 : u32 ((i + 1) % hexdump_mod ds * hexdump_bytes ds) =
      (i + 1) % hexdump_mod ds * hexdump_bytes ds := by
    cases ds <;> simp only [hexdump_mod, hexdump_bytes, u32] at * <;> omega
  have f7 : (i + 1) % hexdump_mod ds ≠ 0 →
      u32 ((i + 1) % hexdump_mod ds * hexdump_bytes ds +
        (i + 1 - (i + 1) % hexdump_mod ds) * hexdump_bytes ds) =
        (i + 1 - (i + 1) % hexdump_mod ds) * hexdump_bytes ds +
          (i + 1) % hexdump_mod ds * hexdump_bytes ds := by
    intro _
    cases ds <;> simp only [hexdump_mod, hexdump_bytes, u32] at * <;> omega
  have f8 : (i + 1) % hexdump_mod ds = 0 →
      u32 (16 + (i + 1 - hexdump_mod ds) * hexdump_bytes ds) =
        (i + 1 - hexdump_mod ds) * hexdump_bytes ds + hexdump_mod ds * hexdump_bytes ds := by
    intro _
    cases ds <;> simp only [hexdump_mod, hexdump_bytes, u32] at * <;> omega
  have f9 : u32 (hexdump_mod ds * hexdump_bytes ds) = hexdump_mod ds * hexdump_bytes ds := by
    cases ds <;> rfl
  have hpanel : ∀ lo n, for_range lo (lo + n)
      (fun n => [if data n % 256 < 32 ∨ data n % 256 > 126 then '.'
        else Char.ofNat (data n % 256)]) =
      (List.range' lo n).map (fun n => ascii_char (data n)) := by
    intro lo n
    have := for_range_map lo (lo + n) (fun n => ascii_char (data n))
    simpa [ascii_char] using this
  simp only [hexdump_step, f1, f2, f3, to_u64_wrap_off]
  refine Prod.ext rfl ?_
  dsimp only
  congr 1
  · simp only [hexdump_cell, List.append_assoc, add_comm]
    cases ds <;> simp only [hexdump_bytes, List.append_assoc, Nat.reduceMul]
  · by_cases hr : (i + 1) % hexdump_mod ds = 0
    · simp only [hr, true_or, ne_eq, not_true_eq_false, if_true, if_false, f5 hr, f8 hr,
        hpanel, hexdump_gap, hexdump_panel, hexdump_panel_fill, lt_self_iff_false,
        List.nil_append]
    · have hrm : (i + 1) % hexdump_mod ds < hexdump_mod ds := Nat.mod_lt _ (by omega)
      by_cases hl : i + 1 = len
      · subst hl
        have e : (hexdump_mod ds - (i + 1) % hexdump_mod ds) * hexdump_bytes ds =
            hexdump_mod ds * hexdump_bytes ds - (i + 1) % hexdump_mod ds * hexdump_bytes ds :=
          Nat.sub_mul _ _ _
        simp only [hr, or_true, ne_eq, not_false_eq_true, if_true, if_false,
          f4 hr, f6, f7 hr, f9, hpanel, hexdump_gap, hexdump_panel, hexdump_panel_fill,
          for_range_single, for_range_replicate, hrm, Nat.sub_zero, e,
          Nat.mul_comm 2 (hexdump_bytes ds)]
      · simp only [hr, hl, or_self, if_false]

/-- The loop of `hexdump`, started at `i` with enough iterations left, prints the text of the
iterations `i .. len - 1` one after the other and stops. -/
theorem hexdump_loop_eq (data : Mem) (len : Nat) (address : Int) (ds : data_size_type)
    (pfx : List Char) (hlen : len * hexdump_bytes ds < 2 ^ 32) (fuel i : Nat)
    (hfuel : len - i ≤ fuel) :
    hexdump_loop data len address ds pfx fuel i =
      some ((List.range' i (len - i)).flatMap
        (fun j => (hexdump_step data len address ds pfx j).2)) := by
  induction fuel generalizing i with
  | zero =>
    have h0 : len - i = 0 := by omega
    rw [hexdump_loop, if_neg (by omega), h0]
    rfl
  | succ fuel ih =>
    rw [hexdump_loop]
    by_cases hi : i < len
    · rw [if_pos hi]
      have h1 : (hexdump_step data len address ds pfx i).1 = i + 1 := by
        rw [hexdump_step_eq data len address ds pfx i hi hlen]
      rw [h1, ih (i + 1) (by omega)]
      have h2 : len - i = (len - (i + 1)) + 1 := by omega
      rw [h2, List.range'_succ, List.flatMap_cons]
      rfl
    · have h0 : len - i = 0 := by omega
      rw [if_neg hi, h0]
      rfl

/-- The text of iteration `k * mod + t` of the loop, as a part of row `k`. -/
theorem hexdump_step_in_row (data : Mem) (len : Nat) (address : Int) (ds : data_size_type)
    (pfx : List Char) (hlen : len * hexdump_bytes ds < 2 ^ 32) (k t : Nat)
    (ht : t < hexdump_row_elems ds len k) :
    (hexdump_step data len address ds pfx (k * hexdump_mod ds + t)).2 =
      (if t = 0 then pfx ++ hexdump_label address ds k ++ [':', ' '] else []) ++
      hexdump_cell data ds (k * hexdump_mod ds + t) ++
      (if t + 1 = hexdump_row_elems ds len k then
        hexdump_gap ds (hexdump_row_elems ds len k) ++ ['|'] ++
          hexdump_panel data ds (k * hexdump_mod ds) (hexdump_row_elems ds len k) ++
          hexdump_panel_fill ds (hexdump_row_elems ds len k) ++ ['|', '\n']
       else []) := by
  have hm4 : 4 ≤ hexdump_mod ds := by cases ds <;> simp [hexdump_mod]
  have hr : hexdump_row_elems ds len k = min (hexdump_mod ds) (len - k * hexdump_mod ds) := rfl
  have hi : k * hexdump_mod ds + t < len := by omega
  rw [hexdump_step_eq data len address ds pfx _ hi hlen]
  dsimp only
  have ha : (k * hexdump_mod ds + t) % hexdump_mod ds = t := by
    rw [Nat.mul_comm, Nat.mul_add_mod]
    exact Nat.mod_eq_of_lt (by omega)
  congr 1
  · congr 1
    by_cases h0 : t = 0
    · subst h0
      simp only [Nat.add_zero] at ha ⊢
      simp only [ha, if_true, hexdump_label]
    · simp only [ha, h0, if_false]
  · by_cases hfull : t + 1 = hexdump_mod ds
    · have hb : (k * hexdump_mod ds + t + 1) % hexdump_mod ds = 0 := by
        rw [Nat.add_assoc, hfull, Nat.add_mod_right, Nat.mul_mod_left]
      have hre : hexdump_row_elems ds len k = hexdump_mod ds := by omega
      have hs : k * hexdump_mod ds + t + 1 - hexdump_mod ds = k * hexdump_mod ds := by omega
      simp only [hb, hre, hfull, hs, if_true]
    · have hb : (k * hexdump_mod ds + t + 1) % hexdump_mod ds = t + 1 := by
        rw [Nat.add_assoc, Nat.mul_comm, Nat.mul_add_mod]
        exact Nat.mod_eq_of_lt (by omega)
      by_cases hlast : t + 1 = hexdump_row_elems ds len k
      · have hl : k * hexdump_mod ds + t + 1 = len := by omega
        have hs : len - (t + 1) = k * hexdump_mod ds := by omega
        rw [if_neg (by rw [hb]; omega), if_pos hl, if_pos hlast, hb, hl, hs, ← hlast]
      · have hl : ¬ (k * hexdump_mod ds + t + 1 = len) := by omega
        rw [if_neg (by rw [hb]; omega), if_neg hl, if_neg hlast]

theorem hexdump_row_run (data : Mem) (len : Nat) (address : Int) (ds : data_size_type)
    (pfx : List Char) (hlen : len * hexdump_bytes ds < 2 ^ 32) (k t : Nat) (h1 : 1 ≤ t)
    (ht : t ≤ hexdump_row_elems ds len k) :
    (List.range' (k * hexdump_mod ds) t).flatMap
        (fun j => (hexdump_step data len address ds pfx j).2) =
      pfx ++ hexdump_label address ds k ++ [':', ' '] ++
      (List.range' (k * hexdump_mod ds) t).flatMap (hexdump_cell data ds) ++
      (if t = hexdump_row_elems ds len k then
        hexdump_gap ds (hexdump_row_elems ds len k) ++ ['|'] ++
          hexdump_panel data ds (k * hexdump_mod ds) (hexdump_row_elems ds len k) ++
          hexdump_panel_fill ds (hexdump_row_elems ds len k) ++ ['|', '\n']
       else []) := by
  induction t, h1 using Nat.le_induction with
  | base =>
    have h := hexdump_step_in_row data len address ds pfx hlen k 0 (by omega)
    simp only [Nat.add_zero, if_true, Nat.zero_add] at h
    simp only [List.range'_one, List.flatMap_singleton, h]
  | succ t h1 ih =>
    have h := hexdump_step_in_row data len address ds pfx hlen k t (by omega)
    rw [if_neg (by omega)] at h
    rw [List.range'_concat, List.flatMap_append, List.flatMap_append, ih (by omega),
      if_neg (by omega), Nat.one_mul, List.flatMap_singleton, List.flatMap_singleton, h]
    simp only [List.append_assoc, List.nil_append, List.append_nil]

/-- The text printed for row `k` is `hexdump_row` followed by a newline. -/
theorem hexdump_row_text (data : Mem) (len : Nat) (address : Int) (ds : data_size_type)
    (pfx : List Char) (hlen : len * hexdump_bytes ds < 2 ^ 32) (k : Nat)
    (hk : k * hexdump_mod ds < len) :
    (List.range' (k * hexdump_mod ds) (hexdump_row_elems ds len k)).flatMap
        (fun j => (hexdump_step data len address ds pfx j).2) =
      hexdump_row data len address ds pfx k ++ ['\n'] := by
  have hm4 : 4 ≤ hexdump_mod ds := by cases ds <;> simp [hexdump_mod]
  have hr : hexdump_row_elems ds len k = min (hexdump_mod ds) (len - k * hexdump_mod ds) := rfl
  rw [hexdump_row_run data len address ds pfx hlen k _ (by omega) (le_refl _), if_pos rfl]
  simp only [hexdump_row, List.append_assoc, List.cons_append, List.nil_append]

/-- The indices `0 .. len - 1` row by row. -/
theorem range_by_rows (m : Nat) (hm : 0 < m) (n len : Nat) (hn : (len + m - 1) / m = n) :
    List.range' 0 len =
      (List.range n).flatMap (fun k => List.range' (k * m) (min m (len - k * m))) := by
  induction n generalizing len with
  | zero =>
    have : len = 0 := by
      by_contra hne
      have : m ≤ len + m - 1 := by omega
      have := Nat.div_pos this hm
      omega
    subst this
    rfl
  | succ n ih =>
    have h1 : n * m < len := by
      by_contra hc
      have : len + m - 1 < (n + 1) * m := by
        have : (n + 1) * m = n * m + m := by ring
        omega
      have := (Nat.div_lt_iff_lt_mul hm).2 this
      omega
    have h2 : len ≤ (n + 1) * m := by
      by_contra hc
      have h3 : (n + 1 + 1) * m ≤ len + m - 1 := by
        have : (n + 1 + 1) * m = (n + 1) * m + m := by ring
        omega
      have := (Nat.le_div_iff_mul_le hm).2 h3
      omega
    have h3 : (n * m + m - 1) / m = n := by
      have e : n * m + m - 1 = (m - 1) + m * n := by
        have := Nat.mul_comm n m
        omega
      rw [e, Nat.add_mul_div_left _ _ hm, Nat.div_eq_of_lt (by omega)]
      omega
    have h4 := ih (n * m) h3
    rw [List.range_succ, List.flatMap_append, List.flatMap_singleton]
    have h5 : (List.range n).flatMap (fun k => List.range' (k * m) (min m (len - k * m))) =
        (List.range n).flatMap (fun k => List.range' (k * m) (min m (n * m - k * m))) := by
      apply List.flatMap_congr
      intro k hk
      have hk : k < n := List.mem_range.1 hk
      have : (k + 1) * m ≤ n * m := Nat.mul_le_mul_right _ hk
      have e : (k + 1) * m = k * m + m := by ring
      congr 1
      omega
    rw [h5, ← h4]
    have h6 : min m (len - n * m) = len - n * m := by
      have e : (n + 1) * m = n * m + m := by ring
      omega
    have h7 : (len - n * m) + n * m = len := by omega
    have h8 := List.range'_append_1 0 (n * m) (len - n * m)
    rw [Nat.zero_add, h7] at h8
    rw [h6, h8]

/-- The whole dump: the rows `0 .. hexdump_row_count - 1`, each followed by a newline; the
loop ends within `len` iterations. -/
theorem hexdump_eq_rows (fuel : Nat) (data : Mem) (len : Nat) (address : Int)
    (ds : data_size_type) (pfx : List Char) (hlen : len * hexdump_bytes ds < 2 ^ 32)
    (hfuel : len ≤ fuel) :
    hexdump fuel (some data) len address ds pfx =
      some ((List.range (hexdump_row_count ds len)).flatMap
        (fun k => hexdump_row data len address ds pfx k ++ ['\n'])) := by
  have hm4 : 0 < hexdump_mod ds := by cases ds <;> simp [hexdump_mod]
  simp only [hexdump]
  rw [hexdump_loop_eq data len address ds pfx hlen fuel 0 (by omega), Nat.sub_zero,
    range_by_rows (hexdump_mod ds) hm4 (hexdump_row_count ds len) len rfl, List.flatMap_assoc]
  congr 1
  apply List.flatMap_congr
  intro k hk
  have hk : k < hexdump_row_count ds len := List.mem_range.1 hk
  have hk2 : k * hexdump_mod ds < len := by
    unfold hexdump_row_count at hk
    by_contra hc
    have : len + hexdump_mod ds - 1 < (k + 1) * hexdump_mod ds := by
      have : (k + 1) * hexdump_mod ds = k * hexdump_mod ds + hexdump_mod ds := by ring
      omega
    have := (Nat.div_lt_iff_lt_mul hm4).2 this
    omega
  exact hexdump_row_text data len address ds pfx hlen k hk2

/-! ## Lines and hexadecimal fields -/

theorem text_lines_line (l rest : List Char) (h : '\n' ∉ l) :
    text_lines (l ++ '\n' :: rest) = l :: text_lines rest := by
  induction l with
  | nil => simp [text_lines]
  | cons c l ih =>
    have hc : c ≠ '\n' := fun e => h (by simp [e])
    have hl : '\n' ∉ l := fun e => h (List.mem_cons_of_mem _ e)
    rw [List.cons_append, text_lines, if_neg hc, ih hl]

theorem text_lines_rows (f : Nat → List Char) (ks : List Nat)
    (h : ∀ k ∈ ks, '\n' ∉ f k) :
    text_lines (ks.flatMap (fun k => f k ++ ['\n'])) = ks.map f := by
  induction ks with
  | nil => rfl
  | cons k ks ih =>
    rw [List.flatMap_cons, List.append_assoc, List.singleton_append,
      text_lines_line _ _ (h k (List.mem_cons_self _ _)),
      ih (fun j hj => h j (List.mem_cons_of_mem _ hj)), List.map_cons]

theorem digitChar_hex : ∀ d, d < 16 →
    Nat.digitChar d ∈ hex_digits ∧ hex_digit_value (Nat.digitChar d) = d := by
  decide

theorem hex_value_append (l : List Char) (d : Char) :
    hex_value (l ++ [d]) = 16 * hex_value l + hex_digit_value d := by
  simp [hex_value, List.foldl_append]

theorem hex_value_zeros (k : Nat) (l : List Char) :
    hex_value (List.replicate k '0' ++ l) = hex_value l := by
  induction k with
  | zero => rfl
  | succ k ih =>
    rw [List.replicate_succ, List.cons_append]
    unfold hex_value at ih ⊢
    rw [List.foldl_cons]
    exact ih

/-- What `Nat.toDigitsCore 16` produces when it has enough fuel. -/
theorem toDigitsCore_hex (fuel n : Nat) (hn : n < fuel) :
    ∃ l : List Char, (∀ acc, Nat.toDigitsCore 16 fuel n acc = l ++ acc) ∧
      (∀ c ∈ l, c ∈ hex_digits) ∧ hex_value l = n ∧
      (∀ e, 0 < e → n < 16 ^ e → l.length ≤ e) := by
  induction fuel generalizing n with
  | zero => omega
  | succ fuel ih =>
    obtain ⟨hd1, hd2⟩ := digitChar_hex (n % 16) (Nat.mod_lt _ (by decide))
    by_cases h0 : n / 16 = 0
    · refine ⟨[Nat.digitChar (n % 16)], ?_, ?_, ?_, ?_⟩
      · intro acc
        simp [Nat.toDigitsCore, h0]
      · intro c hc
        rw [List.mem_singleton] at hc
        rw [hc]
        exact hd1
      · have := hex_value_append [] (Nat.digitChar (n % 16))
        rw [List.nil_append] at this
        rw [this, hd2]
        simp only [hex_value, List.foldl_nil]
        omega
      · intro e he _
        simpa using he
    · obtain ⟨l, hl1, hl2, hl3, hl4⟩ := ih (n / 16) (by omega)
      refine ⟨l ++ [Nat.digitChar (n % 16)], ?_, ?_, ?_, ?_⟩
      · intro acc
        simp [Nat.toDigitsCore, h0, hl1]
      · intro c hc
        rcases List.mem_append.1 hc with hc | hc
        · exact hl2 c hc
        · rw [List.mem_singleton] at hc
          rw [hc]
          exact hd1
      · rw [hex_value_append, hl3, hd2]
        omega
      · intro e he hlt
        cases e with
        | zero => omega
        | succ e =>
          have he1 : 0 < e := by
            by_contra hc
            have : e = 0 := by omega
            subst this
            simp at hlt
            omega
          have : n / 16 < 16 ^ e := by
            rw [Nat.div_lt_iff_lt_mul (by decide)]
            rw [Nat.pow_succ] at hlt
            exact hlt
          have := hl4 e he1 this
          simp
          omega

/-- The conversion `%.Nx`: lowercase hexadecimal digits that denote the value, at least `prec`
of them, and exactly `prec` when the value fits. -/
theorem printf_x_spec (prec v : Nat) :
    (∀ c ∈ printf_x prec v, c ∈ hex_digits) ∧ hex_value (printf_x prec v) = v ∧
      prec ≤ (printf_x prec v).length ∧
      (0 < prec → v < 16 ^ prec → (printf_x prec v).length = prec) := by
  obtain ⟨l, hl1, hl2, hl3, hl4⟩ := toDigitsCore_hex (v + 1) v (by omega)
  have hd : Nat.toDigits 16 v = l := by
    unfold Nat.toDigits
    rw [hl1, List.append_nil]
  unfold printf_x
  rw [hd]
  refine ⟨?_, ?_, ?_, ?_⟩
  · intro c hc
    rcases List.mem_append.1 hc with hc | hc
    · rw [(List.mem_replicate.1 hc).2]
      decide
    · exact hl2 c hc
  · rw [hex_value_zeros, hl3]
  · rw [List.length_append, List.length_replicate]
    omega
  · intro hp hv
    have := hl4 prec hp hv
    rw [List.length_append, List.length_replicate]
    omega

theorem hex_digits_plain : ∀ c ∈ hex_digits, c ≠ '\n' ∧ c ≠ '|' := by
  decide

theorem ascii_char_plain (b : Nat) : ascii_char b ≠ '\n' := by
  have h : ∀ x, x < 127 → 32 ≤ x → Char.ofNat x ≠ '\n' := by decide
  unfold ascii_char
  split_ifs with hb
  · decide
  · exact h _ (by omega) (by omega)

theorem printf_x_no_newline (prec v : Nat) : '\n' ∉ printf_x prec v :=
  fun h => (hex_digits_plain _ ((printf_x_spec prec v).1 _ h)).1 rfl

theorem printf_x_no_bar (prec v : Nat) : '|' ∉ printf_x prec v :=
  fun h => (hex_digits_plain _ ((printf_x_spec prec v).1 _ h)).2 rfl

theorem hexdump_cell_plain (data : Mem) (ds : data_size_type) (j : Nat) :
    '\n' ∉ hexdump_cell data ds j ∧ '|' ∉ hexdump_cell data ds j := by
  unfold hexdump_cell
  have h1 := printf_x_no_newline (2 * hexdump_bytes ds)
    (load data (j * hexdump_bytes ds) (hexdump_bytes ds))
  have h2 := printf_x_no_bar (2 * hexdump_bytes ds)
    (load data (j * hexdump_bytes ds) (hexdump_bytes ds))
  constructor <;> split_ifs <;> simp [h1, h2]

theorem hexdump_gap_plain (ds : data_size_type) (r : Nat) :
    '\n' ∉ hexdump_gap ds r ∧ '|' ∉ hexdump_gap ds r := by
  unfold hexdump_gap
  constructor <;> split_ifs <;> simp [List.mem_replicate]

theorem hexdump_row_no_newline (data : Mem) (len : Nat) (address : Int) (ds : data_size_type)
    (pfx : List Char) (k : Nat) (hpfx : '\n' ∉ pfx) :
    '\n' ∉ hexdump_row data len address ds pfx k := by
  unfold hexdump_row hexdump_label hexdump_panel hexdump_panel_fill
  have h1 : ∀ v, '\n' ∉ printf_x 8 v := printf_x_no_newline 8
  have h2 := (hexdump_gap_plain ds (hexdump_row_elems ds len k)).1
  have h3 : ∀ j, '\n' ∉ hexdump_cell data ds j := fun j => (hexdump_cell_plain data ds j).1
  have h4 : ∀ b, ¬ ('\n' = ascii_char b) := fun b e => ascii_char_plain b e.symm
  have h5 : ∀ b, ¬ (ascii_char b = '\n') := ascii_char_plain
  split_ifs <;>
    simp [hpfx, h1, h2, h3, h4, h5, List.mem_flatMap, List.mem_replicate]

/-- The lines of a dump are its rows. -/
theorem hexdump_lines_eq (fuel : Nat) (data : Mem) (len : Nat) (address : Int)
    (ds : data_size_type) (pfx : List Char) (hlen : len * hexdump_bytes ds < 2 ^ 32)
    (hfuel : len ≤ fuel) (hpfx : '\n' ∉ pfx) :
    ∃ out, hexdump fuel (some data) len address ds pfx = some out ∧
      text_lines out =
        (List.range (hexdump_row_count ds len)).map (hexdump_row data len address ds pfx) :=
  ⟨_, hexdump_eq_rows fuel data len address ds pfx hlen hfuel,
    text_lines_rows _ _ (fun k _ => hexdump_row_no_newline data len address ds pfx k hpfx)⟩


/-- Line `k` of a dump is row `k`, and there are `hexdump_row_count` lines. -/
theorem hexdump_line_at (fuel : Nat) (data : Mem) (len : Nat) (address : Int)
    (ds : data_size_type) (pfx : List Char) (hlen : len * hexdump_bytes ds < 2 ^ 32)
    (hfuel : len ≤ fuel) (hpfx : '\n' ∉ pfx) :
    ∃ out, hexdump fuel (some data) len address ds pfx = some out ∧
      (text_lines out).length = hexdump_row_count ds len ∧
      ∀ k, k < hexdump_row_count ds len →
        (text_lines out)[k]? = some (hexdump_row data len address ds pfx k) := by
  obtain ⟨out, h1, h2⟩ := hexdump_lines_eq fuel data len address ds pfx hlen hfuel hpfx
  refine ⟨out, h1, ?_, ?_⟩
  · rw [h2, List.length_map, List.length_range]
  · intro k hk
    rw [h2, List.getElem?_map, List.getElem?_range hk]
    rfl

theorem hexdump_row_elems_eq (ds : data_size_type) (len k : Nat) :
    hexdump_row_elems ds len k =
      min len ((k + 1) * hexdump_mod ds) - k * hexdump_mod ds := by
  unfold hexdump_row_elems
  rw [Nat.succ_mul]
  omega

theorem hexdump_label_eq (address : Int) (ds : data_size_type) (k : Nat) :
    hexdump_label address ds k = printf_x 8 ((address + 16 * (k : Int)) % 2 ^ 64).toNat := by
  unfold hexdump_label to_u64
  have : ((k * hexdump_mod ds * hexdump_bytes ds : Nat) : Int) = 16 * (k : Int) := by
    have hmb : hexdump_mod ds * hexdump_bytes ds = 16 := by cases ds <;> rfl
    rw [Nat.mul_assoc, hmb]
    push_cast
    ring
  rw [this]

/-- C8: for every element size and element count `len` with `len * element_size < 2 ^ 32`,
`hexdump` prints exactly `ceil (len / elements_per_row)` lines (16 bytes of data per row);
line `k` begins with the value `address + 16 * k` (as a 64-bit pattern) in lowercase
hexadecimal, at least 8 digits, followed by a colon and a space, and then shows the elements
`k * elements_per_row` up to `min len ((k + 1) * elements_per_row) - 1` in increasing order. -/
theorem hexdump_lines (fuel : Nat) (data : Mem) (len : Nat) (address : Int)
    (ds : data_size_type) (pfx : List Char) (hlen : len * hexdump_bytes ds < 2 ^ 32)
    (hfuel : len ≤ fuel) (hpfx : '\n' ∉ pfx) :
    hexdump_mod ds * hexdump_bytes ds = 16 ∧
    ∃ out, hexdump fuel (some data) len address ds pfx = some out ∧
      (text_lines out).length = (len + hexdump_mod ds - 1) / hexdump_mod ds ∧
      ∀ k, k < (len + hexdump_mod ds - 1) / hexdump_mod ds →
        (text_lines out)[k]? = some
          (pfx ++ printf_x 8 ((address + 16 * (k : Int)) % 2 ^ 64).toNat ++ [':', ' '] ++
            (List.range' (k * hexdump_mod ds)
              (min len ((k + 1) * hexdump_mod ds) - k * hexdump_mod ds)).flatMap
                (hexdump_cell data ds) ++
            hexdump_gap ds (min len ((k + 1) * hexdump_mod ds) - k * hexdump_mod ds) ++ ['|'] ++
            hexdump_panel data ds (k * hexdump_mod ds)
              (min len ((k + 1) * hexdump_mod ds) - k * hexdump_mod ds) ++
            hexdump_panel_fill ds (min len ((k + 1) * hexdump_mod ds) - k * hexdump_mod ds) ++
            ['|']) ∧
        hex_value (printf_x 8 ((address + 16 * (k : Int)) % 2 ^ 64).toNat) =
          ((address + 16 * (k : Int)) % 2 ^ 64).toNat ∧
        8 ≤ (printf_x 8 ((address + 16 * (k : Int)) % 2 ^ 64).toNat).length ∧
        (∀ c ∈ printf_x 8 ((address + 16 * (k : Int)) % 2 ^ 64).toNat, c ∈ hex_digits) ∧
        (k : Int) * hexdump_mod ds * hexdump_bytes ds = 16 * (k : Int) := by
  have hmb : hexdump_mod ds * hexdump_bytes ds = 16 := by cases ds <;> rfl
  obtain ⟨out, h1, h2, h3⟩ := hexdump_line_at fuel data len address ds pfx hlen hfuel hpfx
  refine ⟨hmb, out, h1, h2, ?_⟩
  intro k hk
  have hs := printf_x_spec 8 ((address + 16 * (k : Int)) % 2 ^ 64).toNat
  refine ⟨?_, hs.2.1, hs.2.2.1, hs.1, ?_⟩
  · rw [h3 k hk, hexdump_row, hexdump_label_eq, hexdump_row_elems_eq]
  · have : ((hexdump_mod ds * hexdump_bytes ds : Nat) : Int) = 16 := by rw [hmb]; rfl
    push_cast at this
    rw [mul_assoc, this, mul_comm]

theorem hexdump_lines_witness :
    (5 * hexdump_bytes WORD < 2 ^ 32 ∧ 5 ≤ 5 ∧ '\n' ∉ ([] : List Char)) ∧
    ∃ out, hexdump 5 (some (fun i => 7 * i + 1)) 5 0x1000 WORD [] = some out ∧
      (text_lines out).length = 1 :=
  ⟨by decide,
    (hexdump_lines 5 (fun i => 7 * i + 1) 5 0x1000 WORD [] (by decide) (by decide)
      (by decide)).2.imp (fun _ h => ⟨h.1, h.2.1⟩)⟩


/-- C9: `hexdump` prints every element as exactly `2 * element_size` lowercase hexadecimal
digits (zero-padded, denoting the element's value) followed by one space, and one more space
after an element whose count `j + 1` is a multiple of `elements_per_row / 2`; for two
consecutive elements of a row that happens exactly after the element at position
`elements_per_row / 2`, so neighbours are one space apart, two across the midpoint. -/
theorem hexdump_elements (fuel : Nat) (data : Mem) (len : Nat) (address : Int)
    (ds : data_size_type) (pfx : List Char) (hlen : len * hexdump_bytes ds < 2 ^ 32)
    (hfuel : len ≤ fuel) (hpfx : '\n' ∉ pfx) :
    ∃ out, hexdump fuel (some data) len address ds pfx = some out ∧
      (∀ k, k < (len + hexdump_mod ds - 1) / hexdump_mod ds →
        (text_lines out)[k]? = some
          (pfx ++ hexdump_label address ds k ++ [':', ' '] ++
            (List.range' (k * hexdump_mod ds)
              (min len ((k + 1) * hexdump_mod ds) - k * hexdump_mod ds)).flatMap
                (fun j =>
                  printf_x (2 * hexdump_bytes ds)
                    (load data (j * hexdump_bytes ds) (hexdump_bytes ds)) ++ [' '] ++
                  (if (j + 1) % (hexdump_mod ds / 2) = 0 then [' '] else [])) ++
            (hexdump_gap ds (min len ((k + 1) * hexdump_mod ds) - k * hexdump_mod ds) ++ ['|'] ++
            hexdump_panel data ds (k * hexdump_mod ds)
              (min len ((k + 1) * hexdump_mod ds) - k * hexdump_mod ds) ++
            hexdump_panel_fill ds (min len ((k + 1) * hexdump_mod ds) - k * hexdump_mod ds) ++
            ['|']))) ∧
      (∀ j,
        (printf_x (2 * hexdump_bytes ds)
          (load data (j * hexdump_bytes ds) (hexdump_bytes ds))).length = 2 * hexdump_bytes ds ∧
        (∀ c ∈ printf_x (2 * hexdump_bytes ds)
          (load data (j * hexdump_bytes ds) (hexdump_bytes ds)), c ∈ hex_digits) ∧
        hex_value (printf_x (2 * hexdump_bytes ds)
          (load data (j * hexdump_bytes ds) (hexdump_bytes ds))) =
            load data (j * hexdump_bytes ds) (hexdump_bytes ds)) ∧
      (∀ k j, k * hexdump_mod ds ≤ j → j + 1 < (k + 1) * hexdump_mod ds →
        ((j + 1) % (hexdump_mod ds / 2) = 0 ↔ j + 1 = k * hexdump_mod ds + hexdump_mod ds / 2))
    := by
  obtain ⟨out, h1, _, h3⟩ := hexdump_line_at fuel data len address ds pfx hlen hfuel hpfx
  refine ⟨out, h1, ?_, ?_, ?_⟩
  · intro k hk
    have hc : hexdump_cell data ds = fun j =>
        printf_x (2 * hexdump_bytes ds)
          (load data (j * hexdump_bytes ds) (hexdump_bytes ds)) ++ [' '] ++
        (if (j + 1) % (hexdump_mod ds / 2) = 0 then [' '] else []) := rfl
    rw [h3 k hk, hexdump_row, hexdump_row_elems_eq, hc]
    simp only [List.append_assoc]
  · intro j
    have hs := printf_x_spec (2 * hexdump_bytes ds)
      (load data (j * hexdump_bytes ds) (hexdump_bytes ds))
    have hb1 : 0 < 2 * hexdump_bytes ds := by cases ds <;> simp [hexdump_bytes]
    have hlt : load data (j * hexdump_bytes ds) (hexdump_bytes ds) <
        16 ^ (2 * hexdump_bytes ds) := by
      have := load_lt data (j * hexdump_bytes ds) (hexdump_bytes ds)
      have e : (16:Nat) ^ (2 * hexdump_bytes ds) = 256 ^ hexdump_bytes ds := by
        rw [Nat.pow_mul]
      rw [e]
      exact this
    exact ⟨hs.2.2.2 hb1 hlt, hs.1, hs.2.1⟩
  · intro k j hj1 hj2
    cases ds <;> simp only [hexdump_mod] at * <;> omega

theorem hexdump_elements_witness :
    (9 * hexdump_bytes DWORD < 2 ^ 32 ∧ 9 ≤ 12 ∧ '\n' ∉ ['>', ' ']) ∧
    ∃ out, hexdump 12 (some (fun i => 5 * i + 3)) 9 0x40 DWORD ['>', ' '] = some out ∧
      ∀ j,
        (printf_x (2 * hexdump_bytes DWORD)
          (load (fun i => 5 * i + 3) (j * hexdump_bytes DWORD) (hexdump_bytes DWORD))).length =
            2 * hexdump_bytes DWORD :=
  ⟨by decide,
    (hexdump_elements 12 (fun i => 5 * i + 3) 9 0x40 DWORD ['>', ' '] (by decide) (by decide)
      (by decide)).imp (fun _ h => ⟨h.1, fun j => (h.2.2.1 j).1⟩)⟩

theorem ofNat_code : ∀ b, b < 127 → 32 ≤ b → (Char.ofNat b).toNat = b := by
  decide

/-- C10, as the code has it: for every element size, every buffer of `len` elements with
`len * element_size < 2 ^ 32` and every row of the dump, the text between the opening bar and
the closing bar starts with one character per byte of the row's data (`r * element_size`
characters for a row of `r` elements), in buffer byte order: a byte `b` with `32 <= b <= 126`
is shown as the character with code `b`, any other byte as a dot; a short row is then filled
with spaces. -/
theorem hexdump_ascii_panel (fuel : Nat) (data : Mem) (len : Nat) (address : Int)
    (ds : data_size_type) (pfx : List Char) (hlen : len * hexdump_bytes ds < 2 ^ 32)
    (hfuel : len ≤ fuel) (hpfx : '\n' ∉ pfx) :
    ∃ out, hexdump fuel (some data) len address ds pfx = some out ∧
      (∀ k, k < (len + hexdump_mod ds - 1) / hexdump_mod ds →
        ∃ hexpart panel fill,
          (text_lines out)[k]? = some (pfx ++ hexpart ++ ['|'] ++ panel ++ fill ++ ['|']) ∧
          '|' ∉ hexpart ∧
          panel.length =
            (min len ((k + 1) * hexdump_mod ds) - k * hexdump_mod ds) * hexdump_bytes ds ∧
          (∀ n, n < (min len ((k + 1) * hexdump_mod ds) - k * hexdump_mod ds) * hexdump_bytes ds →
            panel[n]? = some
              (if 32 ≤ data (k * hexdump_mod ds * hexdump_bytes ds + n) % 256 ∧
                  data (k * hexdump_mod ds * hexdump_bytes ds + n) % 256 ≤ 126 then
                Char.ofNat (data (k * hexdump_mod ds * hexdump_bytes ds + n) % 256)
               else '.')) ∧
          (∀ c ∈ fill, c = ' ')) ∧
      (∀ b, 32 ≤ b → b ≤ 126 → (Char.ofNat b).toNat = b) := by
  obtain ⟨out, h1, _, h3⟩ := hexdump_line_at fuel data len address ds pfx hlen hfuel hpfx
  refine ⟨out, h1, ?_, fun b hb1 hb2 => ofNat_code b (by omega) hb1⟩
  intro k hk
  refine ⟨hexdump_label address ds k ++ [':', ' '] ++
      (List.range' (k * hexdump_mod ds) (hexdump_row_elems ds len k)).flatMap
        (hexdump_cell data ds) ++ hexdump_gap ds (hexdump_row_elems ds len k),
    hexdump_panel data ds (k * hexdump_mod ds) (hexdump_row_elems ds len k),
    hexdump_panel_fill ds (hexdump_row_elems ds len k), ?_, ?_, ?_, ?_, ?_⟩
  · rw [h3 k hk, hexdump_row]
    simp only [List.append_assoc]
  · have h1 : ∀ v, '|' ∉ printf_x 8 v := printf_x_no_bar 8
    have h2 := (hexdump_gap_plain ds (hexdump_row_elems ds len k)).2
    have h4 : ∀ j, '|' ∉ hexdump_cell data ds j := fun j => (hexdump_cell_plain data ds j).2
    simp [hexdump_label, h1, h2, h4, List.mem_flatMap]
  · rw [← hexdump_row_elems_eq]
    simp [hexdump_panel]
  · intro n hn
    rw [← hexdump_row_elems_eq] at hn
    simp only [hexdump_panel, List.getElem?_map]
    rw [List.getElem?_range' _ _ hn]
    simp only [Option.map_some', ascii_char, Nat.one_mul]
    congr 1
    by_cases hc : data (k * hexdump_mod ds * hexdump_bytes ds + n) % 256 < 32 ∨
        data (k * hexdump_mod ds * hexdump_bytes ds + n) % 256 > 126
    · rw [if_pos hc, if_neg (by omega)]
    · rw [if_neg hc, if_pos (by omega)]
  · intro c hc
    unfold hexdump_panel_fill at hc
    split_ifs at hc
    · exact (List.mem_replicate.1 hc).2
    · simp at hc

theorem hexdump_ascii_panel_witness :
    (21 * hexdump_bytes BYTE < 2 ^ 32 ∧ 21 ≤ 21 ∧ '\n' ∉ ([] : List Char)) ∧
    ∃ out, hexdump 21 (some (fun i => 13 * i + 40)) 21 0x2000 BYTE [] = some out ∧
      ∀ b, 32 ≤ b → b ≤ 126 → (Char.ofNat b).toNat = b :=
  ⟨by decide,
    (hexdump_ascii_panel 21 (fun i => 13 * i + 40) 21 0x2000 BYTE [] (by decide) (by decide)
      (by decide)).imp (fun _ h => ⟨h.1, h.2.2⟩)⟩


/-! ## parse_params and the extent of a write -/

theorem parse_params_finish_fields (env_dev : Option (List Char)) (p q : Params)
    (data_size_st : Option (List Char)) (ret : Nat)
    (h : parse_params_finish env_dev p data_size_st = (ret, q)) :
    q.operation = p.operation ∧ q.length = p.length := by
  unfold parse_params_finish at h
  dsimp only at h
  split at h
  · simp only [Prod.mk.injEq] at h
    obtain ⟨_, rfl⟩ := h
    exact ⟨rfl, rfl⟩
  · simp only [Prod.mk.injEq] at h
    obtain ⟨_, rfl⟩ := h
    exact ⟨rfl, rfl⟩

theorem parse_operator_length (p0 : Params) (arg1 : List Char) :
    (parse_operator p0 arg1).1.length = p0.length := by
  unfold parse_operator
  repeat' split
  all_goals rfl

theorem parse_params_two_length (env_dev : Option (List Char)) (p0 p : Params)
    (arg1 : List Char) (ret : Nat) (h : parse_params_two env_dev p0 arg1 = some (ret, p)) :
    p.length = p0.length := by
  unfold parse_params_two at h
  dsimp only at h
  split at h
  · simp at h
  · split at h
    · simp only [Option.some.injEq, Prod.mk.injEq] at h
      obtain ⟨_, rfl⟩ := h
      exact parse_operator_length p0 arg1
    · split at h
      · split at h
        · simp only [Option.some.injEq, Prod.mk.injEq] at h
          obtain ⟨_, rfl⟩ := h
          exact parse_operator_length p0 arg1
        · simp only [Option.some.injEq] at h
          rw [(parse_params_finish_fields _ _ _ _ _ h).2]
          exact parse_operator_length p0 arg1
      · simp only [Option.some.injEq] at h
        rw [(parse_params_finish_fields _ _ _ _ _ h).2]
        exact parse_operator_length p0 arg1

theorem parse_params_three_operation (env_dev : Option (List Char)) (p0 p : Params)
    (arg1 arg2 : List Char) (ret : Nat)
    (h : parse_params_three env_dev p0 arg1 arg2 = some (ret, p)) : p.operation = READ := by
  unfold parse_params_three at h
  dsimp only at h
  split at h
  · simp only [Option.some.injEq, Prod.mk.injEq] at h
    obtain ⟨_, rfl⟩ := h
    rfl
  · split at h
    · simp at h
    · split at h
      · simp only [Option.some.injEq, Prod.mk.injEq] at h
        obtain ⟨_, rfl⟩ := h
        rfl
      · simp only [Option.some.injEq] at h
        rw [(parse_params_finish_fields _ _ _ _ _ h).1]

/-- Every request that `parse_params` returns with `operation = WRITE` has `length = 0x10`:
the default of pmat.c 440 is never changed on the write path. -/
theorem parse_params_write_length (env_iterations env_dev : Option (List Char))
    (argv : List (List Char)) (ret : Nat) (p : Params)
    (h : parse_params env_iterations env_dev argv = some (ret, p))
    (hw : p.operation = WRITE) : p.length = 0x10 := by
  unfold parse_params at h
  split at h
  · simp only [Option.some.injEq, Prod.mk.injEq] at h
    obtain ⟨_, rfl⟩ := h
    rfl
  · simp only [Option.some.injEq, Prod.mk.injEq] at h
    obtain ⟨_, rfl⟩ := h
    rfl
  · rw [parse_params_two_length _ _ _ _ _ h]
    rfl
  · rw [parse_params_three_operation _ _ _ _ _ _ h] at hw
    cases hw

/-- C3 (the code departs from it): the request `parse_params` builds for the command line
`pmat 1000=ff` is an aligned BYTE ASSIGN at `0x1000` with `length = 0x10`; on a file whose
bytes are all `0x55` and a zeroed buffer, `write_operation` leaves `0` in the byte at `0x1001`,
which lies outside `[address, address + element_size)`.  Likewise `pmat 2000.d^=100000000`
changes the byte at `0x2004`, outside the DWORD at `0x2000`. -/
theorem write_operation_changes_neighbours :
    parse_params none none ["pmat".toList, "1000=ff".toList] =
      some (0, ⟨WRITE, ASSIGN, "/dev/mem".toList, 0x1000, 0x10, 0x10, 1, 0xff, BYTE⟩) ∧
    alignment_check ⟨WRITE, ASSIGN, "/dev/mem".toList, 0x1000, 0x10, 0x10, 1, 0xff, BYTE⟩ = 0 ∧
    ¬ (0x1000 ≤ 0x1001 ∧ 0x1001 < 0x1000 + elem_bytes BYTE) ∧
    (write_operation (2 ^ 12) ⟨WRITE, ASSIGN, "/dev/mem".toList, 0x1000, 0x10, 0x10, 1, 0xff, BYTE⟩
      (fun _ => 0x55) (fun _ => 0)).1 0x1001 = 0 ∧
    parse_params none none ["pmat".toList, "2000.d^=100000000".toList] =
      some (0, ⟨WRITE, XOR, "/dev/mem".toList, 0x2000, 0x10, 0x40, 1, 0x100000000, DWORD⟩) ∧
    ¬ (0x2000 ≤ 0x2004 ∧ 0x2004 < 0x2000 + elem_bytes DWORD) ∧
    (write_operation (2 ^ 12)
      ⟨WRITE, XOR, "/dev/mem".toList, 0x2000, 0x10, 0x40, 1, 0x100000000, DWORD⟩
      (fun _ => 0x55) (fun _ => 0)).1 0x2004 = 0x54 := by
  refine ⟨by decide, by decide, by decide, by decide, by decide, by decide, by decide⟩

/-! ## parse_params: element count and byte length -/

/-- C13 (the code departs from it): `parse_params` accepts `pmat 2000.w|=1` as a WORD OR
write and leaves `params.length = 0x10` and `params.length_in_bytes = 0x20`, not `1` and the
element size `2`. -/
theorem parse_params_write_count :
    parse_params none none ["pmat".toList, "2000.w|=1".toList] =
      some (0, ⟨WRITE, OR, "/dev/mem".toList, 0x2000, 0x10, 0x20, 1, 0x1, WORD⟩) ∧
    (0x10 : Int) ≠ 1 ∧ (0x20 : Int) ≠ (elem_bytes WORD : Int) := by
  refine ⟨by decide, by decide, by decide⟩

theorem parse_params_finish_bytes (env_dev : Option (List Char)) (p q : Params)
    (data_size_st : Option (List Char))
    (h : parse_params_finish env_dev p data_size_st = (0, q)) :
    q.length = p.length ∧
    q.length_in_bytes =
      wrap_off (((to_u64 q.length * elem_bytes q.data_size) % 2 ^ 64 : Nat) : Int) := by
  unfold parse_params_finish at h
  dsimp only at h
  split at h
  · simp at h
  · simp only [Prod.mk.injEq, true_and] at h
    subst h
    exact ⟨rfl, rfl⟩

theorem parse_params_two_bytes (env_dev : Option (List Char)) (p0 p : Params)
    (arg1 : List Char) (h : parse_params_two env_dev p0 arg1 = some (0, p)) :
    p.length_in_bytes =
      wrap_off (((to_u64 p.length * elem_bytes p.data_size) % 2 ^ 64 : Nat) : Int) := by
  unfold parse_params_two at h
  dsimp only at h
  split at h
  · simp at h
  · split at h
    · simp at h
    · split at h
      · split at h
        · simp at h
        · simp only [Option.some.injEq] at h
          exact (parse_params_finish_bytes _ _ _ _ h).2
      · simp only [Option.some.injEq] at h
        exact (parse_params_finish_bytes _ _ _ _ h).2

theorem parse_params_three_bytes (env_dev : Option (List Char)) (p0 p : Params)
    (arg1 arg2 : List Char) (h : parse_params_three env_dev p0 arg1 arg2 = some (0, p)) :
    p.length_in_bytes =
      wrap_off (((to_u64 p.length * elem_bytes p.data_size) % 2 ^ 64 : Nat) : Int) := by
  unfold parse_params_three at h
  dsimp only at h
  split at h
  · simp at h
  · split at h
    · simp at h
    · split at h
      · simp at h
      · simp only [Option.some.injEq] at h
        exact (parse_params_finish_bytes _ _ _ _ h).2

/-- C14, where it fails: for `pmat 0 4000000000000000.d` the parser accepts a length of
`2 ^ 62` DWORD elements and stores `length_in_bytes = 0`, not `2 ^ 62 * 4`. -/
theorem parse_params_bytes_wrap :
    parse_params none none ["pmat".toList, "0".toList, "4000000000000000.d".toList] =
      some (0, ⟨READ, ASSIGN, "/dev/mem".toList, 0, 2 ^ 62, 0, 1, 0, DWORD⟩) ∧
    (0 : Int) ≠ 2 ^ 62 * (elem_bytes DWORD : Int) := by
  refine ⟨by decide, by decide⟩

/-- C14, as the code has it: for every argument vector that `parse_params` accepts,
`length_in_bytes` is `length * element_size` computed in `unsigned long` (modulo `2 ^ 64`) and
read back as an `off_t`; it is the exact integer product whenever that product lies in
`[0, 2 ^ 63)`. -/
theorem parse_params_bytes (env_iterations env_dev : Option (List Char))
    (argv : List (List Char)) (p : Params)
    (h : parse_params env_iterations env_dev argv = some (0, p)) :
    p.length_in_bytes =
      wrap_off (((to_u64 p.length * elem_bytes p.data_size) % 2 ^ 64 : Nat) : Int) ∧
    (0 ≤ p.length → p.length * (elem_bytes p.data_size : Int) < 2 ^ 63 →
      p.length_in_bytes = p.length * (elem_bytes p.data_size : Int)) := by
  have key : p.length_in_bytes =
      wrap_off (((to_u64 p.length * elem_bytes p.data_size) % 2 ^ 64 : Nat) : Int) := by
    unfold parse_params at h
    split at h
    · simp at h
    · simp at h
    · exact parse_params_two_bytes _ _ _ _ h
    · exact parse_params_three_bytes _ _ _ _ _ h
  refine ⟨key, fun h0 h1 => ?_⟩
  rw [key]
  have hs : 1 ≤ (elem_bytes p.data_size : Int) := by cases p.data_size <;> simp [elem_bytes]
  have hl : p.length < 2 ^ 63 := by nlinarith
  rw [to_u64_of_nonneg _ h0 (by omega)]
  have e : ((p.length.toNat * elem_bytes p.data_size : Nat) : Int) =
      p.length * (elem_bytes p.data_size : Int) := by
    push_cast
    rw [Int.toNat_of_nonneg h0]
  have hnn : 0 ≤ p.length * (elem_bytes p.data_size : Int) := Int.mul_nonneg h0 (by omega)
  rw [Int.natCast_mod, e]
  have e2 : ((2 ^ 64 : Nat) : Int) = 2 ^ 64 := by norm_num
  rw [e2, Int.emod_eq_of_lt hnn (by omega), wrap_off_of_range _ (by omega) h1]

theorem parse_params_bytes_witness :
    parse_params none none ["pmat".toList, "1000".toList, "20.w".toList] =
      some (0, ⟨READ, ASSIGN, "/dev/mem".toList, 0x1000, 0x20, 0x40, 1, 0, WORD⟩) ∧
    ((0 : Int) ≤ 0x20 → (0x20 : Int) * (elem_bytes WORD : Int) < 2 ^ 63 →
      (0x40 : Int) = 0x20 * (elem_bytes WORD : Int)) :=
  ⟨by decide,
    (parse_params_bytes none none ["pmat".toList, "1000".toList, "20.w".toList]
      ⟨READ, ASSIGN, "/dev/mem".toList, 0x1000, 0x20, 0x40, 1, 0, WORD⟩ (by decide)).2⟩

/-! ## write_operation: the XOR scenario and the mapped window -/

/-- The element at `address` after an XOR write, for any element size. -/
theorem write_operation_xor_elem (k : Nat) (p : Params) (region buf : Mem)
    (hk : k ≤ 30) (h0 : 0 ≤ p.address) (h1 : p.address < 2 ^ 63) (hlen : 1 ≤ p.length)
    (hw : p.write_operation = XOR) :
    load_elem p.data_size (write_operation (2 ^ k) p region buf).1 p.address.toNat 0 =
      load_elem p.data_size region p.address.toNat 0 ^^^
        (p.value % 2 ^ (8 * elem_bytes p.data_size)) := by
  have ht := write_temp_eq k hk p h0 h1
  have he := write_operation_elem (2 ^ k) p region buf hlen
  rw [ht] at he
  have hb : (write_operation (2 ^ k) p region buf).2 =
      write_modify p (copy_loop p.data_size region p.address.toNat buf 0 p.length.toNat) := by
    simp only [write_operation, ht, hw, ne_eq, reduceCtorEq, not_false_eq_true, if_true]
  have hc : load_elem p.data_size
      (copy_loop p.data_size region p.address.toNat buf 0 p.length.toNat) 0 0 =
      load_elem p.data_size region p.address.toNat 0 :=
    copy_loop_elem _ _ _ _ _ _ 0 (by omega)
  rw [he, hb, (write_modify_elem p _).2.1 hw, hc]

/-- C15, where it fails: for the request address `0x2000`, DWORD, WRITE, XOR, value `0xFF`
(as `parse_params` builds it from `2000.d^=ff`) applied to a region whose DWORD at `0x2000` is
`0x000000AA`, the DWORD stored at `0x2000` after `write_operation` is `0x00000055`, which is
`0xAA XOR 0xFF`, and not `0x000000A5`. -/
theorem write_operation_xor_aa_ff :
    parse_params none none ["pmat".toList, "2000.d^=ff".toList] =
      some (0, ⟨WRITE, XOR, "/dev/mem".toList, 0x2000, 0x10, 0x40, 1, 0xFF, DWORD⟩) ∧
    load_elem DWORD (fun j => if j = 0x2000 then 0xAA else 0) 0x2000 0 = 0x000000AA ∧
    load_elem DWORD (write_operation (2 ^ 12)
      ⟨WRITE, XOR, "/dev/mem".toList, 0x2000, 0x10, 0x40, 1, 0xFF, DWORD⟩
      (fun j => if j = 0x2000 then 0xAA else 0) (fun _ => 0)).1 0x2000 0 = 0x00000055 ∧
    (0x00000055 : Nat) ≠ 0x000000A5 ∧ 0xAA ^^^ 0xFF = 0x55 := by
  refine ⟨by decide, by decide, by decide, by decide, by decide⟩

/-- C15, as the code has it: for the request address `0x2000`, element size DWORD, operation
WRITE, write kind XOR, value `0xFF` (any element count of at least one, as every WRITE request
has), applied to a region whose DWORD at `0x2000` is `0x000000AA`, the DWORD stored at `0x2000`
after `write_operation` is `0x00000055`, whatever the page size, the rest of the region and the
initial content of the buffer. -/
theorem write_operation_xor_scenario (k : Nat) (p : Params) (region buf : Mem)
    (hk : k ≤ 30) (ho : p.operation = WRITE) (hw : p.write_operation = XOR)
    (ha : p.address = 0x2000) (hd : p.data_size = DWORD) (hv : p.value = 0xFF)
    (hlen : 1 ≤ p.length) (hr : load_elem DWORD region 0x2000 0 = 0x000000AA) :
    p.operation = WRITE ∧
    load_elem DWORD (write_operation (2 ^ k) p region buf).1 0x2000 0 = 0x00000055 := by
  have h := write_operation_xor_elem k p region buf hk (by rw [ha]; decide)
    (by rw [ha]; decide) hlen hw
  rw [hd, ha, hv] at h
  have e : (0x2000 : Int).toNat = 0x2000 := rfl
  rw [e, hr] at h
  refine ⟨ho, ?_⟩
  rw [h]
  decide

theorem write_operation_xor_scenario_witness :
    (13 ≤ 30 ∧ (1 : Int) ≤ 0x10 ∧
      load_elem DWORD (fun j => if j = 0x2000 then 0xAA else if j < 0x2004 then 0 else j)
        0x2000 0 = 0x000000AA) ∧
    load_elem DWORD (write_operation (2 ^ 13)
      ⟨WRITE, XOR, "/dev/mem".toList, 0x2000, 0x10, 0x40, 1, 0xFF, DWORD⟩
      (fun j => if j = 0x2000 then 0xAA else if j < 0x2004 then 0 else j)
      (fun j => 3 * j)).1 0x2000 0 = 0x00000055 :=
  ⟨by decide,
    (write_operation_xor_scenario 13
      ⟨WRITE, XOR, "/dev/mem".toList, 0x2000, 0x10, 0x40, 1, 0xFF, DWORD⟩
      (fun j => if j = 0x2000 then 0xAA else if j < 0x2004 then 0 else j)
      (fun j => 3 * j) (by decide) rfl rfl rfl rfl rfl (by decide) (by decide)).2⟩

/-- An address that `alignment_check` accepts is a multiple of the element size. -/
theorem alignment_check_zero_mod (p : Params) (h : alignment_check p = 0) :
    p.address % (elem_bytes p.data_size : Int) = 0 := by
  unfold alignment_check to_u64 at h
  cases hds : p.data_size
  · simp [elem_bytes]
  · have e : (2 - 1 : Nat) = 2 ^ 1 - 1 := by norm_num
    simp only [hds, e, Nat.and_pow_two_sub_one_eq_mod] at h
    simp only [elem_bytes]
    omega
  · have e : (4 - 1 : Nat) = 2 ^ 2 - 1 := by norm_num
    simp only [hds, e, Nat.and_pow_two_sub_one_eq_mod] at h
    simp only [elem_bytes]
    omega

theorem window_arith (m Q t a s : Int) (hdiv : m + 4 * t = a) (hm2 : m < 4 * Q)
    (hs : s = 1 ∨ s = 2 ∨ s = 4) (hal : a % s = 0) : m + s ≤ 4 * Q := by
  rcases hs with rfl | rfl | rfl <;> omega

/-- C18: for every page size `2 ^ k` with `4 ≤ 2 ^ k` (an `int`, so `k ≤ 30`), every element
size and every address `≥ 0` (an `off_t`) that `alignment_check` accepts, the offset of `temp`
in the one-page mapping of `write_operation` is `address - (address & ~(page_size - 1))`, it is
not negative, and offset plus element size is at most the page size: the mapped page contains
the whole target element. -/
theorem write_operation_window (k : Nat) (p : Params) (hk2 : 2 ≤ k) (hk : k ≤ 30)
    (h0 : 0 ≤ p.address) (h1 : p.address < 2 ^ 63) (ha : alignment_check p = 0) :
    write_offset (2 ^ k) p = p.address - page_floor p.address (2 ^ k) ∧
    0 ≤ write_offset (2 ^ k) p ∧
    write_offset (2 ^ k) p + (elem_bytes p.data_size : Int) ≤ 2 ^ k ∧
    write_temp (2 ^ k) p =
      (write_aligned_address (2 ^ k) p + write_offset (2 ^ k) p).toNat := by
  have hfl := page_floor_eq p.address k h0 h1 (by omega)
  have hpos : (0:Int) < 2 ^ k := by positivity
  have hm := Int.emod_nonneg p.address (ne_of_gt hpos)
  have hm2 := Int.emod_lt_of_pos p.address hpos
  have hP : (2:Int) ^ k ≤ 2 ^ 30 := by
    exact_mod_cast Nat.pow_le_pow_right (by decide : 0 < 2) hk
  have hal := alignment_check_zero_mod p ha
  have hoff : write_offset (2 ^ k) p = p.address % 2 ^ k := by
    unfold write_offset write_aligned_address
    rw [hfl]
    split_ifs with h
    · rw [wrap_off_of_range _ (by omega) (by omega)]
      omega
    · rw [wrap_off_of_range _ (by omega) (by omega)]
      omega
  have hQ : (2:Int) ^ k = 4 * 2 ^ (k - 2) := by
    have : k = 2 + (k - 2) := by omega
    conv_lhs => rw [this, pow_add]
    norm_num
  have hdiv := Int.emod_add_ediv p.address (2 ^ k)
  rw [hQ, mul_assoc] at hdiv
  rw [← hQ] at hdiv
  refine ⟨?_, ?_, ?_, rfl⟩
  · rw [hoff, hfl]
    omega
  · rw [hoff]
    exact hm
  · rw [hoff]
    have hb : (elem_bytes p.data_size : Int) = 1 ∨ (elem_bytes p.data_size : Int) = 2 ∨
        (elem_bytes p.data_size : Int) = 4 := by
      cases p.data_size <;> simp [elem_bytes]
    have hm3 : p.address % 2 ^ k < 4 * 2 ^ (k - 2) := by
      rw [← hQ]
      exact hm2
    exact le_of_le_of_eq (window_arith _ _ _ _ _ hdiv hm3 hb hal) hQ.symm

theorem write_operation_window_witness :
    (2 ≤ 12 ∧ 12 ≤ 30 ∧ (0 : Int) ≤ 0x2ffc ∧ (0x2ffc : Int) < 2 ^ 63 ∧
      alignment_check ⟨WRITE, ASSIGN, [], 0x2ffc, 0x10, 0x40, 1, 0xFF, DWORD⟩ = 0) ∧
    write_offset (2 ^ 12) ⟨WRITE, ASSIGN, [], 0x2ffc, 0x10, 0x40, 1, 0xFF, DWORD⟩ +
      (elem_bytes DWORD : Int) ≤ 2 ^ 12 :=
  ⟨by decide,
    (write_operation_window 12 ⟨WRITE, ASSIGN, [], 0x2ffc, 0x10, 0x40, 1, 0xFF, DWORD⟩
      (by decide) (by decide) (by decide) (by decide) (by decide)).2.2.1⟩

/-! ## hexdump without bound on the length: the shape of an iteration -/

theorem hexdump_step_fst (data : Mem) (len : Nat) (address : Int) (ds : data_size_type)
    (pfx : List Char) (i : Nat) : (hexdump_step data len address ds pfx i).1 = u32 (i + 1) :=
  rfl

/-- The text printed by the iteration entered with index `i`, whatever the length: label at
the start of a row, the element, and at the end of a row the blank columns, the bar, one
character for each byte the panel loop reads, the fill and the closing bar. -/
theorem hexdump_step_shape (data : Mem) (len : Nat) (address : Int) (ds : data_size_type)
    (pfx : List Char) (i : Nat) (hi : i < 2 ^ 32) :
    (hexdump_step data len address ds pfx i).2 =
      (if i % hexdump_mod ds = 0 then
        pfx ++ printf_x 8 (to_u64 (wrap_off ((u32 (i * hexdump_bytes ds) : Nat) + address))) ++
          [':', ' ']
       else []) ++
      hexdump_cell data ds i ++
      (if (i + 1) % hexdump_mod ds = 0 then
        ['|'] ++ (hexdump_step_reads len ds i).2.map (fun n => ascii_char (data n)) ++
          ['|', '\n']
       else if i + 1 = len then
        hexdump_gap ds ((i + 1) % hexdump_mod ds) ++ ['|'] ++
          (hexdump_step_reads len ds i).2.map (fun n => ascii_char (data n)) ++
          hexdump_panel_fill ds ((i + 1) % hexdump_mod ds) ++ ['|', '\n']
       else []) := by
  have hm4 : 4 ≤ hexdump_mod ds := by cases ds <;> simp [hexdump_mod]
  have g1 : u32 (i + 1) % hexdump_mod ds = (i + 1) % hexdump_mod ds := by
    cases ds <;> simp only [hexdump_mod, u32] <;> omega
  have g2 : u32 (i + 1) % (hexdump_mod ds / 2) = (i + 1) % (hexdump_mod ds / 2) := by
    cases ds <;> simp only [hexdump_mod, u32] <;> omega
  have g3 : (i + 1) % hexdump_mod ds ≠ 0 → u32 (i + 1) = i + 1 := by
    intro h
    have : i + 1 ≠ 2 ^ 32 := by
      intro e
      apply h
      rw [e]
      cases ds <;> rfl
    unfold u32
    omega
  have f3 : u32 (hexdump_bytes ds * 2) = hexdump_bytes ds * 2 := by
    cases ds <;> rfl
  have f6 : u32 ((i + 1) % hexdump_mod ds * hexdump_bytes ds) =
      (i + 1) % hexdump_mod ds * hexdump_bytes ds := by
    cases ds <;> simp only [hexdump_mod, hexdump_bytes, u32] at * <;> omega
  have f9 : u32 (hexdump_mod ds * hexdump_bytes ds) = hexdump_mod ds * hexdump_bytes ds := by
    cases ds <;> rfl
  have hpanel : ∀ lo hi2, for_range lo hi2
      (fun n => [if data n % 256 < 32 ∨ data n % 256 > 126 then '.'
        else Char.ofNat (data n % 256)]) =
      (List.range' lo (hi2 - lo)).map (fun n => ascii_char (data n)) := by
    intro lo hi2
    have := for_range_map lo hi2 (fun n => ascii_char (data n))
    simpa [ascii_char] using this
  simp only [hexdump_step, hexdump_step_reads, g1, g2, f3]
  congr 1
  · simp only [hexdump_cell, List.append_assoc, add_comm]
    cases ds <;> simp only [hexdump_bytes, List.append_assoc, Nat.reduceMul]
  · by_cases hr : (i + 1) % hexdump_mod ds = 0
    · simp only [hr, true_or, ne_eq, not_true_eq_false, if_true, if_false,
        hpanel, List.nil_append, List.append_nil]
    · have hrm : (i + 1) % hexdump_mod ds < hexdump_mod ds := Nat.mod_lt _ (by omega)
      rw [g3 hr]
      by_cases hl : i + 1 = len
      · subst hl
        have e : (hexdump_mod ds - (i + 1) % hexdump_mod ds) * hexdump_bytes ds =
            hexdump_mod ds * hexdump_bytes ds - (i + 1) % hexdump_mod ds * hexdump_bytes ds :=
          Nat.sub_mul _ _ _
        simp only [hr, or_true, ne_eq, not_false_eq_true, if_true, if_false,
          f6, f9, hpanel, hexdump_gap, hexdump_panel_fill,
          for_range_single, for_range_replicate, hrm, Nat.sub_zero, e,
          Nat.mul_comm 2 (hexdump_bytes ds)]
      · simp only [hr, hl, or_self, if_false]

/-- The loop of `hexdump` on fewer than `2 ^ 32` elements, started at `i` with enough
iterations left, prints the text of the iterations `i .. len - 1` and stops. -/
theorem hexdump_loop_run (data : Mem) (len : Nat) (address : Int) (ds : data_size_type)
    (pfx : List Char) (hlen : len < 2 ^ 32) (fuel i : Nat) (hfuel : len - i ≤ fuel) :
    hexdump_loop data len address ds pfx fuel i =
      some ((List.range' i (len - i)).flatMap
        (fun j => (hexdump_step data len address ds pfx j).2)) := by
  induction fuel generalizing i with
  | zero =>
    have h0 : len - i = 0 := by omega
    rw [hexdump_loop, if_neg (by omega), h0]
    rfl
  | succ fuel ih =>
    rw [hexdump_loop]
    by_cases hi : i < len
    · rw [if_pos hi]
      have h1 : (hexdump_step data len address ds pfx i).1 = i + 1 := by
        rw [hexdump_step_fst]
        unfold u32
        omega
      rw [h1, ih (i + 1) (by omega)]
      have h2 : len - i = (len - (i + 1)) + 1 := by omega
      rw [h2, List.range'_succ, List.flatMap_cons]
      rfl
    · have h0 : len - i = 0 := by omega
      rw [if_neg hi, h0]
      rfl

/-- On `2 ^ 32` elements or more the `unsigned int` index never reaches `len`: the loop of
`hexdump` is still running after any number of iterations. -/
theorem hexdump_loop_diverges (data : Mem) (len : Nat) (address : Int) (ds : data_size_type)
    (pfx : List Char) (hlen : 2 ^ 32 ≤ len) (fuel i : Nat) (hi : i < 2 ^ 32) :
    hexdump_loop data len address ds pfx fuel i = none := by
  induction fuel generalizing i with
  | zero => rw [hexdump_loop, if_pos (by omega)]
  | succ fuel ih =>
    have hu : u32 (i + 1) < 2 ^ 32 := Nat.mod_lt _ (by norm_num)
    rw [hexdump_loop, if_pos (by omega), hexdump_step_fst, ih _ hu]
    rfl

theorem hexdump_trace_of_loop (data : Mem) (len : Nat) (address : Int) (ds : data_size_type)
    (pfx : List Char) (fuel i : Nat) (out : List Char)
    (h : hexdump_loop data len address ds pfx fuel i = some out) :
    hexdump_trace data len address ds pfx fuel i = out := by
  induction fuel generalizing i out with
  | zero =>
    rw [hexdump_loop] at h
    split_ifs at h
    simp only [Option.some.injEq] at h
    rw [hexdump_trace, h]
  | succ fuel ih =>
    rw [hexdump_loop] at h
    rw [hexdump_trace]
    split_ifs at h ⊢ with hi
    · cases hr : hexdump_loop data len address ds pfx fuel
          (hexdump_step data len address ds pfx i).1 with
      | none => rw [hr] at h; simp at h
      | some rest =>
        rw [hr] at h
        simp only [Option.map_some', Option.some.injEq] at h
        rw [ih _ _ hr, h]
    · simp only [Option.some.injEq] at h
      exact h

theorem hexdump_trace_run (data : Mem) (len : Nat) (address : Int) (ds : data_size_type)
    (pfx : List Char) (n i : Nat) (h1 : i + n ≤ 2 ^ 32) (h2 : i + n ≤ len) :
    hexdump_trace data len address ds pfx n i =
      (List.range' i n).flatMap (fun j => (hexdump_step data len address ds pfx j).2) := by
  induction n generalizing i with
  | zero => rfl
  | succ n ih =>
    rw [hexdump_trace, if_pos (by omega), List.range'_succ, List.flatMap_cons, hexdump_step_fst]
    cases n with
    | zero => rfl
    | succ n =>
      have e : u32 (i + 1) = i + 1 := by
        unfold u32
        omega
      rw [e, ih (i + 1) (by omega) (by omega)]

theorem hexdump_trace_add (data : Mem) (len : Nat) (address : Int) (ds : data_size_type)
    (pfx : List Char) (a b i : Nat) (hi : i < 2 ^ 32) (h : 2 ^ 32 ≤ len ∨ i + a ≤ len) :
    hexdump_trace data len address ds pfx (a + b) i =
      hexdump_trace data len address ds pfx a i ++
        hexdump_trace data len address ds pfx b (u32 (i + a)) := by
  induction a generalizing i with
  | zero =>
    have e : u32 (i + 0) = i := by
      unfold u32
      omega
    rw [e, Nat.zero_add]
    rfl
  | succ a ih =>
    have hil : i < len := by omega
    have e1 : a + 1 + b = (a + b) + 1 := by omega
    have hu : u32 (i + 1) ≤ i + 1 := Nat.mod_le _ _
    have hu2 : u32 (i + 1) < 2 ^ 32 := Nat.mod_lt _ (by norm_num)
    have e2 : u32 (u32 (i + 1) + a) = u32 (i + (a + 1)) := by
      unfold u32
      omega
    rw [e1, hexdump_trace, if_pos hil, hexdump_trace, if_pos hil, hexdump_step_fst,
      ih (u32 (i + 1)) hu2 (by omega), e2, List.append_assoc]

/-! ## hexdump without bound on the length: rows -/

/-- The text of iteration `i0 + t` of the loop, as a part of the row that starts at `i0`. -/
theorem hexdump_step_in_row_shape (data : Mem) (len : Nat) (address : Int)
    (ds : data_size_type) (pfx : List Char) (i0 t : Nat) (h0 : i0 % hexdump_mod ds = 0)
    (hi0 : i0 < 2 ^ 32) (ht : t < min (hexdump_mod ds) (len - i0)) :
    (hexdump_step data len address ds pfx (i0 + t)).2 =
      (if t = 0 then
        pfx ++ printf_x 8 (to_u64 (wrap_off ((u32 (i0 * hexdump_bytes ds) : Nat) + address))) ++
          [':', ' ']
       else []) ++
      hexdump_cell data ds (i0 + t) ++
      (if t + 1 = min (hexdump_mod ds) (len - i0) then
        hexdump_gap ds (min (hexdump_mod ds) (len - i0)) ++ ['|'] ++
          (hexdump_step_reads len ds (i0 + t)).2.map (fun n => ascii_char (data n)) ++
          hexdump_panel_fill ds (min (hexdump_mod ds) (len - i0)) ++ ['|', '\n']
       else []) := by
  have hm4 : 4 ≤ hexdump_mod ds := by cases ds <;> simp [hexdump_mod]
  have hi : i0 + t < 2 ^ 32 := by
    cases ds <;> simp only [hexdump_mod] at * <;> omega
  have ha : (i0 + t) % hexdump_mod ds = t := by
    cases ds <;> simp only [hexdump_mod] at * <;> omega
  rw [hexdump_step_shape data len address ds pfx _ hi]
  congr 1
  · congr 1
    by_cases h : t = 0
    · subst h
      simp only [Nat.add_zero] at ha ⊢
      simp only [ha, h0, if_true]
    · simp only [ha, h, if_false]
  · by_cases hfull : t + 1 = hexdump_mod ds
    · have hb : (i0 + t + 1) % hexdump_mod ds = 0 := by
        cases ds <;> simp only [hexdump_mod] at * <;> omega
      have hre : min (hexdump_mod ds) (len - i0) = hexdump_mod ds := by omega
      rw [if_pos hb, hre, if_pos hfull]
      simp only [hexdump_gap, hexdump_panel_fill, lt_self_iff_false, if_false, List.nil_append,
        List.append_nil]
    · have hb : (i0 + t + 1) % hexdump_mod ds = t + 1 := by
        cases ds <;> simp only [hexdump_mod] at * <;> omega
      by_cases hlast : t + 1 = min (hexdump_mod ds) (len - i0)
      · have hl : i0 + t + 1 = len := by omega
        rw [if_neg (by rw [hb]; omega), if_pos hl, if_pos hlast, hb, ← hlast]
      · have hl : ¬ (i0 + t + 1 = len) := by omega
        rw [if_neg (by rw [hb]; omega), if_neg hl, if_neg hlast]

theorem hexdump_row_run_shape (data : Mem) (len : Nat) (address : Int)
    (ds : data_size_type) (pfx : List Char) (i0 : Nat) (h0 : i0 % hexdump_mod ds = 0)
    (hi0 : i0 < 2 ^ 32) (t : Nat) (h1 : 1 ≤ t) (ht : t ≤ min (hexdump_mod ds) (len - i0)) :
    (List.range' i0 t).flatMap (fun j => (hexdump_step data len address ds pfx j).2) =
      pfx ++ printf_x 8 (to_u64 (wrap_off ((u32 (i0 * hexdump_bytes ds) : Nat) + address))) ++
        [':', ' '] ++
      (List.range' i0 t).flatMap (hexdump_cell data ds) ++
      (if t = min (hexdump_mod ds) (len - i0) then
        hexdump_gap ds (min (hexdump_mod ds) (len - i0)) ++ ['|'] ++
          (hexdump_step_reads len ds (i0 + t - 1)).2.map (fun n => ascii_char (data n)) ++
          hexdump_panel_fill ds (min (hexdump_mod ds) (len - i0)) ++ ['|', '\n']
       else []) := by
  induction t, h1 using Nat.le_induction with
  | base =>
    have h := hexdump_step_in_row_shape data len address ds pfx i0 0 h0 hi0 (by omega)
    simp only [Nat.add_zero, if_true, Nat.zero_add] at h
    simp only [List.range'_one, List.flatMap_singleton, h, Nat.add_sub_cancel]
  | succ t h1 ih =>
    have h := hexdump_step_in_row_shape data len address ds pfx i0 t h0 hi0 (by omega)
    rw [if_neg (by omega)] at h
    rw [List.range'_concat, List.flatMap_append, List.flatMap_append, ih (by omega),
      if_neg (by omega), Nat.one_mul, List.flatMap_singleton, List.flatMap_singleton, h]
    have e : i0 + (t + 1) - 1 = i0 + t := by omega
    rw [e]
    simp only [List.append_assoc, List.nil_append, List.append_nil]

/-- The hexadecimal columns of the first `t` elements of a row take `2 * bytes + 1` characters
for each element, one more from the midpoint on and one more when the row is full. -/
theorem hexdump_cells_length (data : Mem) (ds : data_size_type) (i0 : Nat)
    (h0 : i0 % hexdump_mod ds = 0) (t : Nat) (ht : t ≤ hexdump_mod ds) :
    ((List.range' i0 t).flatMap (hexdump_cell data ds)).length =
      t * (2 * hexdump_bytes ds + 1) + (if hexdump_mod ds / 2 ≤ t then 1 else 0) +
        (if hexdump_mod ds ≤ t then 1 else 0) := by
  have hcell : ∀ j, (hexdump_cell data ds j).length =
      2 * hexdump_bytes ds + 1 + (if (j + 1) % (hexdump_mod ds / 2) = 0 then 1 else 0) := by
    intro j
    have hs := printf_x_spec (2 * hexdump_bytes ds)
      (load data (j * hexdump_bytes ds) (hexdump_bytes ds))
    have hb1 : 0 < 2 * hexdump_bytes ds := by cases ds <;> simp [hexdump_bytes]
    have hlt : load data (j * hexdump_bytes ds) (hexdump_bytes ds) <
        16 ^ (2 * hexdump_bytes ds) := by
      have := load_lt data (j * hexdump_bytes ds) (hexdump_bytes ds)
      have e : (16:Nat) ^ (2 * hexdump_bytes ds) = 256 ^ hexdump_bytes ds := by
        rw [Nat.pow_mul]
      rw [e]
      exact this
    have hl := hs.2.2.2 hb1 hlt
    unfold hexdump_cell
    rw [List.length_append, List.length_append, hl]
    split_ifs <;> rfl
  induction t with
  | zero =>
    cases ds <;> simp [hexdump_mod]
  | succ t ih =>
    rw [List.range'_concat, List.flatMap_append, List.length_append, ih (by omega),
      Nat.one_mul, List.flatMap_singleton, hcell]
    cases ds <;> simp only [hexdump_mod, hexdump_bytes] at * <;> split_ifs <;> omega

theorem hexdump_gap_length (ds : data_size_type) (r : Nat) (h1 : 1 ≤ r)
    (hr : r ≤ hexdump_mod ds) :
    r * (2 * hexdump_bytes ds + 1) + (if hexdump_mod ds / 2 ≤ r then 1 else 0) +
        (if hexdump_mod ds ≤ r then 1 else 0) + (hexdump_gap ds r).length =
      hexdump_mod ds * (2 * hexdump_bytes ds + 1) + 2 := by
  unfold hexdump_gap
  cases ds <;> simp only [hexdump_mod, hexdump_bytes] at * <;> split_ifs <;>
    simp only [List.length_append, List.length_replicate, List.length_cons, List.length_nil] <;>
    omega

/-- The row that starts at iteration `t` (a multiple of `mod`, with the loop still running):
what its iterations print, whatever the length. -/
theorem hexdump_trace_row (data : Mem) (len : Nat) (address : Int) (ds : data_size_type)
    (pfx : List Char) (t : Nat) (ht : t % hexdump_mod ds = 0) (hrun : t < len ∨ 2 ^ 32 ≤ len) :
    1 ≤ min (hexdump_mod ds) (len - u32 t) ∧
    hexdump_trace data len address ds pfx (t + min (hexdump_mod ds) (len - u32 t)) 0 =
      hexdump_trace data len address ds pfx t 0 ++
        (pfx ++
          printf_x 8 (to_u64 (wrap_off ((u32 (u32 t * hexdump_bytes ds) : Nat) + address))) ++
          [':', ' '] ++
        (List.range' (u32 t) (min (hexdump_mod ds) (len - u32 t))).flatMap
          (hexdump_cell data ds) ++
        (hexdump_gap ds (min (hexdump_mod ds) (len - u32 t)) ++ ['|'] ++
          (hexdump_step_reads len ds (u32 t + min (hexdump_mod ds) (len - u32 t) - 1)).2.map
            (fun n => ascii_char (data n)) ++
          hexdump_panel_fill ds (min (hexdump_mod ds) (len - u32 t)) ++ ['|', '\n'])) := by
  have hm4 : 4 ≤ hexdump_mod ds := by cases ds <;> simp [hexdump_mod]
  have hu : u32 t < 2 ^ 32 := Nat.mod_lt _ (by norm_num)
  have hule : u32 t ≤ t := Nat.mod_le _ _
  have h0 : u32 t % hexdump_mod ds = 0 := by
    cases ds <;> simp only [hexdump_mod, u32] at * <;> omega
  have hlt : u32 t < len := by omega
  have hr32 : u32 t + min (hexdump_mod ds) (len - u32 t) ≤ 2 ^ 32 := by
    cases ds <;> simp only [hexdump_mod] at * <;> omega
  have h1 : 1 ≤ min (hexdump_mod ds) (len - u32 t) := by omega
  refine ⟨h1, ?_⟩
  rw [hexdump_trace_add data len address ds pfx t _ 0 (by norm_num) (by omega), Nat.zero_add,
    hexdump_trace_run data len address ds pfx _ (u32 t) hr32 (by omega),
    hexdump_row_run_shape data len address ds pfx (u32 t) h0 hu _ h1 (le_refl _), if_pos rfl]

/-- C11: short rows keep the panel aligned.  For every element size, every `len ≥ 1` and every
row of the dump (the row starting at iteration `t`, a multiple of `elements_per_row`, reached
with the loop still running: `t < len`, or any `t` when `len ≥ 2 ^ 32` and the loop never
ends), the iterations of the row print the prefix, the address label, `": "`, then exactly
`elements_per_row * (2 * element_size + 1) + 2` characters none of which is a bar, then the
row's opening bar, then the panel, the closing bar and a newline.  For `len < 2 ^ 32` the
dump `hexdump` returns is what the first `len` iterations print. -/
theorem hexdump_panel_column (data : Mem) (len : Nat) (address : Int) (ds : data_size_type)
    (pfx : List Char) (t : Nat) (ht : t % hexdump_mod ds = 0) (hrun : t < len ∨ 2 ^ 32 ≤ len) :
    (∃ label area panel,
      hexdump_trace data len address ds pfx (t + min (hexdump_mod ds) (len - u32 t)) 0 =
        hexdump_trace data len address ds pfx t 0 ++
          (pfx ++ label ++ [':', ' '] ++ area ++ ['|'] ++ panel ++ ['|', '\n']) ∧
      (∀ c ∈ label, c ∈ hex_digits) ∧
      area.length = hexdump_mod ds * (2 * hexdump_bytes ds + 1) + 2 ∧
      '|' ∉ area ∧ '\n' ∉ label ++ [':', ' '] ++ area ++ ['|'] ++ panel ++ ['|']) ∧
    (len < 2 ^ 32 → ∀ fuel, len ≤ fuel →
      hexdump fuel (some data) len address ds pfx =
        some (hexdump_trace data len address ds pfx len 0)) := by
  have hm4 : 4 ≤ hexdump_mod ds := by cases ds <;> simp [hexdump_mod]
  have hu0 : u32 t % hexdump_mod ds = 0 := by
    cases ds <;> simp only [hexdump_mod, u32] at * <;> omega
  obtain ⟨h1, hrow⟩ := hexdump_trace_row data len address ds pfx t ht hrun
  constructor
  · refine ⟨printf_x 8 (to_u64 (wrap_off ((u32 (u32 t * hexdump_bytes ds) : Nat) + address))),
      (List.range' (u32 t) (min (hexdump_mod ds) (len - u32 t))).flatMap
          (hexdump_cell data ds) ++ hexdump_gap ds (min (hexdump_mod ds) (len - u32 t)),
      (hexdump_step_reads len ds (u32 t + min (hexdump_mod ds) (len - u32 t) - 1)).2.map
            (fun n => ascii_char (data n)) ++
          hexdump_panel_fill ds (min (hexdump_mod ds) (len - u32 t)), ?_, ?_, ?_, ?_, ?_⟩
    · rw [hrow]
      simp only [List.append_assoc]
    · exact (printf_x_spec 8 _).1
    · rw [List.length_append,
        hexdump_cells_length data ds (u32 t) hu0 _ (Nat.min_le_left _ _)]
      exact hexdump_gap_length ds _ h1 (Nat.min_le_left _ _)
    · have h2 := (hexdump_gap_plain ds (min (hexdump_mod ds) (len - u32 t))).2
      have h4 : ∀ j, '|' ∉ hexdump_cell data ds j := fun j => (hexdump_cell_plain data ds j).2
      simp [h2, h4, List.mem_flatMap]
    · have h1 : ∀ v, '\n' ∉ printf_x 8 v := printf_x_no_newline 8
      have h2 := (hexdump_gap_plain ds (min (hexdump_mod ds) (len - u32 t))).1
      have h3 : ∀ j, '\n' ∉ hexdump_cell data ds j := fun j => (hexdump_cell_plain data ds j).1
      have h4 : ∀ b, ¬ ('\n' = ascii_char b) := fun b e => ascii_char_plain b e.symm
      have h5 : ∀ b, ¬ (ascii_char b = '\n') := ascii_char_plain
      unfold hexdump_panel_fill
      split_ifs <;> simp [h1, h2, h3, h4, h5, List.mem_flatMap, List.mem_replicate]
  · intro hlen fuel hfuel
    simp only [hexdump]
    rw [hexdump_loop_run data len address ds pfx hlen fuel 0 (by omega),
      hexdump_trace_run data len address ds pfx len 0 (by omega) (by omega), Nat.sub_zero]

theorem hexdump_panel_column_witness :
    (0 % hexdump_mod BYTE = 0 ∧ (0 < 5 ∨ 2 ^ 32 ≤ 5)) ∧
    ∃ label area panel,
      hexdump_trace (fun i => 65 + i) 5 0x1000 BYTE [] (0 + min (hexdump_mod BYTE) (5 - u32 0)) 0 =
        hexdump_trace (fun i => 65 + i) 5 0x1000 BYTE [] 0 0 ++
          ([] ++ label ++ [':', ' '] ++ area ++ ['|'] ++ panel ++ ['|', '\n']) ∧
      (∀ c ∈ label, c ∈ hex_digits) ∧
      area.length = hexdump_mod BYTE * (2 * hexdump_bytes BYTE + 1) + 2 ∧
      '|' ∉ area ∧ '\n' ∉ label ++ [':', ' '] ++ area ++ ['|'] ++ panel ++ ['|'] :=
  ⟨by decide,
    (hexdump_panel_column (fun i => 65 + i) 5 0x1000 BYTE [] 0 (by decide) (by decide)).1⟩

/-! ## hexdump: the reads of the buffer -/

theorem hexdump_step_reads_bound (len : Nat) (ds : data_size_type) (i : Nat) (hi : i < len)
    (hlen : len < 2 ^ 32) :
    (∀ e ∈ (hexdump_step_reads len ds i).1, e < len) ∧
    (∀ b ∈ (hexdump_step_reads len ds i).2, b < len * hexdump_bytes ds) := by
  constructor
  · intro e he
    simp only [hexdump_step_reads, List.mem_singleton] at he
    omega
  · intro b hb
    have e1 : u32 (i + 1) = i + 1 := by
      unfold u32
      omega
    simp only [hexdump_step_reads, e1] at hb
    split_ifs at hb with h1 h2
    · rw [List.mem_range'_1] at hb
      cases ds <;> simp only [hexdump_mod, hexdump_bytes, u32, usub32] at * <;> omega
    · rw [List.mem_range'_1] at hb
      cases ds <;> simp only [hexdump_mod, hexdump_bytes, u32, usub32] at * <;> omega
    · simp at hb

/-- C19: `hexdump` never reads outside its buffer.  For every element size and every
`len < 2 ^ 32`, after any number of iterations of the loop every element index read is below
`len` (so the bytes of the element lie below `len * element_size`) and every byte index read
by the panel loop, in full rows and in the short last row alike, is below
`len * element_size`. -/
theorem hexdump_reads_in_buffer (len : Nat) (ds : data_size_type) (hlen : len < 2 ^ 32)
    (n : Nat) :
    (∀ e ∈ (hexdump_reads len ds n 0).1,
      e < len ∧ e * hexdump_bytes ds + hexdump_bytes ds ≤ len * hexdump_bytes ds) ∧
    (∀ b ∈ (hexdump_reads len ds n 0).2, b < len * hexdump_bytes ds) := by
  have key : ∀ n i, (∀ e ∈ (hexdump_reads len ds n i).1, e < len) ∧
      (∀ b ∈ (hexdump_reads len ds n i).2, b < len * hexdump_bytes ds) := by
    intro n
    induction n with
    | zero =>
      intro i
      simp [hexdump_reads]
    | succ n ih =>
      intro i
      rw [hexdump_reads]
      split_ifs with hi
      · have hs := hexdump_step_reads_bound len ds i hi hlen
        have hr := ih (u32 (i + 1))
        constructor
        · intro e he
          rcases List.mem_append.1 he with h | h
          · exact hs.1 e h
          · exact hr.1 e h
        · intro b hb
          rcases List.mem_append.1 hb with h | h
          · exact hs.2 b h
          · exact hr.2 b h
      · simp
  refine ⟨fun e he => ?_, (key n 0).2⟩
  have h := (key n 0).1 e he
  refine ⟨h, ?_⟩
  have : (e + 1) * hexdump_bytes ds ≤ len * hexdump_bytes ds := Nat.mul_le_mul_right _ h
  rw [Nat.add_mul, Nat.one_mul] at this
  exact this

theorem hexdump_reads_in_buffer_witness :
    (5 < 2 ^ 32) ∧
    (∀ e ∈ (hexdump_reads 5 WORD 7 0).1,
      e < 5 ∧ e * hexdump_bytes WORD + hexdump_bytes WORD ≤ 5 * hexdump_bytes WORD) ∧
    (∀ b ∈ (hexdump_reads 5 WORD 7 0).2, b < 5 * hexdump_bytes WORD) :=
  ⟨by decide, hexdump_reads_in_buffer 5 WORD (by decide) 7⟩

/-! ## hexdump: the length of a line -/

theorem text_lines_newline_ne_nil (a : List Char) : text_lines (a ++ ['\n']) ≠ [] := by
  induction a with
  | nil => simp [text_lines]
  | cons c a ih =>
    rw [List.cons_append, text_lines]
    split_ifs
    · simp
    · cases h : text_lines (a ++ ['\n']) with
      | nil => exact absurd h ih
      | cons l ls => simp

theorem text_lines_append_newline (a b : List Char) :
    text_lines (a ++ '\n' :: b) = text_lines (a ++ ['\n']) ++ text_lines b := by
  induction a with
  | nil => simp [text_lines]
  | cons c a ih =>
    rw [List.cons_append, List.cons_append, text_lines, text_lines, ih]
    split_ifs
    · simp
    · cases h : text_lines (a ++ ['\n']) with
      | nil => exact absurd h (text_lines_newline_ne_nil a)
      | cons l ls => simp

/-- The length of row `k` of a dump with empty prefix whose addresses fit 8 digits. -/
theorem hexdump_row_length (data : Mem) (len : Nat) (address : Int) (ds : data_size_type)
    (k : Nat) (hk : k * hexdump_mod ds < len) (h0 : 0 ≤ address)
    (haddr : address + ((len * hexdump_bytes ds : Nat) : Int) ≤ 2 ^ 32) :
    (hexdump_row data len address ds [] k).length =
      10 + hexdump_mod ds * (2 * hexdump_bytes ds + 1) + 2 + 18 ∧
    (hexdump_row data len address ds [] k).getLast? = some '|' := by
  have hm4 : 4 ≤ hexdump_mod ds := by cases ds <;> simp [hexdump_mod]
  have hmb : hexdump_mod ds * hexdump_bytes ds = 16 := by cases ds <;> rfl
  have hr : hexdump_row_elems ds len k = min (hexdump_mod ds) (len - k * hexdump_mod ds) := rfl
  have hr1 : 1 ≤ hexdump_row_elems ds len k := by omega
  have hrm : hexdump_row_elems ds len k ≤ hexdump_mod ds := by omega
  have hlabel : (hexdump_label address ds k).length = 8 := by
    unfold hexdump_label
    have hlt : k * hexdump_mod ds * hexdump_bytes ds < len * hexdump_bytes ds :=
      Nat.mul_lt_mul_of_pos_right hk (by cases ds <;> simp [hexdump_bytes])
    have hv : address + ((k * hexdump_mod ds * hexdump_bytes ds : Nat) : Int) < 2 ^ 32 := by
      omega
    rw [to_u64_of_nonneg _ (by omega) (by omega)]
    refine (printf_x_spec 8 _).2.2.2 (by norm_num) ?_
    have e : (16 : Nat) ^ 8 = 2 ^ 32 := by norm_num
    rw [e]
    omega
  have hcells := hexdump_cells_length data ds (k * hexdump_mod ds) (Nat.mul_mod_left _ _)
    (hexdump_row_elems ds len k) hrm
  have hgap := hexdump_gap_length ds (hexdump_row_elems ds len k) hr1 hrm
  have hpanel : (hexdump_panel data ds (k * hexdump_mod ds) (hexdump_row_elems ds len k)).length +
      (hexdump_panel_fill ds (hexdump_row_elems ds len k)).length = 16 := by
    unfold hexdump_panel hexdump_panel_fill
    rw [List.length_map, List.length_range']
    split_ifs with h
    · rw [List.length_replicate, ← Nat.add_mul]
      have : hexdump_row_elems ds len k + (hexdump_mod ds - hexdump_row_elems ds len k) =
          hexdump_mod ds := by omega
      rw [this, hmb]
    · have : hexdump_row_elems ds len k = hexdump_mod ds := by omega
      rw [this, hmb]
      rfl
  constructor
  · unfold hexdump_row
    simp only [List.length_append, List.length_cons, List.length_nil, hlabel]
    omega
  · unfold hexdump_row
    rw [List.getLast?_append]
    rfl

/-- C20, where it fails: a DWORD dump of `2 ^ 30` elements at address `0` with empty prefix
(`address + len * element_size = 2 ^ 32`) ends, and its last line has 50 characters, not 66:
`m = 16 + n` wraps to `0` in `unsigned int`, so the panel of the last row is empty. -/
theorem hexdump_last_line_short :
    ((1 : Nat) ≤ 2 ^ 30 ∧ (0 : Int) ≤ 0 ∧
      (0 : Int) + ((2 ^ 30 * hexdump_bytes DWORD : Nat) : Int) ≤ 2 ^ 32) ∧
    (∃ out, hexdump (2 ^ 30) (some (fun _ => 0)) (2 ^ 30) 0 DWORD [] = some out ∧
      "fffffff0: 00000000 00000000  00000000 00000000  ||".toList ∈ text_lines out) ∧
    ("fffffff0: 00000000 00000000  00000000 00000000  ||".toList).length = 50 ∧
    10 + hexdump_mod DWORD * (2 * hexdump_bytes DWORD + 1) + 2 + 18 = 66 := by
  refine ⟨by decide, ?_, by decide, by decide⟩
  have hrun := hexdump_loop_run (fun _ => 0) (2 ^ 30) 0 DWORD [] (by norm_num) (2 ^ 30) 0
    (by norm_num)
  have hsplit : List.range' 0 (2 ^ 30 - 0) =
      List.range' 0 (2 ^ 30 - 5) ++ List.range' (2 ^ 30 - 5) 5 := by
    have h := List.range'_append_1 0 (2 ^ 30 - 5) 5
    rw [Nat.zero_add] at h
    rw [h]
    rfl
  have hlast : (List.range' (2 ^ 30 - 5) 5).flatMap
      (fun j => (hexdump_step (fun _ => 0) (2 ^ 30) 0 DWORD [] j).2) =
      "00000000  |................|".toList ++ '\n' ::
        ("fffffff0: 00000000 00000000  00000000 00000000  ||".toList ++ ['\n']) := by
    decide
  have hline : text_lines
      ("fffffff0: 00000000 00000000  00000000 00000000  ||".toList ++ ['\n']) =
      ["fffffff0: 00000000 00000000  00000000 00000000  ||".toList] :=
    text_lines_line _ [] (by decide)
  refine ⟨_, hrun, ?_⟩
  rw [hsplit, List.flatMap_append, hlast, ← List.append_assoc, text_lines_append_newline,
    hline]
  exact List.mem_append_right _ (List.mem_singleton.2 rfl)

/-- C20, as the code has it: for every element size, every `len ≥ 1` with
`len * element_size < 2 ^ 32`, empty prefix and every address with `0 ≤ address` and
`address + len * element_size ≤ 2 ^ 32`, `hexdump` returns, and each line of the dump (full or
short) has exactly `10 + elements_per_row * (2 * element_size + 1) + 2 + 18` characters
(78 for BYTE, 70 for WORD, 66 for DWORD), the last of them being a bar. -/
theorem hexdump_line_length (fuel : Nat) (data : Mem) (len : Nat) (address : Int)
    (ds : data_size_type) (h1 : 1 ≤ len) (hlen : len * hexdump_bytes ds < 2 ^ 32)
    (h0 : 0 ≤ address) (haddr : address + ((len * hexdump_bytes ds : Nat) : Int) ≤ 2 ^ 32)
    (hfuel : len ≤ fuel) :
    (∃ out, hexdump fuel (some data) len address ds [] = some out ∧
      1 ≤ (text_lines out).length ∧
      ∀ l ∈ text_lines out,
        l.length = 10 + hexdump_mod ds * (2 * hexdump_bytes ds + 1) + 2 + 18 ∧
        l.getLast? = some '|') ∧
    10 + hexdump_mod ds * (2 * hexdump_bytes ds + 1) + 2 + 18 =
      (match ds with
        | BYTE => 78
        | WORD => 70
        | DWORD => 66) := by
  have hm4 : 4 ≤ hexdump_mod ds := by cases ds <;> simp [hexdump_mod]
  obtain ⟨out, ho, hn, hl⟩ := hexdump_line_at fuel data len address ds [] hlen hfuel (by simp)
  refine ⟨⟨out, ho, ?_, ?_⟩, by cases ds <;> rfl⟩
  · rw [hn]
    unfold hexdump_row_count
    exact Nat.div_pos (by omega) (by omega)
  · intro l hmem
    obtain ⟨k, hk, hkl⟩ := List.getElem_of_mem hmem
    have hk2 : k < hexdump_row_count ds len := by
      rw [← hn]
      exact hk
    have h3 := hl k hk2
    rw [List.getElem?_eq_getElem hk, hkl] at h3
    simp only [Option.some.injEq] at h3
    have hk3 : k * hexdump_mod ds < len := by
      unfold hexdump_row_count at hk2
      by_contra hc
      have : len + hexdump_mod ds - 1 < (k + 1) * hexdump_mod ds := by
        have : (k + 1) * hexdump_mod ds = k * hexdump_mod ds + hexdump_mod ds := by ring
        omega
      have := (Nat.div_lt_iff_lt_mul (by omega)).2 this
      omega
    rw [h3]
    exact hexdump_row_length data len address ds k hk3 h0 haddr

theorem hexdump_line_length_witness :
    (1 ≤ 5 ∧ 5 * hexdump_bytes WORD < 2 ^ 32 ∧ (0 : Int) ≤ 0x1000 ∧
      (0x1000 : Int) + ((5 * hexdump_bytes WORD : Nat) : Int) ≤ 2 ^ 32 ∧ 5 ≤ 5) ∧
    ∃ out, hexdump 5 (some (fun i => 7 * i + 1)) 5 0x1000 WORD [] = some out ∧
      1 ≤ (text_lines out).length ∧
      ∀ l ∈ text_lines out,
        l.length = 10 + hexdump_mod WORD * (2 * hexdump_bytes WORD + 1) + 2 + 18 ∧
        l.getLast? = some '|' :=
  ⟨by decide,
    (hexdump_line_length 5 (fun i => 7 * i + 1) 5 0x1000 WORD (by decide) (by decide)
      (by decide) (by decide) (by decide)).1⟩

/-! ## read_operation: the pass loop -/

/-- A call of `hexdump` on fewer than `2 ^ 32` elements returns. -/
theorem read_pass_returns (hfuel : Nat) (page_size : Int) (p : Params) (region buf : Mem)
    (hlen : to_u64 p.length < 2 ^ 32) (hh : to_u64 p.length ≤ hfuel) :
    ∃ d, (read_pass hfuel page_size p region buf).2 = some d :=
  ⟨_, hexdump_loop_run _ _ _ _ _ hlen hfuel 0 (by omega)⟩

theorem read_loop_body_eq (hfuel : Nat) (page_size : Int) (p : Params) (region : Mem)
    (s : ReadLoop) (hlen : to_u64 p.length < 2 ^ 32) (hh : to_u64 p.length ≤ hfuel) :
    ∃ d, (read_pass hfuel page_size p region s.buf).2 = some d ∧
      read_loop_body hfuel page_size p region s =
        some ⟨if s.iterations ≠ 0 then decide (wrap_off (s.iterations - 1) > 0) else s.run,
          if s.iterations ≠ 0 then wrap_off (s.iterations - 1) else s.iterations,
          (read_pass hfuel page_size p region s.buf).1, s.dumps ++ [d]⟩ := by
  obtain ⟨d, hd⟩ := read_pass_returns hfuel page_size p region s.buf hlen hh
  refine ⟨d, hd, ?_⟩
  unfold read_loop_body
  rw [hd]
  dsimp only
  split_ifs <;> rfl

theorem read_loop_stopped (hfuel : Nat) (page_size : Int) (p : Params) (region : Nat → Mem)
    (n : Nat) (s : ReadLoop) (h : s.run = false) :
    read_loop hfuel page_size p region n s = some s := by
  cases n with
  | zero => rfl
  | succ n => rw [read_loop, h]; rfl

/-- With `iterations > 0` the loop makes exactly `iterations` passes. -/
theorem read_loop_count (hfuel : Nat) (page_size : Int) (p : Params) (region : Nat → Mem)
    (hlen : to_u64 p.length < 2 ^ 32) (hh : to_u64 p.length ≤ hfuel) (n : Nat) (s : ReadLoop)
    (hrun : s.run = true) (h0 : 0 < s.iterations) (h1 : s.iterations < 2 ^ 63) :
    ∃ s2 extra, read_loop hfuel page_size p region n s = some s2 ∧
      s2.dumps = s.dumps ++ extra ∧
      (∀ j d, extra[j]? = some d →
        ∃ b, (read_pass hfuel page_size p (region (s.dumps.length + j)) b).2 = some d) ∧
      (n < s.iterations.toNat →
        s2.run = true ∧ s2.iterations = s.iterations - n ∧ extra.length = n) ∧
      (s.iterations.toNat ≤ n →
        s2.run = false ∧ s2.iterations = 0 ∧ extra.length = s.iterations.toNat) := by
  induction n generalizing s with
  | zero =>
    refine ⟨s, [], rfl, by simp, by simp, fun _ => ⟨hrun, by simp, rfl⟩, fun h => by omega⟩
  | succ n ih =>
    obtain ⟨d, hd, hb⟩ := read_loop_body_eq hfuel page_size p (region s.dumps.length) s hlen hh
    have hne : s.iterations ≠ 0 := by omega
    have hw : wrap_off (s.iterations - 1) = s.iterations - 1 :=
      wrap_off_of_range _ (by omega) (by omega)
    rw [if_pos hne, if_pos hne, hw] at hb
    rw [read_loop, hrun, if_pos rfl, hb, Option.some_bind]
    by_cases hone : s.iterations = 1
    · rw [read_loop_stopped _ _ _ _ _ _ (by simp [hone])]
      refine ⟨_, [d], rfl, rfl, ?_, fun h => ?_, fun _ => ⟨by simp [hone], by simp [hone], ?_⟩⟩
      · intro j d2 hj
        cases j with
        | zero =>
          simp only [List.getElem?_cons_zero, Option.some.injEq] at hj
          exact ⟨s.buf, by rw [Nat.add_zero, hd, hj]⟩
        | succ j => simp at hj
      · rw [hone] at h
        simp at h
      · rw [hone]
        rfl
    · obtain ⟨s2, extra, h2, h3, h4, h5, h6⟩ := ih
        ⟨decide (s.iterations - 1 > 0), s.iterations - 1,
          (read_pass hfuel page_size p (region s.dumps.length) s.buf).1, s.dumps ++ [d]⟩
        (by simp; omega) (by simp; omega) (by simp; omega)
      dsimp only at h2 h3 h4 h5 h6
      refine ⟨s2, d :: extra, h2, by rw [h3]; simp, ?_, fun h => ?_, fun h => ?_⟩
      · intro j d2 hj
        cases j with
        | zero =>
          simp only [List.getElem?_cons_zero, Option.some.injEq] at hj
          exact ⟨s.buf, by rw [Nat.add_zero, hd, hj]⟩
        | succ j =>
          simp only [List.getElem?_cons_succ] at hj
          obtain ⟨b, hb2⟩ := h4 j d2 hj
          rw [List.length_append, List.length_singleton, Nat.add_assoc, Nat.add_comm 1 j]
            at hb2
          exact ⟨b, hb2⟩
      · obtain ⟨a1, a2, a3⟩ := h5 (by omega)
        refine ⟨a1, ?_, by rw [List.length_cons, a3]⟩
        rw [a2]
        push_cast
        omega
      · obtain ⟨a1, a2, a3⟩ := h6 (by omega)
        refine ⟨a1, a2, ?_⟩
        rw [List.length_cons, a3]
        omega

/-- With `iterations = 0` the loop is still running after any number of passes. -/
theorem read_loop_forever (hfuel : Nat) (page_size : Int) (p : Params) (region : Nat → Mem)
    (hlen : to_u64 p.length < 2 ^ 32) (hh : to_u64 p.length ≤ hfuel) (n : Nat) (s : ReadLoop)
    (hrun : s.run = true) (h0 : s.iterations = 0) :
    ∃ s2 extra, read_loop hfuel page_size p region n s = some s2 ∧
      s2.dumps = s.dumps ++ extra ∧
      (∀ j d, extra[j]? = some d →
        ∃ b, (read_pass hfuel page_size p (region (s.dumps.length + j)) b).2 = some d) ∧
      s2.run = true ∧ s2.iterations = 0 ∧ extra.length = n := by
  induction n generalizing s with
  | zero => exact ⟨s, [], rfl, by simp, by simp, hrun, h0, rfl⟩
  | succ n ih =>
    obtain ⟨d, hd, hb⟩ := read_loop_body_eq hfuel page_size p (region s.dumps.length) s hlen hh
    rw [if_neg (by simp [h0]), if_neg (by simp [h0])] at hb
    rw [read_loop, hrun, if_pos rfl, hb, Option.some_bind]
    obtain ⟨s2, extra, h2, h3, h4, h5, h6, h7⟩ := ih
      ⟨s.run, s.iterations,
        (read_pass hfuel page_size p (region s.dumps.length) s.buf).1, s.dumps ++ [d]⟩
      hrun h0
    dsimp only at h2 h3 h4
    refine ⟨s2, d :: extra, h2, by rw [h3]; simp, ?_, h5, h6, by rw [List.length_cons, h7]⟩
    intro j d2 hj
    cases j with
    | zero =>
      simp only [List.getElem?_cons_zero, Option.some.injEq] at hj
      exact ⟨s.buf, by rw [Nat.add_zero, hd, hj]⟩
    | succ j =>
      simp only [List.getElem?_cons_succ] at hj
      obtain ⟨b, hb2⟩ := h4 j d2 hj
      rw [List.length_append, List.length_singleton, Nat.add_assoc, Nat.add_comm 1 j] at hb2
      exact ⟨b, hb2⟩

/-- C12, where it fails: `pmat 0 100000000` is accepted as a READ request of `2 ^ 32` BYTE
elements with `iterations = 1`; the `unsigned int` index of `hexdump` never reaches that
length, so the first call of `hexdump` does not return and the pass loop, entered with
`run = 1`, never completes a pass, whatever the allowance. -/
theorem read_loop_dump_unending :
    parse_params none none ["pmat".toList, "0".toList, "100000000".toList] =
      some (0, ⟨READ, ASSIGN, "/dev/mem".toList, 0, 2 ^ 32, 2 ^ 32, 1, 0, BYTE⟩) ∧
    ¬ ∃ hfuel fuel s,
      read_loop hfuel 4096 ⟨READ, ASSIGN, "/dev/mem".toList, 0, 2 ^ 32, 2 ^ 32, 1, 0, BYTE⟩
        (fun _ _ => 0) (fuel + 1) ⟨true, 1, fun _ => 0, []⟩ = some s := by
  refine ⟨by decide, ?_⟩
  rintro ⟨hfuel, fuel, s, h⟩
  have hd : ∀ region buf, (read_pass hfuel 4096
      ⟨READ, ASSIGN, "/dev/mem".toList, 0, 2 ^ 32, 2 ^ 32, 1, 0, BYTE⟩ region buf).2 = none := by
    intro region buf
    exact hexdump_loop_diverges _ _ _ _ _ (by decide) hfuel 0 (by norm_num)
  rw [read_loop] at h
  simp only [if_true, read_loop_body, hd] at h
  simp at h

/-- C12, as the code has it: for a READ request of fewer than `2 ^ 32` elements (each call of
`hexdump` then returns) with `iterations = N > 0`, the pass loop of `read_operation` is still
running after `n < N` passes, having made `n` dumps, and has ended (`run = 0`,
`iterations = 0`) with exactly `N` dumps after `N` passes or more; with `iterations = 0` the
flag `run` is never cleared and `iterations` stays `0`: after any number `k` of passes the
loop is still running and has made `k` dumps.  Dump number `j` is `hexdump` of the buffer
freshly copied from the bytes of the file during pass `j`. -/
theorem read_loop_passes (hfuel : Nat) (page_size : Int) (p : Params) (region : Nat → Mem)
    (buf : Mem) (ho : p.operation = READ) (hlen : to_u64 p.length < 2 ^ 32)
    (hh : to_u64 p.length ≤ hfuel) (h1 : p.iterations < 2 ^ 63) :
    (0 < p.iterations →
      ∀ n, ∃ s,
        read_loop hfuel page_size p region n ⟨true, p.iterations, buf, []⟩ = some s ∧
        (∀ j d, s.dumps[j]? = some d →
          ∃ b, (read_pass hfuel page_size p (region j) b).2 = some d) ∧
        (n < p.iterations.toNat → s.run = true ∧ s.dumps.length = n) ∧
        (p.iterations.toNat ≤ n →
          s.run = false ∧ s.iterations = 0 ∧ s.dumps.length = p.iterations.toNat)) ∧
    (p.iterations = 0 →
      ∀ k, ∃ s,
        read_loop hfuel page_size p region k ⟨true, p.iterations, buf, []⟩ = some s ∧
        (∀ j d, s.dumps[j]? = some d →
          ∃ b, (read_pass hfuel page_size p (region j) b).2 = some d) ∧
        s.run = true ∧ s.iterations = 0 ∧ s.dumps.length = k) ∧
    p.operation = READ := by
  refine ⟨fun h0 n => ?_, fun h0 k => ?_, ho⟩
  · obtain ⟨s, extra, e1, e2, e3, e4, e5⟩ := read_loop_count hfuel page_size p region hlen hh n
      ⟨true, p.iterations, buf, []⟩ rfl h0 h1
    simp only [List.nil_append, List.length_nil, Nat.zero_add] at e2 e3 e4 e5
    rw [← e2] at e3 e4 e5
    exact ⟨s, e1, e3, fun h => ⟨(e4 h).1, (e4 h).2.2⟩, e5⟩
  · obtain ⟨s, extra, e1, e2, e3, e4, e5, e6⟩ := read_loop_forever hfuel page_size p region
      hlen hh k ⟨true, p.iterations, buf, []⟩ rfl h0
    simp only [List.nil_append, List.length_nil, Nat.zero_add] at e2 e3
    rw [← e2] at e3 e6
    exact ⟨s, e1, e3, e4, e5, e6⟩

theorem read_loop_passes_witness :
    (READ = READ ∧ to_u64 3 < 2 ^ 32 ∧ to_u64 3 ≤ 3 ∧ (2 : Int) < 2 ^ 63 ∧ (0 : Int) < 2) ∧
    ∀ n, ∃ s,
      read_loop 3 4096 ⟨READ, ASSIGN, "/dev/mem".toList, 0x1000, 3, 3, 2, 0, BYTE⟩
        (fun j i => i + j) n ⟨true, 2, fun _ => 0, []⟩ = some s ∧
      (∀ j d, s.dumps[j]? = some d →
        ∃ b, (read_pass 3 4096 ⟨READ, ASSIGN, "/dev/mem".toList, 0x1000, 3, 3, 2, 0, BYTE⟩
          ((fun j i => i + j) j) b).2 = some d) ∧
      (n < (2 : Int).toNat → s.run = true ∧ s.dumps.length = n) ∧
      ((2 : Int).toNat ≤ n → s.run = false ∧ s.iterations = 0 ∧
        s.dumps.length = (2 : Int).toNat) :=
  ⟨by decide,
    (read_loop_passes 3 4096 ⟨READ, ASSIGN, "/dev/mem".toList, 0x1000, 3, 3, 2, 0, BYTE⟩
      (fun j i => i + j) (fun _ => 0) rfl (by decide) (by decide) (by decide)).1 (by decide)⟩

/-! ## main: the alignment check -/

/-- An address that is not a multiple of the element size is refused by `alignment_check`. -/
theorem alignment_check_ne_zero (p : Params)
    (h : ¬ p.address % (elem_bytes p.data_size : Int) = 0) : alignment_check p ≠ 0 := by
  unfold alignment_check to_u64
  cases hds : p.data_size
  · rw [hds] at h
    simp [elem_bytes] at h
  · have e : (2 - 1 : Nat) = 2 ^ 1 - 1 := by norm_num
    rw [hds] at h
    simp only [e, Nat.and_pow_two_sub_one_eq_mod, elem_bytes] at h ⊢
    omega
  · have e : (4 - 1 : Nat) = 2 ^ 2 - 1 := by norm_num
    rw [hds] at h
    simp only [e, Nat.and_pow_two_sub_one_eq_mod, elem_bytes] at h ⊢
    omega

set_option maxRecDepth 8192 in
/-- C16, where it fails: for `pmat 1001.w` (a WORD read at an odd address) `main` ends with
`exit(1)` before any `malloc`, `open` or `mmap`, but not without output: `alignment_check`
prints its error line on standard output, after the table of `display_params` when
`PMAT_DEBUG` is set. -/
theorem main_misaligned_output :
    parse_params none none ["pmat".toList, "1001.w".toList] =
      some (0, ⟨READ, ASSIGN, "/dev/mem".toList, 0x1001, 0x10, 0x20, 1, 0, WORD⟩) ∧
    main 1 16 ⟨4096, true, true, true, true, 0x7f0000000000, [], fun _ => 0, fun _ _ => 0⟩
        "1.0".toList none none none ["pmat".toList, "1001.w".toList] =
      some ⟨[Event.stdout
        "ERROR: requested memory access is not aligned to data access size.\n".toList],
        Outcome.exited 1⟩ ∧
    main 1 16 ⟨4096, true, true, true, true, 0x7f0000000000, [], fun _ => 0, fun _ _ => 0⟩
        "1.0".toList (some []) none none ["pmat".toList, "1001.w".toList] =
      some ⟨[Event.stdout
        ("/------------- params --------------\\\n" ++
         "| path                     /dev/mem |\n" ++
         "| operation                    read |\n" ++
         "| address                      1001 |\n" ++
         "| length                         10 |\n" ++
         "| iterations                      1 |\n" ++
         "| data size                    word |\n" ++
         "| data value                      0 |\n" ++
         "\\-----------------------------------/\n").toList,
        Event.stdout
        "ERROR: requested memory access is not aligned to data access size.\n".toList],
        Outcome.exited 1⟩ := by
  refine ⟨by decide, by decide, by decide⟩

/-- C16, as the code has it: for every argument vector that `parse_params` accepts with an
address that is not a multiple of the element size (the size is then WORD or DWORD), `main`
ends with `exit(1)` right after `alignment_check`: no buffer is allocated, nothing is opened
or mapped, and the only events are the error line of `alignment_check` on standard output,
preceded by the table of `display_params` when `PMAT_DEBUG` is set. -/
theorem main_misaligned (fuel hfuel : Nat) (w : World) (version : List Char)
    (env_debug env_iterations env_dev : Option (List Char)) (argv : List (List Char))
    (p : Params) (hp : parse_params env_iterations env_dev argv = some (0, p))
    (ha : ¬ p.address % (elem_bytes p.data_size : Int) = 0) :
    (p.data_size = WORD ∨ p.data_size = DWORD) ∧
    main fuel hfuel w version env_debug env_iterations env_dev argv =
      some ⟨(if env_debug.isSome then [Event.stdout (display_params p)] else []) ++
        [Event.stdout
          "ERROR: requested memory access is not aligned to data access size.\n".toList],
        Outcome.exited 1⟩ ∧
    ∀ r, main fuel hfuel w version env_debug env_iterations env_dev argv = some r →
      r.outcome = Outcome.exited 1 ∧ ∀ e ∈ r.events, ∃ text, e = Event.stdout text := by
  have hne := alignment_check_ne_zero p ha
  have hmain : main fuel hfuel w version env_debug env_iterations env_dev argv =
      some ⟨(if env_debug.isSome then [Event.stdout (display_params p)] else []) ++
        [Event.stdout
          "ERROR: requested memory access is not aligned to data access size.\n".toList],
        Outcome.exited 1⟩ := by
    unfold main
    rw [hp]
    simp only [ne_eq, not_true_eq_false, if_false, hne, not_false_eq_true, if_true,
      alignment_check_output]
  refine ⟨?_, hmain, ?_⟩
  · cases hds : p.data_size
    · rw [hds] at ha
      simp [elem_bytes] at ha
    · exact Or.inl rfl
    · exact Or.inr rfl
  · intro r hr
    rw [hmain] at hr
    simp only [Option.some.injEq] at hr
    subst hr
    refine ⟨rfl, ?_⟩
    intro e he
    dsimp only at he
    split_ifs at he
    · simp only [List.singleton_append, List.mem_cons, List.mem_singleton, List.mem_nil_iff,
        or_false] at he
      rcases he with rfl | rfl
      · exact ⟨_, rfl⟩
      · exact ⟨_, rfl⟩
    · simp only [List.nil_append, List.mem_singleton] at he
      exact ⟨_, he⟩

theorem main_misaligned_witness :
    (parse_params (some "3".toList) none ["pmat".toList, "2002.d=5".toList] =
        some (0, ⟨WRITE, ASSIGN, "/dev/mem".toList, 0x2002, 0x10, 0x40, 3, 5, DWORD⟩) ∧
      ¬ ((0x2002 : Int) % (elem_bytes DWORD : Int) = 0)) ∧
    main 1 16 ⟨4096, true, true, true, true, 0x7f0000000000, [], fun _ => 0, fun _ _ => 0⟩
        "1.0".toList none (some "3".toList) none ["pmat".toList, "2002.d=5".toList] =
      some ⟨(if (none : Option (List Char)).isSome then
          [Event.stdout (display_params
            ⟨WRITE, ASSIGN, "/dev/mem".toList, 0x2002, 0x10, 0x40, 3, 5, DWORD⟩)] else []) ++
        [Event.stdout
          "ERROR: requested memory access is not aligned to data access size.\n".toList],
        Outcome.exited 1⟩ :=
  ⟨by decide,
    (main_misaligned 1 16
      ⟨4096, true, true, true, true, 0x7f0000000000, [], fun _ => 0, fun _ _ => 0⟩
      "1.0".toList none (some "3".toList) none ["pmat".toList, "2002.d=5".toList]
      ⟨WRITE, ASSIGN, "/dev/mem".toList, 0x2002, 0x10, 0x40, 3, 5, DWORD⟩
      (by decide) (by decide)).2.1⟩

/-! ## read_operation and write_operation: the descriptor and the mapping -/

/-- C17 (the code departs from it): after a successful `open`, `read_operation` and
`write_operation` return without `close` when `mmap` fails, `write_operation` returns without
`close` when `munmap` fails, and `read_operation` closes the descriptor before it unmaps.
Shown on `pmat 1000 3` and `pmat 1000=ff` with page size 4096. -/
theorem descriptor_left_open :
    read_operation 1 3
        ⟨4096, true, true, false, true, 0, "Invalid argument".toList, fun _ => 0, fun _ _ => 0⟩
        ⟨READ, ASSIGN, "/dev/mem".toList, 0x1000, 3, 3, 1, 0, BYTE⟩ =
      ⟨[Event.open_ "/dev/mem".toList false, Event.mmap 4096 false 0x1000,
        Event.stderr "Memory map failed: Invalid argument\n".toList], Outcome.returned 1⟩ ∧
    write_operation_calls
        ⟨4096, true, true, false, true, 0, "Invalid argument".toList, fun _ => 0, fun _ _ => 0⟩
        ⟨WRITE, ASSIGN, "/dev/mem".toList, 0x1000, 0x10, 0x10, 1, 0xff, BYTE⟩ =
      ⟨[Event.open_ "/dev/mem".toList true, Event.mmap 4096 true 0x1000,
        Event.stderr "Memory map failed: Invalid argument\n".toList], Outcome.returned 1⟩ ∧
    write_operation_calls
        ⟨4096, true, true, true, false, 0x7f0000000000, [], fun _ => 0, fun _ _ => 0⟩
        ⟨WRITE, ASSIGN, "/dev/mem".toList, 0x1000, 0x10, 0x10, 1, 0xff, BYTE⟩ =
      ⟨[Event.open_ "/dev/mem".toList true, Event.mmap 4096 true 0x1000, Event.munmap 4096,
        Event.stdout "Memory unmap failed.\n".toList], Outcome.returned 1⟩ ∧
    read_operation 1 3
        ⟨4096, true, true, true, true, 0x7f0000000000, [], fun _ => 0, fun _ _ => 0x41⟩
        ⟨READ, ASSIGN, "/dev/mem".toList, 0x1000, 3, 3, 1, 0, BYTE⟩ =
      ⟨[Event.open_ "/dev/mem".toList false, Event.mmap 4096 false 0x1000,
        Event.stdout "0x7f0000000000 0x7f0000000000\n".toList,
        Event.stdout
          "00001000: 41 41 41                                          |AAA             |\n".toList,
        Event.free, Event.close, Event.munmap 4096], Outcome.returned 0⟩ := by
  refine ⟨by decide, by decide, by decide, by decide⟩

/-! ## hexdump: the panel of the row that ends at byte `2 ^ 32` -/

set_option maxRecDepth 8192 in
/-- C10, where it fails: a WORD dump of `2 ^ 31` elements, every byte of the buffer being
`0x41` (the letter `A`), ends, and its last line shows the 8 elements of the last row (16
bytes) with nothing between the two bars instead of 16 letters `A`: `m = 16 + n` wraps to `0`
in `unsigned int`, so the panel loop reads no byte. -/
theorem hexdump_panel_missing :
    (∃ out, hexdump (2 ^ 31) (some (fun _ => 0x41)) (2 ^ 31) 0 WORD [] = some out ∧
      "fffffff0: 4141 4141 4141 4141  4141 4141 4141 4141  ||".toList ∈ text_lines out) ∧
    2 ^ 31 - (2 ^ 31 - 8) = hexdump_mod WORD ∧
    hexdump_mod WORD * hexdump_bytes WORD = 16 ∧
    ascii_char 0x41 = 'A' := by
  refine ⟨?_, by decide, by decide, by decide⟩
  have hrun := hexdump_loop_run (fun _ => 0x41) (2 ^ 31) 0 WORD [] (by norm_num) (2 ^ 31) 0
    (by norm_num)
  have hsplit : List.range' 0 (2 ^ 31 - 0) =
      List.range' 0 (2 ^ 31 - 9) ++ List.range' (2 ^ 31 - 9) 9 := by
    have h := List.range'_append_1 0 (2 ^ 31 - 9) 9
    rw [Nat.zero_add] at h
    rw [h]
    rfl
  have hlast : (List.range' (2 ^ 31 - 9) 9).flatMap
      (fun j => (hexdump_step (fun _ => 0x41) (2 ^ 31) 0 WORD [] j).2) =
      "4141  |AAAAAAAAAAAAAAAA|".toList ++ '\n' ::
        ("fffffff0: 4141 4141 4141 4141  4141 4141 4141 4141  ||".toList ++ ['\n']) := by
    decide
  have hline : text_lines
      ("fffffff0: 4141 4141 4141 4141  4141 4141 4141 4141  ||".toList ++ ['\n']) =
      ["fffffff0: 4141 4141 4141 4141  4141 4141 4141 4141  ||".toList] :=
    text_lines_line _ [] (by decide)
  refine ⟨_, hrun, ?_⟩
  rw [hsplit, List.flatMap_append, hlast, ← List.append_assoc, text_lines_append_newline,
    hline]
  exact List.mem_append_right _ (List.mem_singleton.2 rfl)

end Pmat
